import Mathlib

/-! # Studio Encantador: the localisation core

A shallow embedding of `src/js/language-system.js` and
`src/js/translation-system.js`, followed by the theorems that settle the
specification's claims about them.

Conventions of the embedding

* JavaScript strings are Lean `String`s; the library functions used by the
  source (`toLowerCase`, `includes`, `startsWith`, `split`, `replace`) are
  defined on the underlying character lists.
* A value that may be absent (`null` / `undefined`) is an `Option`, or a
  `JsValue` where the source inspects it dynamically.
* Stateful code is explicit state passing; an `async` function is its
  sequential run, the awaited outcomes being inputs of the model.
* A raised exception is the `Except.error` result.
* What a property read finds beyond the own properties of a value, on the
  prototype chain of the engine, is a parameter, `Host`.
-/

namespace Encantador

/-! ## JavaScript strings -/

/-- `String.prototype.toLowerCase`, on the ASCII letters `A`–`Z` (locale tags are
ASCII); every other character is kept. -/
def toLowerCase (s : String) : String := ⟨s.data.map Char.toLower⟩

/-- Whether `sub` occurs in `s` as a contiguous run, on character lists. -/
def includesChars : List Char → List Char → Bool
  | [], sub => sub.isEmpty
  | c :: cs, sub => sub.isPrefixOf (c :: cs) || includesChars cs sub

/-- `String.prototype.includes`. -/
def includes (s sub : String) : Bool := includesChars s.data sub.data

/-- `String.prototype.startsWith`. -/
def startsWith (s pre : String) : Bool := pre.data.isPrefixOf s.data

/-! ## LanguageDetector (`src/js/language-system.js`) -/

/-- The part of the browser's `navigator` object that the detector reads. An
absent property is `none`. -/
structure Navigator where
  languages : Option (List String)
  language : Option String
  userLanguage : Option String

/-- The field `supportedLanguages` set by the constructor. -/
def supportedLanguages : List String := ["en", "zh-hk", "zh-cn"]

/-- `LanguageDetector.normalizeLanguageCode`. The argument is `none` for a
`null` or `undefined` tag. -/
def normalizeLanguageCode (langCode : Option String) : String :=
  match langCode with
  | none => "en"
  | some code =>
    if code = "" then "en"
    else
      let lower := toLowerCase code
      if includes lower "zh-hk" || includes lower "zh_hk" then "zh-hk"
      else if includes lower "zh-cn" || includes lower "zh_cn" || includes lower "zh-hans" then
        "zh-cn"
      else if startsWith lower "zh" then "zh-hk"
      else if startsWith lower "en" then "en"
      else "en"

/-- The loop over `navigator.languages` in `detectBrowserLanguage`: the first
tag whose normalised form is a supported language decides. -/
def detectFromList : List String → Option String
  | [] => none
  | lang :: rest =>
    let normalizedLang := normalizeLanguageCode (some lang)
    if supportedLanguages.contains normalizedLang then some normalizedLang
    else detectFromList rest

/-- The JavaScript expression `a || b` on two optional strings: `a` unless it is
absent or empty. -/
def orElseFalsy (a b : Option String) : Option String :=
  match a with
  | some s => if s = "" then b else some s
  | none => b

/-- `LanguageDetector.detectBrowserLanguage`. -/
def detectBrowserLanguage (navigator : Navigator) : String :=
  let fromList : Option String :=
    match navigator.languages with
    | some (lang :: rest) => detectFromList (lang :: rest)
    | _ => none
  match fromList with
  | some found => found
  | none =>
    let browserLang := orElseFalsy navigator.language navigator.userLanguage
    let normalizedLang := normalizeLanguageCode browserLang
    if supportedLanguages.contains normalizedLang then normalizedLang else "en"

/-! ## JavaScript values -/

/-- The values the code handles: the values a parsed JSON text can hold,
`undefined`, and the values of the engine (its functions and prototype objects)
that a property read can reach. A number is held as what the code observes of
it: the text `String(n)` gives and whether it is truthy. An engine value is
named by an identifier and held with the text `String(v)` gives. A document, and
whatever else is parsed from a JSON text, holds no engine value. -/
inductive JsValue where
  | undefined
  | null
  | bool (b : Bool)
  | num (text : String) (truthy : Bool)
  | str (s : String)
  | arr (items : List JsValue)
  | obj (props : List (String × JsValue))
  | native (id : String) (shown : String)
  deriving Repr, Inhabited

/-- The exceptions raised by the modelled code. -/
inductive JsError where
  | typeError (message : String)
  | domException (name : String)
  | error (message : String)
  deriving Repr, DecidableEq, Inhabited

namespace JsValue

/-- Test `v === undefined`. -/
def isUndefined : JsValue → Bool
  | undefined => true
  | _ => false

/-- Test `v === undefined || v === null`. -/
def isNullish : JsValue → Bool
  | undefined => true
  | null => true
  | _ => false

/-- Truthiness, as `&&`, `||`, `!` and `if` decide it. -/
def truthy : JsValue → Bool
  | undefined => false
  | null => false
  | bool b => b
  | num _ nonzero => nonzero
  | str s => s != ""
  | arr _ => true
  | obj _ => true
  | native _ _ => true

/-- The first property of that name in a property list. -/
def lookupProp : List (String × JsValue) → String → JsValue
  | [], _ => undefined
  | (k, v) :: rest, key => if k = key then v else lookupProp rest key

/-- The index a property name denotes, if it is the decimal form of a natural
number below `bound`. -/
def indexOfKey (bound : Nat) (key : String) : Option Nat :=
  (List.range bound).find? (fun i => toString i = key)

/-- A number that counts something, as `num` holds it. -/
def ofNat (n : Nat) : JsValue := num (toString n) (n != 0)

/-- Whether `key` names an own property of the value: an entry of an object, an
element or the `length` of an array, a character or the `length` of a string. -/
def hasOwn (v : JsValue) (key : String) : Bool :=
  match v with
  | obj props => (props.map Prod.fst).contains key
  | arr items => key = "length" || (indexOfKey items.length key).isSome
  | str s => key = "length" || (indexOfKey s.length key).isSome
  | _ => false

/-- The own property `key` of a value, `undefined` when it has none: the entries
of an object, the elements and `length` of an array, the characters and `length`
of a string. -/
def getProp (v : JsValue) (key : String) : JsValue :=
  match v with
  | obj props => lookupProp props key
  | arr items =>
    if key = "length" then ofNat items.length
    else match indexOfKey items.length key with
      | some i => items.getD i undefined
      | none => undefined
  | str s =>
    if key = "length" then ofNat s.length
    else match indexOfKey s.length key with
      | some i => str (String.singleton (s.data.getD i ' '))
      | none => undefined
  | _ => undefined

/-- `Object.keys(v)`: raises on `null` and `undefined`. The properties of the
engine's own objects are not enumerable. -/
def objectKeys : JsValue → Except JsError (List String)
  | undefined => .error (.typeError "Cannot convert undefined or null to object")
  | null => .error (.typeError "Cannot convert undefined or null to object")
  | obj props => .ok (props.map Prod.fst)
  | arr items => .ok ((List.range items.length).map toString)
  | str s => .ok ((List.range s.length).map toString)
  | _ => .ok []

mutual
/-- `String(v)`. An object without an own property `toString` has the inherited
one, which gives `[object Object]`; an own `toString` of an object parsed from a
JSON text is not a function, and the conversion raises a `TypeError`. -/
def toJsString : JsValue → Except JsError String
  | undefined => .ok "undefined"
  | null => .ok "null"
  | bool b => .ok (if b then "true" else "false")
  | num text _ => .ok text
  | str s => .ok s
  | arr items =>
    match joinParts items with
    | .ok parts => .ok (String.intercalate "," parts)
    | .error e => .error e
  | obj props =>
    if (props.map Prod.fst).contains "toString" then
      .error (.typeError "Cannot convert object to primitive value")
    else .ok "[object Object]"
  | native _ shown => .ok shown
/-- The pieces `Array.prototype.join` puts together, from left to right: the
empty string for `null` and `undefined`, `String(item)` otherwise. -/
def joinParts : List JsValue → Except JsError (List String)
  | [] => .ok []
  | item :: rest =>
    match (if item.isNullish then .ok "" else toJsString item) with
    | .error e => .error e
    | .ok part =>
      match joinParts rest with
      | .ok parts => .ok (part :: parts)
      | .error e => .error e
end

end JsValue

open JsValue

/-- What the engine decides beyond the data of a JSON text. `inherited v key` is
the outcome of the read `v[key]` on a value, neither `null` nor `undefined`,
that has no own property `key`: the member found on the prototype chain,
`undefined` when the chain has none, or the exception that a getter raises; of
an engine value every read is of this kind. `replace text variables` is the
outcome of the call `text.replace(pattern, callback)` of `interpolateVariables`
when the read `text.replace` gives an engine value. -/
structure Host where
  inherited : JsValue → String → Except JsError JsValue
  replace : JsValue → JsValue → Except JsError JsValue

/-- The property read `v[key]`: the own property, or else what the prototype
chain gives; `null` and `undefined` have no properties. -/
def readProp (host : Host) (v : JsValue) (key : String) : Except JsError JsValue :=
  if v.isNullish then .error (.typeError "Cannot read properties of null or undefined")
  else if v.hasOwn key then .ok (getProp v key)
  else host.inherited v key

/-! ## TranslationLoader (`src/js/translation-system.js`) -/

/-- What `await fetch(url)` followed by `await response.json()` can come to:
`fetch` rejects, or it resolves to a response with a status whose body parses
to a value (`some`) or fails to parse (`none`). -/
inductive FetchOutcome where
  | rejected
  | response (status : Nat) (json : Option JsValue)
  deriving Repr, Inhabited

/-- The network layer: the outcome of a request, given how many requests were
made before it and its URL. -/
abbrev Network := Nat → String → FetchOutcome

/-- `Response.ok`: the status is in the range 200–299. -/
def statusOk (status : Nat) : Bool := 200 ≤ status && status ≤ 299

/-- `Map.prototype.has` on the cache, a list of entries with distinct keys. -/
def cacheHas : List (String × JsValue) → String → Bool
  | [], _ => false
  | (k, _) :: rest, key => k = key || cacheHas rest key

/-- `Map.prototype.get`. -/
def cacheGet : List (String × JsValue) → String → JsValue
  | [], _ => .undefined
  | (k, v) :: rest, key => if k = key then v else cacheGet rest key

/-- `Map.prototype.set`: replaces the value of a present key, appends a new one. -/
def cacheSet : List (String × JsValue) → String → JsValue → List (String × JsValue)
  | [], key, value => [(key, value)]
  | (k, v) :: rest, key, value =>
    if k = key then (k, value) :: rest else (k, v) :: cacheSet rest key value

/-- `Map.prototype.delete`. -/
def cacheDelete : List (String × JsValue) → String → List (String × JsValue)
  | [], _ => []
  | (k, v) :: rest, key => if k = key then rest else (k, v) :: cacheDelete rest key

/-- A `TranslationLoader`, with the log of the URLs it has passed to `fetch`,
oldest first. -/
structure TranslationLoader where
  cache : List (String × JsValue)
  baseUrl : String
  requests : List String
  deriving Repr, Inhabited

/-- The constructor of `TranslationLoader`. -/
def TranslationLoader.new : TranslationLoader :=
  { cache := [], baseUrl := "/src/translations", requests := [] }

/-- The URL of a locale's translation file. -/
def TranslationLoader.url (self : TranslationLoader) (language : String) : String :=
  self.baseUrl ++ "/" ++ language ++ ".json"

/-- `TranslationLoader.loadTranslations`. -/
def TranslationLoader.loadTranslations (network : Network) (self : TranslationLoader)
    (language : String) : JsValue × TranslationLoader :=
  if cacheHas self.cache language then (cacheGet self.cache language, self)
  else
    let url := self.url language
    let sent := { self with requests := self.requests ++ [url] }
    match network self.requests.length url with
    | .rejected => (.obj [], sent)
    | .response status json =>
      if !statusOk status then (.obj [], sent)
      else match json with
        | none => (.obj [], sent)
        | some translations =>
          (translations, { sent with cache := cacheSet sent.cache language translations })

/-- `TranslationLoader.loadTranslationsWithFallback`. -/
def TranslationLoader.loadTranslationsWithFallback (network : Network)
    (self : TranslationLoader) (language : String) :
    Except JsError JsValue × TranslationLoader :=
  let (translations, self1) := self.loadTranslations network language
  match objectKeys translations with
  | .error e => (.error e, self1)
  | .ok keys =>
    if keys.length = 0 && language != "en" then
      let (fallback, self2) := self1.loadTranslations network "en"
      (.ok fallback, self2)
    else (.ok translations, self1)

/-- `TranslationLoader.clearCache`; `none` is a call without an argument (or with
`null`). An empty string is falsy and clears everything as well. -/
def TranslationLoader.clearCache (self : TranslationLoader) (language : Option String) :
    TranslationLoader :=
  match language with
  | some l => if l = "" then { self with cache := [] }
              else { self with cache := cacheDelete self.cache l }
  | none => { self with cache := [] }

/-- `TranslationLoader.isCached`. -/
def TranslationLoader.isCached (self : TranslationLoader) (language : String) : Bool :=
  cacheHas self.cache language


/-! ## TranslationManager (`src/js/translation-system.js`) -/

/-- The custom events the localisation core dispatches on `document`, with
their `detail`. -/
inductive DomEvent where
  | missingTranslation (key : String) (language : String)
  | translationsLoaded (language : String) (translations : JsValue)
  | languageChanged (language : String) (previousLanguage : String)
  deriving Repr, Inhabited

/-- A `TranslationManager`: its fields `translations`, `currentLanguage` and
`missingKeys` (a `Set`, held in insertion order), and the events it has
dispatched on `document`, oldest first. The injected loader enters
`switchLanguage` through the outcome of its call. -/
structure TranslationManager where
  translations : JsValue
  currentLanguage : String
  missingKeys : List String
  dispatched : List DomEvent
  deriving Repr, Inhabited

/-- The constructor of `TranslationManager`. -/
def TranslationManager.new : TranslationManager :=
  { translations := .obj [], currentLanguage := "en", missingKeys := [], dispatched := [] }

/-- `String.prototype.split` with a one-character separator, on character
lists: there is always at least one segment. -/
def splitChars (sep : Char) : List Char → List (List Char)
  | [] => [[]]
  | c :: cs =>
    match splitChars sep cs with
    | [] => [[]]
    | seg :: segs => if c = sep then [] :: seg :: segs else (c :: seg) :: segs

/-- `path.split('.')`. -/
def splitPath (path : String) : List String := (splitChars '.' path.data).map String.mk

/-- The reducer of `getNestedValue`:
`current && current[key] !== undefined ? current[key] : undefined`, which is
`undefined` for a falsy `current` and what the read `current[key]` gives
otherwise. -/
def nestedStep (host : Host) (current : JsValue) (key : String) : Except JsError JsValue :=
  if current.truthy then readProp host current key else .ok .undefined

/-- The `reduce` of `getNestedValue` over the segments of the path; a read that
raises ends it. -/
def walkPath (host : Host) : List String → JsValue → Except JsError JsValue
  | [], current => .ok current
  | key :: rest, current =>
    match nestedStep host current key with
    | .error e => .error e
    | .ok next => walkPath host rest next

/-- `TranslationManager.getNestedValue`. -/
def getNestedValue (host : Host) (obj : JsValue) (path : String) : Except JsError JsValue :=
  walkPath host (splitPath path) obj

/-- The class `\w` of the regular expression: ASCII letters, digits and `_`. -/
def isWordChar (c : Char) : Bool := c.isAlphanum || c == '_'

/-- Whether the text right after a `{` completes a match of `\{(\w+)\}`, and
the captured name: the longest run of word characters, which must be non-empty
and followed by `}`. -/
def placeholderName (rest : List Char) : Option (List Char) :=
  match rest.takeWhile isWordChar, rest.dropWhile isWordChar with
  | c :: name, '}' :: _ => some (c :: name)
  | _, _ => none

/-- `text.replace(/\{(\w+)\}/g, callback)` on character lists: the matches are
found from left to right and do not overlap; `callback` receives the matched
text and the captured name, and an exception it raises ends the call. The first
argument counts the characters of a match still to be skipped. -/
def replacePlaceholders (callback : String → String → Except JsError String) :
    Nat → List Char → Except JsError (List Char)
  | _, [] => .ok []
  | skip + 1, _ :: rest => replacePlaceholders callback skip rest
  | 0, c :: rest =>
    if c = '{' then
      match placeholderName rest with
      | some name =>
        match callback ⟨'{' :: name ++ ['}']⟩ ⟨name⟩ with
        | .error e => .error e
        | .ok replacement =>
          match replacePlaceholders callback (name.length + 1) rest with
          | .error e => .error e
          | .ok tail => .ok (replacement.data ++ tail)
      | none =>
        match replacePlaceholders callback 0 rest with
        | .error e => .error e
        | .ok tail => .ok (c :: tail)
    else
      match replacePlaceholders callback 0 rest with
      | .error e => .error e
      | .ok tail => .ok (c :: tail)

/-- The replacement callback of `interpolateVariables`:
`value !== null && value !== undefined ? String(value) : match`, where `value`
is what the read `variables[key]` gives. -/
def interpolationCallback (host : Host) (vars : JsValue) (matched key : String) :
    Except JsError String :=
  match readProp host vars key with
  | .error e => .error e
  | .ok value => if !value.isNullish then toJsString value else .ok matched

/-- `TranslationManager.interpolateVariables`. The `replace` of a string is
`String.prototype.replace`. For another `text` the read `text.replace` decides:
the call is the engine's when it gives an engine value, and a `TypeError`
otherwise, as for every value of a JSON text in an engine whose prototypes have
no member `replace`. -/
def interpolateVariables (host : Host) (text : JsValue) (vars : JsValue) :
    Except JsError JsValue :=
  match text with
  | .str s =>
    match replacePlaceholders (interpolationCallback host vars) 0 s.data with
    | .error e => .error e
    | .ok replaced => .ok (.str ⟨replaced⟩)
  | _ =>
    match readProp host text "replace" with
    | .error e => .error e
    | .ok (.native _ _) => host.replace text vars
    | .ok _ => .error (.typeError "text.replace is not a function")

namespace TranslationManager

/-- `TranslationManager.trackMissingKey`. -/
def trackMissingKey (self : TranslationManager) (key : String) : TranslationManager :=
  if self.missingKeys.contains key then self
  else
    { self with
      missingKeys := self.missingKeys ++ [key]
      dispatched := self.dispatched ++ [.missingTranslation key self.currentLanguage] }

/-- `TranslationManager.t`. A call without a second argument passes
`undefined`, which the default parameter replaces by an empty object. -/
def t (host : Host) (self : TranslationManager) (key : String) (vars : JsValue) :
    Except JsError JsValue × TranslationManager :=
  let vars := if vars.isUndefined then JsValue.obj [] else vars
  match getNestedValue host self.translations key with
  | .error e => (.error e, self)
  | .ok translation =>
    if translation.isNullish then (.ok (.str key), self.trackMissingKey key)
    else if !vars.truthy then (.ok translation, self)
    else
      match objectKeys vars with
      | .error e => (.error e, self)
      | .ok keys =>
        if keys.length > 0 then (interpolateVariables host translation vars, self)
        else (.ok translation, self)

/-- `TranslationManager.getMissingKeys`. -/
def getMissingKeys (self : TranslationManager) : List String := self.missingKeys

/-- `TranslationManager.clearMissingKeys`. -/
def clearMissingKeys (self : TranslationManager) : TranslationManager :=
  { self with missingKeys := [] }

/-- `TranslationManager.getCurrentLanguage`. -/
def getCurrentLanguage (self : TranslationManager) : String := self.currentLanguage

/-- `TranslationManager.hasTranslation`. -/
def hasTranslation (host : Host) (self : TranslationManager) (key : String) :
    Except JsError Bool :=
  match getNestedValue host self.translations key with
  | .error e => .error e
  | .ok value => .ok (!value.isUndefined)

end TranslationManager

/-! ## The document and its synchronisation -/

/-- A DOM node: a text node, or an element with its attributes and children. -/
inductive Node where
  | text (data : String)
  | element (attrs : List (String × String)) (children : List Node)
  deriving Repr, Inhabited

/-- `Element.getAttribute`; `none` is the `null` of an absent attribute. -/
def getAttribute : List (String × String) → String → Option String
  | [], _ => none
  | (k, v) :: rest, name => if k = name then some v else getAttribute rest name

/-- `Element.setAttribute`. -/
def setAttribute : List (String × String) → String → String → List (String × String)
  | [], name, value => [(name, value)]
  | (k, v) :: rest, name, value =>
    if k = name then (k, value) :: rest else (k, v) :: setAttribute rest name value

/-- What an element is given by one of the four loops of `updateDOM`: its
`textContent`, or the property or attribute of that name (`placeholder` and
`title` are kept under the attribute they reflect). -/
inductive SyncTarget where
  | textContent
  | attr (name : String)
  deriving Repr, DecidableEq, Inhabited

/-- The children of an element whose `textContent` is set to a text. -/
def textNodes (text : String) : List Node := if text = "" then [] else [.text text]

/-- The children of an element after `element.textContent = value`: `null` and
`undefined` are taken as the empty text, another value is converted as
`String(value)` is, which can raise. -/
def textChildren (value : JsValue) : Except JsError (List Node) :=
  if value.isNullish then .ok []
  else
    match toJsString value with
    | .error e => .error e
    | .ok text => .ok (textNodes text)

/-- The `variables` of the first loop of `updateDOM`: the parsed
`data-translate-vars` attribute, or `{}` when it is absent, empty or fails to
parse. `jsonParse` is `JSON.parse`, `none` where it raises. -/
def parseVars (jsonParse : String → Option JsValue) (attrs : List (String × String)) :
    JsValue :=
  match getAttribute attrs "data-translate-vars" with
  | none => .obj []
  | some varsAttr =>
    if varsAttr = "" then .obj []
    else match jsonParse varsAttr with
      | some parsed => parsed
      | none => .obj []

/-- The state of a run of `updateDOM`: the manager, and the exception that ended
the run if one was raised. -/
structure SyncState where
  manager : TranslationManager
  raised : Option JsError
  deriving Repr, Inhabited

/-- The second argument `t` is called with by a loop of `updateDOM`: the parsed
variables in the text loop, none in the others. -/
def syncVars (jsonParse : String → Option JsValue) (target : SyncTarget)
    (attrs : List (String × String)) : JsValue :=
  match target with
  | .textContent => parseVars jsonParse attrs
  | .attr _ => .undefined

mutual
/-- One loop of `updateDOM` below a node: `querySelectorAll('[selector]')` lists
the elements in document order, and `forEach` gives each the translation of its
key. Setting `textContent` removes the children, which, being in the list
already, are still visited. Nothing is done once an exception is raised, by `t`
or by the conversion of its result to a text. -/
def syncNode (host : Host) (jsonParse : String → Option JsValue) (selector : String)
    (target : SyncTarget) : Node → SyncState → Node × SyncState
  | .text data, st => (.text data, st)
  | .element attrs children, st =>
    match getAttribute attrs selector, st.raised with
    | some key, none =>
      match st.manager.t host key (syncVars jsonParse target attrs) with
      | (.error e, manager) => (.element attrs children, ⟨manager, some e⟩)
      | (.ok value, manager) =>
        match target with
        | .textContent =>
          match textChildren value with
          | .error e => (.element attrs children, ⟨manager, some e⟩)
          | .ok nodes =>
            let visited :=
              syncNodes host jsonParse selector target children ⟨manager, none⟩
            (.element attrs nodes, visited.2)
        | .attr name =>
          match toJsString value with
          | .error e => (.element attrs children, ⟨manager, some e⟩)
          | .ok text =>
            let visited :=
              syncNodes host jsonParse selector target children ⟨manager, none⟩
            (.element (setAttribute attrs name text) visited.1, visited.2)
    | _, _ =>
      let visited := syncNodes host jsonParse selector target children st
      (.element attrs visited.1, visited.2)
/-- The loop of `syncNode` over a list of sibling nodes. -/
def syncNodes (host : Host) (jsonParse : String → Option JsValue) (selector : String)
    (target : SyncTarget) : List Node → SyncState → List Node × SyncState
  | [], st => ([], st)
  | node :: rest, st =>
    let first := syncNode host jsonParse selector target node st
    let others := syncNodes host jsonParse selector target rest first.2
    (first.1 :: others.1, others.2)
end

/-- A page: the translation manager and the document it synchronises. -/
structure Page where
  manager : TranslationManager
  document : List Node
  deriving Repr, Inhabited

namespace Page

/-- `TranslationManager.updateDOM`. -/
def updateDOM (host : Host) (jsonParse : String → Option JsValue) (self : Page) :
    Except JsError Unit × Page :=
  let text := syncNodes host jsonParse "data-translate" .textContent self.document
    ⟨self.manager, none⟩
  let placeholder := syncNodes host jsonParse "data-translate-placeholder"
    (.attr "placeholder") text.1 text.2
  let title := syncNodes host jsonParse "data-translate-title" (.attr "title")
    placeholder.1 placeholder.2
  let ariaLabel := syncNodes host jsonParse "data-translate-aria-label" (.attr "aria-label")
    title.1 title.2
  let page : Page := { manager := ariaLabel.2.manager, document := ariaLabel.1 }
  match ariaLabel.2.raised with
  | some e => (.error e, page)
  | none => (.ok (), page)

/-- `TranslationManager.switchLanguage`. `loaded` is what the awaited
`this.loader.loadTranslationsWithFallback(language)` came to: the document it
resolved to, or the error it rejected with. -/
def switchLanguage (host : Host) (jsonParse : String → Option JsValue) (self : Page)
    (language : String) (loaded : Except JsError JsValue) : Page :=
  match loaded with
  | .error _ => { self with manager := { self.manager with translations := .obj [] } }
  | .ok translations =>
    let updated : TranslationManager :=
      { self.manager with translations := translations, currentLanguage := language }
    let cleared := updated.clearMissingKeys
    match updateDOM host jsonParse { self with manager := cleared } with
    | (.error _, page) => { page with manager := { page.manager with translations := .obj [] } }
    | (.ok _, page) =>
      { page with
        manager :=
          { page.manager with
            dispatched :=
              page.manager.dispatched ++ [.translationsLoaded language translations] } }

end Page

/-! ## LanguageDetector: the stored preference (`src/js/language-system.js`) -/

/-- The field `storageKey` set by the constructor of `LanguageDetector`. -/
def storageKey : String := "studio-encantador-language"

/-- `localStorage.getItem`; `none` is the `null` of an absent item. The store is
the list of its items. -/
def getItem : List (String × String) → String → Option String
  | [], _ => none
  | (k, v) :: rest, key => if k = key then some v else getItem rest key

/-- `localStorage.setItem`, taken to succeed. -/
def setItem : List (String × String) → String → String → List (String × String)
  | [], key, value => [(key, value)]
  | (k, v) :: rest, key, value =>
    if k = key then (k, value) :: rest else (k, v) :: setItem rest key value

/-- `LanguageDetector.saveLanguagePreference`. -/
def saveLanguagePreference (localStorage : List (String × String)) (language : String) :
    List (String × String) :=
  if supportedLanguages.contains language then setItem localStorage storageKey language
  else localStorage

/-- `LanguageDetector.getStoredLanguagePreference`. -/
def getStoredLanguagePreference (localStorage : List (String × String)) : Option String :=
  getItem localStorage storageKey

/-- `LanguageDetector.getPreferredLanguage`. -/
def getPreferredLanguage (localStorage : List (String × String)) (navigator : Navigator) :
    String :=
  match getStoredLanguagePreference localStorage with
  | some storedLang =>
    if storedLang != "" && supportedLanguages.contains storedLang then storedLang
    else detectBrowserLanguage navigator
  | none => detectBrowserLanguage navigator

/-! ## LanguageSwitcher (`src/js/language-system.js`) -/

/-- What the browser decides for the switcher. `pushedPath pathname url` is the
pathname of a document at `pathname` after `history.pushState(state, '', url)`,
or `none` when the browser refuses the URL and raises a `SecurityError`.
`selectorValue text` is the value that the quoted string `"text"` denotes in the
selector `[data-lang="text"]`, or `none` when the selector is invalid and
`querySelector` raises a `SyntaxError`; it is asked only about a text with a
character other than a letter, a digit, `-` or `_`. -/
structure BrowserApi where
  pushedPath : String → String → Option String
  selectorValue : String → Option String

/-- What the switcher does that others can observe, in the order it happens: a
call of `history.pushState` with the state `{ language }` and a URL, a call of
the content-update callback with a locale, an event dispatched on `document`,
and a `setTimeout` of the removal of the transition class. -/
inductive Effect where
  | pushState (language : String) (url : String)
  | callback (language : String)
  | dispatch (event : DomEvent)
  | setTimeout (delay : Nat)
  deriving Repr, Inhabited

/-- An element of the document that bears the class `lang-btn` or a `data-lang`
attribute: whether it has the class, the attribute, whether it has the class
`active`, whether it lies inside the first `.language-switcher` element, and how
many click listeners `initializeComponent` has given it. -/
structure LangElement where
  langBtn : Bool
  dataLang : Option String
  active : Bool
  inSwitcher : Bool
  clickListeners : Nat
  deriving Repr, DecidableEq, Inhabited

/-- The browser state the switcher reads and writes: `location.pathname`,
`document.documentElement.lang`, the items of `localStorage`, whether `body` has
the class `language-transitioning`, the elements above in document order, and
the log of effects, oldest first. -/
structure Browser where
  pathname : String
  documentLang : String
  localStorage : List (String × String)
  transitioning : Bool
  langElements : List LangElement
  log : List Effect
  deriving Repr, Inhabited

/-- A `LanguageSwitcher`. -/
structure LanguageSwitcher where
  currentLanguage : String
  previousLanguage : String
  transitionDuration : Nat
  deriving Repr, DecidableEq, Inhabited

/-- The constructor of `LanguageSwitcher`. -/
def LanguageSwitcher.new : LanguageSwitcher :=
  { currentLanguage := "en", previousLanguage := "en", transitionDuration := 300 }

/-- `currentPath.replace(/^\/(zh-hk|zh-cn)/, '')`: a leading `/zh-hk` or
`/zh-cn` is removed, once. -/
def stripLocalePrefix (path : String) : String :=
  if startsWith path "/zh-hk" || startsWith path "/zh-cn" then ⟨path.data.drop 6⟩ else path

/-- The `newPath` that `updateURL` computes from the current path. -/
def newPathFor (language : String) (currentPath : String) : String :=
  let pathWithoutLang :=
    if stripLocalePrefix currentPath = "" then "/" else stripLocalePrefix currentPath
  if language = "zh-hk" then
    "/zh-hk" ++ (if pathWithoutLang = "/" then "/" else pathWithoutLang)
  else if language = "zh-cn" then
    "/zh-cn" ++ (if pathWithoutLang = "/" then "/" else pathWithoutLang)
  else pathWithoutLang

/-- `LanguageSwitcher.updateURL`. -/
def updateURL (api : BrowserApi) (language : String) (browser : Browser) :
    Except JsError Unit × Browser :=
  let newPath := newPathFor language browser.pathname
  let called := { browser with log := browser.log ++ [.pushState language newPath] }
  match api.pushedPath browser.pathname newPath with
  | some pathname => (.ok (), { called with pathname := pathname })
  | none => (.error (.domException "SecurityError"), called)

/-- `LanguageSwitcher.getLanguageFromURL`. -/
def getLanguageFromURL (browser : Browser) : String :=
  if startsWith browser.pathname "/zh-hk" then "zh-hk"
  else if startsWith browser.pathname "/zh-cn" then "zh-cn"
  else "en"

/-- `LanguageSwitcher.updateDocumentLanguage`. -/
def updateDocumentLanguage (language : String) (browser : Browser) : Browser :=
  { browser with documentLang := language }

/-- A character that stands for itself in a quoted CSS string. -/
def isPlainChar (c : Char) : Bool := c.isAlphanum || c == '-' || c == '_'

/-- The `data-lang` value that `[data-lang="${activeLanguage}"]` selects, if
the selector is valid. -/
def langSelectorValue (api : BrowserApi) (activeLanguage : String) : Option String :=
  if activeLanguage.data.all isPlainChar then some activeLanguage
  else api.selectorValue activeLanguage

/-- The first element with that `data-lang` value is given the class `active`. -/
def activateFirst (value : String) : List LangElement → List LangElement
  | [] => []
  | element :: rest =>
    if element.dataLang = some value then { element with active := true } :: rest
    else element :: activateFirst value rest

/-- `LanguageSwitcher.updateActiveLanguageButton`. -/
def updateActiveLanguageButton (api : BrowserApi) (activeLanguage : String)
    (browser : Browser) : Except JsError Unit × Browser :=
  let allButtons := browser.langElements.map fun btn =>
    if btn.langBtn then { btn with active := false } else btn
  match langSelectorValue api activeLanguage with
  | none => (.error (.domException "SyntaxError"), { browser with langElements := allButtons })
  | some value =>
    (.ok (), { browser with langElements := activateFirst value allButtons })

/-- `LanguageSwitcher.emitLanguageChangeEvent`. -/
def emitLanguageChangeEvent (self : LanguageSwitcher) (newLanguage : String)
    (browser : Browser) : Browser :=
  { browser with
    log := browser.log ++ [.dispatch (.languageChanged newLanguage self.previousLanguage)] }

/-- The `try` block of `LanguageSwitcher.switchLanguage`. The callback is
`none` when the second argument is absent or not a function; it is given by what
the awaited call comes to, and is taken not to touch the switcher or the
browser state modelled here. -/
def switchLanguageBody (api : BrowserApi) (self : LanguageSwitcher) (browser : Browser)
    (targetLanguage : String) (contentUpdateCallback : Option (String → Except JsError Unit)) :
    Except JsError Unit × LanguageSwitcher × Browser :=
  match updateURL api targetLanguage browser with
  | (.error e, browser) => (.error e, self, browser)
  | (.ok _, browser) =>
    let browser := updateDocumentLanguage targetLanguage browser
    match updateActiveLanguageButton api targetLanguage browser with
    | (.error e, browser) => (.error e, self, browser)
    | (.ok _, browser) =>
      let browser :=
        { browser with
          localStorage := saveLanguagePreference browser.localStorage targetLanguage }
      let self := { self with currentLanguage := targetLanguage }
      match contentUpdateCallback with
      | none => (.ok (), self, emitLanguageChangeEvent self targetLanguage browser)
      | some callback =>
        let browser := { browser with log := browser.log ++ [.callback targetLanguage] }
        match callback targetLanguage with
        | .error e => (.error e, self, browser)
        | .ok _ => (.ok (), self, emitLanguageChangeEvent self targetLanguage browser)

/-- `LanguageSwitcher.switchLanguage`: the result is what the returned promise
settles to, `Except.error` being a rejection. -/
def switchLanguage (api : BrowserApi) (self : LanguageSwitcher) (browser : Browser)
    (targetLanguage : String) (contentUpdateCallback : Option (String → Except JsError Unit)) :
    Except JsError Unit × LanguageSwitcher × Browser :=
  if targetLanguage = self.currentLanguage then (.ok (), self, browser)
  else
    let self := { self with previousLanguage := self.currentLanguage }
    let browser := { browser with transitioning := true }
    let tried := switchLanguageBody api self browser targetLanguage contentUpdateCallback
    (tried.1, tried.2.1,
      { tried.2.2 with log := tried.2.2.log ++ [.setTimeout tried.2.1.transitionDuration] })

/-- The function that `switchLanguage` hands to `setTimeout`: it removes the
transition class. -/
def endTransition (browser : Browser) : Browser := { browser with transitioning := false }

/-- `LanguageSwitcher.initializeComponent`: when the document has a
`.language-switcher` element, each `.lang-btn` inside it is given a click
listener. -/
def initializeComponent (browser : Browser) : Browser :=
  { browser with
    langElements := browser.langElements.map fun btn =>
      if btn.langBtn && btn.inSwitcher then { btn with clickListeners := btn.clickListeners + 1 }
      else btn }

/-- `LanguageSwitcher.initialize`, which returns the initial locale. -/
def initializeSwitcher (api : BrowserApi) (self : LanguageSwitcher) (browser : Browser)
    (navigator : Navigator) : Except JsError String × LanguageSwitcher × Browser :=
  let urlLanguage := getLanguageFromURL browser
  let preferredLanguage := getPreferredLanguage browser.localStorage navigator
  let initialLanguage := if urlLanguage != "en" then urlLanguage else preferredLanguage
  let self := { self with currentLanguage := initialLanguage }
  let browser := updateDocumentLanguage initialLanguage browser
  match updateActiveLanguageButton api initialLanguage browser with
  | (.error e, browser) => (.error e, self, browser)
  | (.ok _, browser) => (.ok initialLanguage, self, initializeComponent browser)

/-! ## TranslationManager: statistics (`src/js/translation-system.js`) -/

/-- Test `typeof v === 'object' && v !== null`: an object or an array. -/
def JsValue.isObject : JsValue → Bool
  | .obj _ => true
  | .arr _ => true
  | _ => false

/-- The `fullKey` of `flattenKeys`: the key itself under an empty prefix, the
prefix, a dot and the key otherwise. -/
def fullKey (pre key : String) : String := if pre = "" then key else pre ++ "." ++ key

mutual
/-- The closure `flattenKeys` of `getStats`. Its `for...in` loop visits the
properties of an object (their names are distinct), the indices of an array and
of a string, and nothing of another value; a property that holds an object or
an array is flattened under its full key, any other adds its full key. -/
def flattenKeys : JsValue → String → List String
  | .obj props, pre => flattenProps props pre
  | .arr items, pre => flattenItems items 0 pre
  | .str s, pre => (List.range s.length).map fun i => fullKey pre (toString i)
  | _, _ => []
/-- The loop of `flattenKeys` over the properties of an object. -/
def flattenProps : List (String × JsValue) → String → List String
  | [], _ => []
  | (key, value) :: rest, pre =>
    (if value.isObject then flattenKeys value (fullKey pre key) else [fullKey pre key]) ++
      flattenProps rest pre
/-- The loop of `flattenKeys` over the elements of an array, from an index on. -/
def flattenItems : List JsValue → Nat → String → List String
  | [], _, _ => []
  | value :: rest, index, pre =>
    (if value.isObject then flattenKeys value (fullKey pre (toString index))
      else [fullKey pre (toString index)]) ++ flattenItems rest (index + 1) pre
end

/-- The object that `getStats` returns. -/
structure Stats where
  language : String
  totalKeys : Nat
  missingKeysCount : Nat
  missingKeys : List String
  loadedAt : String
  deriving Repr, DecidableEq, Inhabited

/-- `TranslationManager.getStats`; `now` is what `new Date().toISOString()`
gives at the call. -/
def TranslationManager.getStats (now : String) (self : TranslationManager) : Stats :=
  let totalKeys := (flattenKeys self.translations "").length
  let missingKeysCount := self.missingKeys.length
  { language := self.currentLanguage
    totalKeys := totalKeys
    missingKeysCount := missingKeysCount
    missingKeys := self.getMissingKeys
    loadedAt := now }

/-! ## The legacy LanguageSwitcher (`assets/js/languageSwitcher.js`) -/

namespace Legacy

/-- The browser state the legacy switcher reads and writes: `location.pathname`,
the items of `localStorage`, the URLs passed to `fetch` and the URLs passed to
`history.pushState`, oldest first. -/
structure Browser where
  pathname : String
  localStorage : List (String × String)
  fetched : List String
  pushed : List String
  deriving Repr, DecidableEq, Inhabited

/-- The field `supportedLanguages` set by the constructor. -/
def supportedLanguages : List String := ["en", "zh-hk", "zh-cn"]

/-- A legacy `LanguageSwitcher`: its field `currentLanguage`. The translations
it keeps are filled in by the loads it has started, after `setLanguage` has
returned. -/
structure LanguageSwitcher where
  currentLanguage : String
  deriving Repr, DecidableEq, Inhabited

/-- `LanguageSwitcher.updateURL`. -/
def updateURL (api : BrowserApi) (self : LanguageSwitcher) (browser : Browser) :
    Except JsError Unit × Browser :=
  let currentPath := browser.pathname
  let newPath := "/" ++ self.currentLanguage ++ "/"
  if currentPath != newPath then
    let called := { browser with pushed := browser.pushed ++ [newPath] }
    match api.pushedPath currentPath newPath with
    | some pathname => (.ok (), { called with pathname := pathname })
    | none => (.error (.domException "SecurityError"), called)
  else (.ok (), browser)

/-- `LanguageSwitcher.setLanguage`, up to its return. Of the async
`updateContent` that is the call of `fetch` for the file of the locale, made by
`loadTranslations`; what follows the `await` runs later. -/
def setLanguage (api : BrowserApi) (self : LanguageSwitcher) (browser : Browser)
    (lang : String) : Except JsError Unit × LanguageSwitcher × Browser :=
  if supportedLanguages.contains lang then
    let switched := { self with currentLanguage := lang }
    let stored :=
      { browser with localStorage := setItem browser.localStorage "preferred-language" lang }
    let fetching :=
      { stored with fetched := stored.fetched ++ ["/assets/translations/" ++ lang ++ ".json"] }
    let pushed := updateURL api switched fetching
    (pushed.1, switched, pushed.2)
  else (.ok (), self, browser)

end Legacy

/-! ## ContactForm (`src/js/contact-form-component.js`)

The form reads its strings one UTF-16 code unit at a time (`length`,
`substring`, `trim`, the regular expressions), so a string is here the list of
its code units. -/

namespace ContactForm

/-- The code units of a text. -/
def utf16 (s : String) : List Nat :=
  (s.data.map fun c =>
    if c.toNat < 65536 then [c.toNat]
    else [55296 + (c.toNat - 65536) / 1024, 56320 + (c.toNat - 65536) % 1024]).flatten

/-- The class `\s` of the regular expressions, which is also what `trim`
removes: the white space and line terminator code units. -/
def isWhiteSpace (u : Nat) : Bool :=
  u = 9 || u = 10 || u = 11 || u = 12 || u = 13 || u = 32 || u = 160 || u = 5760 ||
  (8192 ≤ u && u ≤ 8202) || u = 8232 || u = 8233 || u = 8239 || u = 8287 || u = 12288 ||
  u = 65279

/-- The class `\d`: the digits `0`–`9`. -/
def isDigit (u : Nat) : Bool := 48 ≤ u && u ≤ 57

/-- `String.prototype.trim`. -/
def trim (s : List Nat) : List Nat :=
  ((s.dropWhile isWhiteSpace).reverse.dropWhile isWhiteSpace).reverse

/-- The call `phone.replace(/\s/g, '')`. -/
def removeWhitespace (s : List Nat) : List Nat := s.filter fun u => !isWhiteSpace u

/-- The test of `hkMobilePattern`, `/^[569]\d{7}$/`. -/
def hkMobilePattern : List Nat → Bool
  | first :: rest =>
    (first = 53 || first = 54 || first = 57) && rest.length = 7 && rest.all isDigit
  | [] => false

/-- The test of `hkLandlinePattern`, `/^[23]\d{7}$/`. -/
def hkLandlinePattern : List Nat → Bool
  | first :: rest => (first = 50 || first = 51) && rest.length = 7 && rest.all isDigit
  | [] => false

/-- The part `\s?` of a pattern, where a digit has to follow: one white space
unit is passed over if it is there (a digit is no white space, so the match
cannot do without it). -/
def optionalSpace : List Nat → List Nat
  | [] => []
  | u :: rest => if isWhiteSpace u then rest else u :: rest

/-- The test of `hkPhoneWithCodePattern`, `/^\+852\s?[23569]\d{3}\s?\d{4}$/`. -/
def hkPhoneWithCodePattern (s : List Nat) : Bool :=
  (utf16 "+852").isPrefixOf s &&
  match optionalSpace (s.drop 4) with
  | [] => false
  | first :: rest =>
    (first = 50 || first = 51 || first = 53 || first = 54 || first = 57) &&
    (rest.take 3).length = 3 && (rest.take 3).all isDigit &&
    (optionalSpace (rest.drop 3)).length = 4 && (optionalSpace (rest.drop 3)).all isDigit

/-- The class `[^\s@]`. -/
def isAddressUnit (u : Nat) : Bool := !isWhiteSpace u && u != 64

/-- `ContactForm.isValidEmail`, the test of `/^[^\s@]+@[^\s@]+\.[^\s@]+$/`: the
units before the first unit outside `[^\s@]` are the first part, which an `@`
follows, and what follows the `@` is of units of the class and has a `.` that
is neither its first nor its last unit. -/
def isValidEmail (email : List Nat) : Bool :=
  match email.dropWhile isAddressUnit with
  | [] => false
  | sign :: domain =>
    sign = 64 && !(email.takeWhile isAddressUnit).isEmpty && domain.all isAddressUnit &&
    (domain.drop 1).dropLast.contains 46

/-- `ContactForm.isValidHongKongPhone`. -/
def isValidHongKongPhone (phone : List Nat) : Bool :=
  let cleanPhone := removeWhitespace phone
  if (utf16 "+852").isPrefixOf cleanPhone then hkPhoneWithCodePattern phone
  else
    let phoneNumber :=
      if (utf16 "+852").isPrefixOf cleanPhone then cleanPhone.drop 4 else cleanPhone
    hkMobilePattern phoneNumber || hkLandlinePattern phoneNumber

/-- `ContactForm.formatHongKongPhone`. -/
def formatHongKongPhone (phone : List Nat) : List Nat :=
  let cleanPhone := removeWhitespace phone
  if (utf16 "+852").isPrefixOf cleanPhone then
    let number := cleanPhone.drop 4
    utf16 "+852 " ++ number.take 4 ++ utf16 " " ++ number.drop 4
  else if cleanPhone.length = 8 then
    utf16 "+852 " ++ cleanPhone.take 4 ++ utf16 " " ++ cleanPhone.drop 4
  else phone

/-- The copy of `this.translations` that `getTranslations` returns, made by an
object spread: an object of the own properties of the document. -/
def getTranslations (translations : JsValue) : JsValue :=
  match translations with
  | .obj props => .obj props
  | .arr items => .obj ((List.range items.length).map fun i => (toString i, items.getD i .undefined))
  | .str s =>
    .obj ((List.range s.length).map fun i =>
      (toString i, .str (String.singleton (s.data.getD i ' '))))
  | _ => .obj []

/-- Test `k in value` on an object or an array, by own properties. -/
def hasProperty (value : JsValue) (k : String) : Bool :=
  match value with
  | .obj props => (props.map Prod.fst).contains k
  | .arr items => k = "length" || (indexOfKey items.length k).isSome
  | _ => false

/-- The loop of `getTranslation` over the segments of the key. -/
def walkTranslation (fallback : String) : List String → JsValue → JsValue
  | [], value => if value.truthy then value else .str fallback
  | k :: rest, value =>
    if value.truthy && value.isObject && hasProperty value k then
      walkTranslation fallback rest (getProp value k)
    else .str fallback

/-- `ContactForm.getTranslation`; `translations` is the document of the shared
translation manager. -/
def getTranslation (translations : JsValue) (key fallback : String) : JsValue :=
  walkTranslation fallback (splitPath key) (getTranslations translations)

/-- The form data record: a field that the record lacks is `none`. -/
structure FormData where
  name : Option (List Nat)
  email : Option (List Nat)
  phone : Option (List Nat)
  message : Option (List Nat)
  deriving Repr, DecidableEq, Inhabited

/-- The error set that `validateForm` returns: the message under each key, `none`
for a key it lacks. -/
structure FormErrors where
  name : Option JsValue
  email : Option JsValue
  phone : Option JsValue
  message : Option JsValue
  deriving Repr, Inhabited

/-- `ContactForm.validateForm`. -/
def validateForm (translations : JsValue) (formData : FormData) : FormErrors :=
  let name :=
    match formData.name with
    | none => some (getTranslation translations "contact.form.name.required" "Name is required")
    | some text =>
      if text.isEmpty || (trim text).isEmpty then
        some (getTranslation translations "contact.form.name.required" "Name is required")
      else if (trim text).length < 2 then
        some (getTranslation translations "contact.form.name.minLength"
          "Name must be at least 2 characters")
      else none
  let email :=
    match formData.email with
    | none =>
      some (getTranslation translations "contact.form.email.required" "Email is required")
    | some text =>
      if text.isEmpty || (trim text).isEmpty then
        some (getTranslation translations "contact.form.email.required" "Email is required")
      else if !isValidEmail text then
        some (getTranslation translations "contact.form.email.invalid"
          "Please enter a valid email address")
      else none
  let phone :=
    match formData.phone with
    | none => none
    | some text =>
      if !text.isEmpty && !(trim text).isEmpty then
        if !isValidHongKongPhone text then
          some (getTranslation translations "contact.form.phone.invalid"
            "Please enter a valid Hong Kong phone number")
        else none
      else none
  let message :=
    match formData.message with
    | none =>
      some (getTranslation translations "contact.form.message.required" "Message is required")
    | some text =>
      if text.isEmpty || (trim text).isEmpty then
        some (getTranslation translations "contact.form.message.required"
          "Message is required")
      else if (trim text).length < 10 then
        some (getTranslation translations "contact.form.message.minLength"
          "Message must be at least 10 characters")
      else none
  { name := name, email := email, phone := phone, message := message }

end ContactForm

/-! ## Notions the statements below are written with -/

/-- A fetch that gives no document: it rejects, answers with a status outside
200–299, or its body fails to parse. -/
def FetchOutcome.failed : FetchOutcome → Bool
  | .rejected => true
  | .response status json => !statusOk status || json.isNone

/-- The test `Object.keys(document).length === 0` of the fallback. -/
def isEmptyDocument (document : JsValue) : Bool :=
  match objectKeys document with
  | .ok keys => keys.length == 0
  | .error _ => false

/-- A call on a loader that does not clear its cache. -/
inductive LoaderCall where
  | loadTranslations (language : String)
  | loadTranslationsWithFallback (language : String)
  | isCached (language : String)
  deriving Repr, DecidableEq, Inhabited

/-- The loader after one call. -/
def TranslationLoader.call (network : Network) (self : TranslationLoader) :
    LoaderCall → TranslationLoader
  | .loadTranslations language => (self.loadTranslations network language).2
  | .loadTranslationsWithFallback language =>
    (self.loadTranslationsWithFallback network language).2
  | .isCached _ => self

/-- The loader after a sequence of calls, made one after the other. -/
def TranslationLoader.run (network : Network) (self : TranslationLoader)
    (calls : List LoaderCall) : TranslationLoader :=
  calls.foldl (TranslationLoader.call network) self

/-- A cached entry: the locale is in the cache, with that document. -/
def TranslationLoader.Holds (self : TranslationLoader) (language : String)
    (document : JsValue) : Prop :=
  cacheHas self.cache language = true ∧ cacheGet self.cache language = document

/-- A key that `t` treats as missing in a document: the walk along its
dot-path, as the engine makes it, ends on `undefined` or `null`. -/
def isMissingKey (host : Host) (translations : JsValue) (key : String) : Bool :=
  match getNestedValue host translations key with
  | .ok value => value.isNullish
  | .error _ => false

/-- The manager after a sequence of calls `t(key, variables)`, made one after
the other, whatever each call returned. -/
def TranslationManager.tAll (host : Host) (self : TranslationManager)
    (calls : List (String × JsValue)) : TranslationManager :=
  calls.foldl (fun manager call => (manager.t host call.1 call.2).2) self

/-- A piece of a text: one character kept as it is, or a placeholder `{name}`. -/
inductive Piece where
  | lit (c : Char)
  | placeholder (name : List Char)
  deriving Repr, DecidableEq, Inhabited

namespace Piece

/-- The text a piece stands for. -/
def source : Piece → List Char
  | lit c => [c]
  | placeholder name => '{' :: name ++ ['}']

/-- The text a list of pieces stands for. -/
def sourceAll : List Piece → List Char
  | [] => []
  | piece :: rest => piece.source ++ sourceAll rest

/-- What is put for a piece: a placeholder for which the read `variables[name]`
gives a value that is neither `null` nor `undefined` becomes the string form of
that value, every other piece stays verbatim; the read and the conversion to a
string can raise. -/
def render (host : Host) (vars : JsValue) : Piece → Except JsError (List Char)
  | lit c => .ok [c]
  | placeholder name =>
    match readProp host vars ⟨name⟩ with
    | .error e => .error e
    | .ok value =>
      if value.isNullish then .ok ('{' :: name ++ ['}'])
      else
        match toJsString value with
        | .error e => .error e
        | .ok text => .ok text.data

/-- The text put for a list of pieces, from left to right; the first exception
ends it. -/
def renderAll (host : Host) (vars : JsValue) : List Piece → Except JsError (List Char)
  | [] => .ok []
  | piece :: rest =>
    match piece.render host vars with
    | .error e => .error e
    | .ok first =>
      match renderAll host vars rest with
      | .error e => .error e
      | .ok others => .ok (first ++ others)

/-- The pieces are the placeholders of their text: a placeholder's name is a
non-empty run of word characters, and a literal `{` is not the start of a
placeholder. -/
def Parsed : List Piece → Prop
  | [] => True
  | lit c :: rest => (c = '{' → placeholderName (sourceAll rest) = none) ∧ Parsed rest
  | placeholder name :: rest =>
    name ≠ [] ∧ (∀ c ∈ name, isWordChar c = true) ∧ Parsed rest

end Piece

/-- The four attributes by which `updateDOM` selects elements. -/
def translationAttributes : List String :=
  ["data-translate", "data-translate-placeholder", "data-translate-title",
    "data-translate-aria-label"]

/-- The translation keys an element names in its attributes. -/
def attributeKeys (attrs : List (String × String)) : List String :=
  translationAttributes.filterMap (getAttribute attrs)

mutual
/-- The translation keys named by the elements of a subtree. -/
def Node.translationKeys : Node → List String
  | .text _ => []
  | .element attrs children => attributeKeys attrs ++ translationKeysOf children
/-- The translation keys named by the elements of a list of subtrees. -/
def translationKeysOf : List Node → List String
  | [] => []
  | node :: rest => node.translationKeys ++ translationKeysOf rest
end

/-- What calls of `t` on some of the keys `keys` may change of a manager: the
document and the locale stay, and a key is in the missing-key set afterwards
only if it was before, or it is one of `keys` and is missing. -/
def TranslationManager.Extends (host : Host) (before after : TranslationManager)
    (keys : List String) : Prop :=
  after.translations = before.translations ∧
  after.currentLanguage = before.currentLanguage ∧
  ∀ key ∈ after.missingKeys,
    key ∈ before.missingKeys ∨
      (key ∈ keys ∧ isMissingKey host before.translations key = true)

/-- The target of a loop of `updateDOM` is not one of the selecting attributes. -/
def SyncTarget.Plain : SyncTarget → Prop
  | .textContent => True
  | .attr name => name ∉ translationAttributes

/-- The path left after stripping a leading `/zh-hk` or `/zh-cn` from a path:
`/` when nothing is left. -/
def StrippedPath (path stripped : String) : Prop :=
  (∃ rest, (path = "/zh-hk" ++ rest ∨ path = "/zh-cn" ++ rest) ∧
    stripped = if rest = "" then "/" else rest) ∨
  (startsWith path "/zh-hk" = false ∧ startsWith path "/zh-cn" = false ∧
    stripped = if path = "" then "/" else path)

/-- The language of a locale tag: its first subtag, the text before the first
`-` or `_`, in lower case. -/
def primaryLanguage (tag : String) : String :=
  ⟨(toLowerCase tag).data.takeWhile fun c => c != '-' && c != '_'⟩

/-- A tag that none of the Chinese rules of `normalizeLanguageCode` matches: its
lower-cased form has none of the five markers and does not start with `zh`. -/
def hasChineseMark (tag : String) : Bool :=
  includes (toLowerCase tag) "zh-hk" || includes (toLowerCase tag) "zh_hk" ||
  includes (toLowerCase tag) "zh-cn" || includes (toLowerCase tag) "zh_cn" ||
  includes (toLowerCase tag) "zh-hans" || startsWith (toLowerCase tag) "zh"

/-- What a loop of `updateDOM` leaves of an element it selects, seen from a
manager: the element names a key whose translation the manager gives without a
change of its own, and the element shows that translation. -/
def SettledAt (host : Host) (jsonParse : String → Option JsValue)
    (manager : TranslationManager) (selector : String) (target : SyncTarget)
    (attrs : List (String × String)) (children : List Node) : Prop :=
  ∀ key, getAttribute attrs selector = some key →
    ∃ value, manager.t host key (syncVars jsonParse target attrs) = (.ok value, manager) ∧
      match target with
      | .textContent => textChildren value = .ok children
      | .attr name => ∃ text, toJsString value = .ok text ∧ getAttribute attrs name = some text

mutual
/-- Every element of the subtree is as a loop of `updateDOM` leaves it. -/
def Node.Settled (host : Host) (jsonParse : String → Option JsValue)
    (manager : TranslationManager) (selector : String) (target : SyncTarget) : Node → Prop
  | .text _ => True
  | .element attrs children =>
    SettledAt host jsonParse manager selector target attrs children ∧
      SettledAll host jsonParse manager selector target children
/-- Every element of the subtrees is as a loop of `updateDOM` leaves it. -/
def SettledAll (host : Host) (jsonParse : String → Option JsValue)
    (manager : TranslationManager) (selector : String) (target : SyncTarget) :
    List Node → Prop
  | [] => True
  | node :: rest =>
    node.Settled host jsonParse manager selector target ∧
      SettledAll host jsonParse manager selector target rest
end

/-- The later manager holds the same document and every missing key of the
earlier one. -/
def TranslationManager.Grows (before after : TranslationManager) : Prop :=
  after.translations = before.translations ∧
  ∀ key ∈ before.missingKeys, key ∈ after.missingKeys

mutual
/-- The number of leaf paths below a document or a nested object: each of its
values that is not itself an object (an array is one) counts once, and a nested
object counts for the leaf paths below it, none when it is empty. -/
def leafCount : JsValue → Nat
  | .obj props => leafCountProps props
  | .arr items => leafCountItems items
  | _ => 0
/-- The leaf paths through the properties of an object. -/
def leafCountProps : List (String × JsValue) → Nat
  | [] => 0
  | (_, value) :: rest =>
    (if value.isObject then leafCount value else 1) + leafCountProps rest
/-- The leaf paths through the elements of an array. -/
def leafCountItems : List JsValue → Nat
  | [] => 0
  | value :: rest => (if value.isObject then leafCount value else 1) + leafCountItems rest
end

namespace ContactForm

/-- A field is blank, as `validateForm` tests it with
`!field || field.trim() === ''`: the record lacks it, or it is empty, or it is
empty once trimmed. -/
def isBlank (field : Option (List Nat)) : Bool :=
  match field with
  | none => true
  | some text => text.isEmpty || (trim text).isEmpty

/-- The length of a field after `trim`, none for a field that the record lacks. -/
def trimmedLength (field : Option (List Nat)) : Nat :=
  match field with
  | none => 0
  | some text => (trim text).length

/-- A field is there and passes a test. -/
def fieldHolds (test : List Nat → Bool) (field : Option (List Nat)) : Bool :=
  match field with
  | none => false
  | some text => test text

/-- The error set has no key. -/
def FormErrors.isEmpty (errors : FormErrors) : Bool :=
  errors.name.isNone && errors.email.isNone && errors.phone.isNone && errors.message.isNone

/-- What the regular expression of `isValidEmail` accepts, read off the
expression: a first part, an `@`, a second part, a `.` and a last part, each part
at least one unit of the class `[^\s@]`. -/
def EmailShape (email : List Nat) : Prop :=
  ∃ first second last : List Nat,
    email = first ++ 64 :: (second ++ 46 :: last) ∧
    first ≠ [] ∧ second ≠ [] ∧ last ≠ [] ∧
    (∀ u ∈ first, isAddressUnit u = true) ∧ (∀ u ∈ second, isAddressUnit u = true) ∧
    (∀ u ∈ last, isAddressUnit u = true)

/-- What the part `\s?` of a pattern matches: nothing, or one white space unit. -/
def OptionalSpace (space : List Nat) : Prop :=
  space = [] ∨ ∃ u, isWhiteSpace u = true ∧ space = [u]

/-- What `hkPhoneWithCodePattern` accepts, read off the expression. -/
def CodedPhoneShape (phone : List Nat) : Prop :=
  ∃ (space1 : List Nat) (lead : Nat) (three space2 four : List Nat),
    phone = utf16 "+852" ++ (space1 ++ lead :: (three ++ (space2 ++ four))) ∧
    OptionalSpace space1 ∧ OptionalSpace space2 ∧
    (lead = 50 ∨ lead = 51 ∨ lead = 53 ∨ lead = 54 ∨ lead = 57) ∧
    three.length = 3 ∧ (∀ u ∈ three, isDigit u = true) ∧
    four.length = 4 ∧ (∀ u ∈ four, isDigit u = true)

end ContactForm

/-! ## Inputs of the test suites, used as concrete instances -/

/-- The names of the members of `Object.prototype` that are functions. -/
def objectPrototypeMethods : List String :=
  ["__defineGetter__", "__defineSetter__", "hasOwnProperty", "__lookupGetter__",
    "__lookupSetter__", "isPrototypeOf", "propertyIsEnumerable", "toString", "valueOf",
    "toLocaleString"]

/-- The function `Object`, the `constructor` that a plain object inherits, with
the text Node.js gives for `String(Object)`. -/
def objectConstructor : JsValue :=
  .native "Object" "function Object() \x7b [native code] \x7d"

/-- The object `Object.prototype`, the `__proto__` of a plain object. -/
def objectPrototype : JsValue := .native "Object.prototype" "[object Object]"

/-- A member of `Object.prototype`: its `constructor`, the function `Object`,
and the methods of that name; `undefined` for another name. -/
def objectPrototypeMember (key : String) : JsValue :=
  if key = "constructor" then objectConstructor
  else if objectPrototypeMethods.contains key then
    .native ("Object.prototype." ++ key) ("function " ++ key ++ "() \x7b [native code] \x7d")
  else .undefined

/-- An engine, as far as the instances below read it: a plain object inherits
the members of `Object.prototype`, and its `__proto__` is that object; the
`__proto__` of `Object.prototype` is `null`; a read of another name on a plain
object finds nothing; and the prototypes of the values of a JSON text, and the
functions of `Object.prototype`, have no member `replace`. -/
def standardHost : Host :=
  { inherited := fun v key =>
      match v with
      | .obj _ =>
        if key = "__proto__" then .ok objectPrototype else .ok (objectPrototypeMember key)
      | .native id _ =>
        if id = "Object.prototype" then
          if key = "__proto__" then .ok .null else .ok (objectPrototypeMember key)
        else .ok .undefined
      | _ => .ok .undefined
    replace := fun _ _ => .error (.typeError "text.replace is not a function") }

/-- The document of `Translation Helper Functions` in
`tests/translation-system.test.js`. -/
def helperTranslations : JsValue :=
  .obj [("welcome", .str "Welcome to Studio Encantador"),
    ("services", .obj [("consulting", .str "Business Consulting"),
      ("web", .str "Web Development")]),
    ("contact", .obj [("email", .str "Email us at \x7bemail\x7d")]),
    ("team", .obj [("count", .str "We have \x7bcount\x7d team members")])]

/-- A manager holding `helperTranslations`. -/
def helperManager : TranslationManager :=
  { TranslationManager.new with translations := helperTranslations }

/-- The English document of `Fallback Mechanisms`. -/
def englishTranslations : JsValue :=
  .obj [("welcome", .str "Welcome to Studio Encantador"),
    ("description", .str "Hong Kong Business Consulting Agency")]

/-- The network of `should fallback to English when target language fails to
load`: the first request is answered 404, every later one with the English
document. -/
def fallbackNetwork : Network := fun sent _ =>
  if sent = 0 then .response 404 none else .response 200 (some englishTranslations)

/-- A network that answers every request with the JSON text `null`. -/
def nullNetwork : Network := fun _ _ => .response 200 (some .null)

/-- A network that answers every request with the English document. -/
def englishNetwork : Network := fun _ _ => .response 200 (some englishTranslations)

/-- The value of `data-translate-vars` in `DOM Translation Updates`. -/
def emailVarsText : String := "\x7b\"email\":\"test@example.com\"\x7d"

/-- `JSON.parse` on `emailVarsText`; no other text is parsed in the instances. -/
def emailVarsParse : String → Option JsValue := fun text =>
  if text = emailVarsText then some (.obj [("email", .str "test@example.com")]) else none

/-- A page whose one annotated element names the section `services` and
carries variables. -/
def sectionPage : Page :=
  { manager := TranslationManager.new
    document := [.element [("data-translate", "services"),
      ("data-translate-vars", emailVarsText)] [.text "Loading..."]] }

/-- A page whose one annotated element names a key no document has, as the
fourth element of `DOM Translation Updates` does. -/
def missingKeyPage : Page :=
  { manager := TranslationManager.new
    document := [.element [("data-translate", "missing.key")] [.text "Loading..."]] }

/-- A browser that makes every pushed URL the new pathname, as browsers do for
an absolute path of the document's origin, and reads a quoted string as it is
written. -/
def plainApi : BrowserApi :=
  { pushedPath := fun _ url => some url, selectorValue := fun text => some text }

/-- The page of `Language Switching with Smooth Transitions` in
`tests/language-system.test.js`, at the root path, with nothing stored. -/
def rootBrowser : Browser :=
  { pathname := "/"
    documentLang := "en"
    localStorage := []
    transitioning := false
    langElements :=
      [{ langBtn := true, dataLang := some "en", active := true, inSwitcher := true,
          clickListeners := 0 },
        { langBtn := true, dataLang := some "zh-hk", active := false, inSwitcher := true,
          clickListeners := 0 },
        { langBtn := true, dataLang := some "zh-cn", active := false, inSwitcher := true,
          clickListeners := 0 }]
    log := [] }

/-- A browser whose user prefers Hong Kong Chinese: `navigator.language` and
`navigator.languages` report `zh-HK`. -/
def hongKongNavigator : Navigator :=
  { languages := some ["zh-HK"], language := some "zh-HK", userLanguage := none }

/-- A content-update callback that resolves. -/
def resolvingCallback : String → Except JsError Unit := fun _ => .ok ()

/-- A content-update callback that rejects. -/
def rejectingCallback : String → Except JsError Unit := fun _ => .error (.error "Update failed")

/-- A manager whose document has a text with the placeholders `constructor`
and `email`. -/
def hintManager : TranslationManager :=
  { TranslationManager.new with
    translations := .obj [("hint", .str "See \x7bconstructor\x7d or \x7bemail\x7d")] }

/-- A manager whose document holds a `null` under the key `a`. -/
def nullLeafManager : TranslationManager :=
  { TranslationManager.new with translations := .obj [("a", .null)] }

/-- A loader that has cached the documents of two locales. -/
def cachedLoader : TranslationLoader :=
  { TranslationLoader.new with
    cache := [("en", englishTranslations), ("zh-hk", helperTranslations)] }

/-- The document of `DOM Translation Updates` in `tests/translation-system.test.js`. -/
def domTranslations : JsValue :=
  .obj [("welcome", .str "Welcome to Studio Encantador"),
    ("services", .obj [("consulting", .str "Business Consulting")]),
    ("contact", .obj [("email", .str "Email us at \x7bemail\x7d")]),
    ("search", .obj [("placeholder", .str "Search our services...")]),
    ("button", .obj [("help", .str "Get help and support")])]

/-- The page of `DOM Translation Updates`, with the element of `should handle
malformed JSON in data-translate-vars` and a labelled element added. -/
def domPage : Page :=
  { manager := { TranslationManager.new with translations := domTranslations }
    document :=
      [.element [("data-translate", "welcome")] [.text "Loading..."],
        .element [("data-translate", "services.consulting")] [.text "Loading..."],
        .element [("data-translate", "contact.email"), ("data-translate-vars", emailVarsText)]
          [.text "Loading..."],
        .element [("data-translate", "missing.key")] [.text "Loading..."],
        .element [("type", "text"), ("data-translate-placeholder", "search.placeholder"),
          ("placeholder", "Loading...")] [],
        .element [("data-translate-title", "button.help"), ("title", "Loading...")]
          [.text "Help"],
        .element [("data-translate", "contact.email"), ("data-translate-vars", "invalid json")]
          [.text "Loading..."],
        .element [("data-translate-aria-label", "button.help")] []] }

/-- A page over `helperTranslations`: an element that names `welcome` and holds
an element naming the section `services` with variables, and after it an
element that names `welcome`. -/
def nestedSectionPage : Page :=
  { manager := helperManager
    document :=
      [.element [("data-translate", "welcome")]
          [.element [("data-translate", "services"), ("data-translate-vars", emailVarsText)]
            []],
        .element [("data-translate", "welcome")] [.text "Loading..."]] }

/-- A manager whose document holds a string, a `null`, an empty object and a
nested object, after two keys were recorded as missing. -/
def statsManager : TranslationManager :=
  { translations := .obj [("title", .str "Studio"), ("draft", .null), ("empty", .obj []),
      ("nav", .obj [("home", .str "Home"), ("about", .str "About")])]
    currentLanguage := "zh-hk"
    missingKeys := ["nav.contact", "footer"]
    dispatched := [] }

/-- The state of the browser in `tests/unit/languageSwitcher.test.js`: at the
root path, with nothing stored. -/
def legacyBrowser : Legacy.Browser :=
  { pathname := "/", localStorage := [], fetched := [], pushed := [] }

/-- The form data of `should return no errors for valid form data`. -/
def validFormData : ContactForm.FormData :=
  { name := some (ContactForm.utf16 "John Doe")
    email := some (ContactForm.utf16 "john@example.com")
    phone := none
    message := some (ContactForm.utf16 "This is a valid message with enough characters") }

/-! # Theorems -/

/-! ## LanguageDetector -/

theorem normalizeLanguageCode_supported (langCode : Option String) :
    normalizeLanguageCode langCode ∈ supportedLanguages := by
  unfold normalizeLanguageCode supportedLanguages
  cases langCode with
  | none => simp
  | some code =>
    simp only
    split_ifs <;> simp

/-- With a non-empty `navigator.languages` the loop of `detectBrowserLanguage`
returns at its first tag: every normalised tag is a supported language, so the
membership test never sends the loop on to the next tag. -/
theorem detectBrowserLanguage_cons (lang : String) (rest : List String)
    (language userLanguage : Option String) :
    detectBrowserLanguage ⟨some (lang :: rest), language, userLanguage⟩ =
      normalizeLanguageCode (some lang) := by
  have h := normalizeLanguageCode_supported (some lang)
  simp [detectBrowserLanguage, detectFromList, h]

/-- C1 (the code at the failing input): with
`navigator.languages = ['fr-FR', 'zh-CN']` the detector returns `en`, the
default that `fr-FR` is normalised to, and not `zh-cn`: the unsupported first
tag is not skipped. -/
theorem detectBrowserLanguage_unsupported_first (language userLanguage : Option String) :
    detectBrowserLanguage ⟨some ["fr-FR", "zh-CN"], language, userLanguage⟩ = "en" ∧
    detectBrowserLanguage ⟨some ["fr-FR", "zh-CN"], language, userLanguage⟩ ≠ "zh-cn" := by
  rw [detectBrowserLanguage_cons]
  decide

/-- C2 (counterexample): `en-HK` and `zh-Hans-HK` contain `hk`, and are
normalised to `en` and to `zh-cn`. -/
theorem normalizeLanguageCode_hk_elsewhere :
    includes (toLowerCase "en-HK") "hk" = true ∧
    normalizeLanguageCode (some "en-HK") = "en" ∧
    includes (toLowerCase "zh-Hans-HK") "hk" = true ∧
    normalizeLanguageCode (some "zh-Hans-HK") = "zh-cn" := by
  decide

/-- C2 (amended): a tag whose lower-cased form contains `zh-hk` or `zh_hk` is
normalised to `zh-hk`, and so never to `zh-cn`. -/
theorem normalizeLanguageCode_zh_hk (tag : String)
    (h : includes (toLowerCase tag) "zh-hk" = true ∨
      includes (toLowerCase tag) "zh_hk" = true) :
    normalizeLanguageCode (some tag) = "zh-hk" ∧
    normalizeLanguageCode (some tag) ≠ "zh-cn" := by
  have hne : tag ≠ "" := by
    rintro rfl
    revert h
    decide
  have hk : normalizeLanguageCode (some tag) = "zh-hk" := by
    simp only [normalizeLanguageCode, hne, if_false]
    rcases h with h | h <;> simp [h]
  rw [hk]
  exact ⟨rfl, by decide⟩

/-- The tag `zh-HK` of the test suite is such a tag. -/
theorem normalizeLanguageCode_zh_hk_witness :
    (includes (toLowerCase "zh-HK") "zh-hk" = true ∨
      includes (toLowerCase "zh-HK") "zh_hk" = true) ∧
    normalizeLanguageCode (some "zh-HK") = "zh-hk" ∧
    normalizeLanguageCode (some "zh-HK") ≠ "zh-cn" :=
  ⟨by decide, normalizeLanguageCode_zh_hk "zh-HK" (by decide)⟩

/-! ## TranslationLoader -/

theorem cacheHas_cacheSet (cache : List (String × JsValue)) (key key' : String)
    (value : JsValue) :
    cacheHas (cacheSet cache key value) key' = (decide (key = key') || cacheHas cache key') := by
  induction cache with
  | nil => simp [cacheSet, cacheHas]
  | cons entry rest ih =>
    obtain ⟨k, v⟩ := entry
    by_cases hk : k = key
    · subst hk
      simp [cacheSet, cacheHas]
    · simp only [cacheSet, hk, if_false, cacheHas, ih]
      cases decide (k = key') <;> cases decide (key = key') <;> simp

theorem cacheGet_cacheSet (cache : List (String × JsValue)) (key key' : String)
    (value : JsValue) :
    cacheGet (cacheSet cache key value) key' =
      if key = key' then value else cacheGet cache key' := by
  induction cache with
  | nil => simp [cacheSet, cacheGet]
  | cons entry rest ih =>
    obtain ⟨k, v⟩ := entry
    by_cases hk : k = key
    · subst hk
      by_cases hk' : k = key' <;> simp [cacheSet, cacheGet, hk']
    · by_cases hk' : k = key'
      · subst hk'
        have : ¬ key = k := fun h => hk h.symm
        simp [cacheSet, cacheGet, hk, this]
      · simp [cacheSet, cacheGet, hk, hk', ih]

theorem loadTranslations_requests_of_miss (network : Network) (loader : TranslationLoader)
    (language : String) (hmiss : cacheHas loader.cache language = false) :
    (loader.loadTranslations network language).2.requests =
      loader.requests ++ [loader.url language] := by
  simp only [TranslationLoader.loadTranslations, hmiss]
  cases network loader.requests.length (loader.url language) with
  | rejected => simp
  | response status json =>
    cases json <;> by_cases hs : statusOk status <;> simp [hs]

theorem loadTranslations_url (network : Network) (loader : TranslationLoader)
    (language other : String) :
    (loader.loadTranslations network language).2.url other = loader.url other := by
  simp only [TranslationLoader.loadTranslations, TranslationLoader.url]
  split_ifs
  · rfl
  · cases network loader.requests.length (loader.baseUrl ++ "/" ++ language ++ ".json") with
    | rejected => rfl
    | response status json =>
      cases json <;> by_cases hs : statusOk status <;> simp [hs]

/-- C7: for a locale that is not cached, a fetch that rejects, answers with a
status outside 200–299 or has an unparsable body makes `loadTranslations`
return the empty document `{}` (it does not raise) and leaves the cache as it
was, so the locale stays uncached and the next call fetches again. -/
theorem loadTranslations_failure (network : Network) (loader : TranslationLoader)
    (language : String) (hmiss : loader.isCached language = false)
    (hfail : (network loader.requests.length (loader.url language)).failed = true) :
    (loader.loadTranslations network language).1 = JsValue.obj [] ∧
    (loader.loadTranslations network language).2.cache = loader.cache ∧
    (loader.loadTranslations network language).2.isCached language = false ∧
    (loader.loadTranslations network language).2.requests =
      loader.requests ++ [loader.url language] ∧
    ((loader.loadTranslations network language).2.loadTranslations network language).2.requests =
      loader.requests ++ [loader.url language, loader.url language] := by
  simp only [TranslationLoader.isCached] at hmiss
  have key : loader.loadTranslations network language =
      (JsValue.obj [], { loader with requests := loader.requests ++ [loader.url language] }) := by
    simp only [TranslationLoader.loadTranslations, hmiss]
    cases hn : network loader.requests.length (loader.url language) with
    | rejected => simp
    | response status json =>
      rw [hn] at hfail
      cases json with
      | none => simp
      | some body =>
        simp [FetchOutcome.failed] at hfail
        simp [hfail]
  rw [key]
  refine ⟨rfl, rfl, hmiss, rfl, ?_⟩
  have hnext := loadTranslations_requests_of_miss network
    { loader with requests := loader.requests ++ [loader.url language] } language hmiss
  simpa [TranslationLoader.url] using hnext

/-- A fresh loader whose request for `zh-hk` is answered 404. -/
theorem loadTranslations_failure_witness :
    TranslationLoader.new.isCached "zh-hk" = false ∧
    (fallbackNetwork TranslationLoader.new.requests.length
      (TranslationLoader.new.url "zh-hk")).failed = true ∧
    (TranslationLoader.new.loadTranslations fallbackNetwork "zh-hk").1 = JsValue.obj [] ∧
    (TranslationLoader.new.loadTranslations fallbackNetwork "zh-hk").2.cache = [] :=
  ⟨rfl, rfl,
    (loadTranslations_failure fallbackNetwork TranslationLoader.new "zh-hk" rfl rfl).1,
    (loadTranslations_failure fallbackNetwork TranslationLoader.new "zh-hk" rfl rfl).2.1⟩

theorem holds_loadTranslations (network : Network) (loader : TranslationLoader)
    (language other : String) (document : JsValue) (h : loader.Holds language document) :
    (loader.loadTranslations network other).2.Holds language document := by
  unfold TranslationLoader.loadTranslations
  by_cases hc : cacheHas loader.cache other = true
  · simpa [hc] using h
  · have hne : other ≠ language := by
      rintro rfl
      exact hc h.1
    simp only [hc]
    cases network loader.requests.length (loader.url other) with
    | rejected => simpa using h
    | response status json =>
      by_cases hs : statusOk status = true
      · cases json with
        | none => simpa [hs] using h
        | some body =>
          simp only [hs, Bool.not_true, Bool.false_eq_true, if_false]
          exact ⟨by simp [cacheHas_cacheSet, h.1], by simp [cacheGet_cacheSet, hne, h.2]⟩
      · simpa [hs] using h

theorem holds_loadTranslationsWithFallback (network : Network) (loader : TranslationLoader)
    (language other : String) (document : JsValue) (h : loader.Holds language document) :
    (loader.loadTranslationsWithFallback network other).2.Holds language document := by
  have h1 := holds_loadTranslations network loader language other document h
  have h2 := holds_loadTranslations network (loader.loadTranslations network other).2 language
    "en" document h1
  unfold TranslationLoader.loadTranslationsWithFallback
  simp only
  cases objectKeys (loader.loadTranslations network other).1 with
  | error e => exact h1
  | ok keys =>
    simp only
    split_ifs
    · exact h2
    · exact h1

theorem holds_run (network : Network) (calls : List LoaderCall) (loader : TranslationLoader)
    (language : String) (document : JsValue) (h : loader.Holds language document) :
    (loader.run network calls).Holds language document := by
  induction calls generalizing loader with
  | nil => exact h
  | cons call rest ih =>
    apply ih
    cases call with
    | loadTranslations other =>
      exact holds_loadTranslations network loader language other document h
    | loadTranslationsWithFallback other =>
      exact holds_loadTranslationsWithFallback network loader language other document h
    | isCached other => exact h

theorem loadTranslations_of_holds (network : Network) (loader : TranslationLoader)
    (language : String) (document : JsValue) (h : loader.Holds language document) :
    loader.loadTranslations network language = (document, loader) := by
  simp [TranslationLoader.loadTranslations, h.1, h.2]

/-- C8: when the first `loadTranslations(L)` fetches successfully and returns
the document `D`, the call right after it returns `D` with the request log
unchanged (two calls, one fetch), and so does a call of `loadTranslations(L)`
made after any further calls of the loader that do not clear the cache: it
returns `D` and leaves the loader, its request log included, as it was. -/
theorem loadTranslations_cache_hit (network : Network) (loader : TranslationLoader)
    (language : String) (status : Nat) (document : JsValue) (calls : List LoaderCall)
    (hmiss : loader.isCached language = false)
    (hfetch : network loader.requests.length (loader.url language) =
      .response status (some document))
    (hstatus : statusOk status = true) :
    (loader.loadTranslations network language).1 = document ∧
    (loader.loadTranslations network language).2.requests =
      loader.requests ++ [loader.url language] ∧
    ((loader.loadTranslations network language).2.loadTranslations network language).1 =
      document ∧
    ((loader.loadTranslations network language).2.loadTranslations network language).2.requests =
      loader.requests ++ [loader.url language] ∧
    ((loader.loadTranslations network language).2.run network calls).loadTranslations network
        language =
      (document, (loader.loadTranslations network language).2.run network calls) := by
  simp only [TranslationLoader.isCached] at hmiss
  have first : loader.loadTranslations network language =
      (document, { loader with
        requests := loader.requests ++ [loader.url language]
        cache := cacheSet loader.cache language document }) := by
    simp [TranslationLoader.loadTranslations, hmiss, hfetch, hstatus]
  have hholds : (loader.loadTranslations network language).2.Holds language document := by
    rw [first]
    exact ⟨by simp [cacheHas_cacheSet], by simp [cacheGet_cacheSet]⟩
  refine ⟨by rw [first], by rw [first], ?_, ?_, ?_⟩
  · rw [loadTranslations_of_holds network _ language document hholds]
  · rw [loadTranslations_of_holds network _ language document hholds, first]
  · exact loadTranslations_of_holds network _ language document
      (holds_run network calls _ language document hholds)

/-- The test `should cache loaded translations`: two loads of `en`, one fetch. -/
theorem loadTranslations_cache_hit_witness :
    TranslationLoader.new.isCached "en" = false ∧
    englishNetwork TranslationLoader.new.requests.length (TranslationLoader.new.url "en") =
      .response 200 (some englishTranslations) ∧
    statusOk 200 = true ∧
    ((TranslationLoader.new.loadTranslations englishNetwork "en").2.loadTranslations
      englishNetwork "en").1 = englishTranslations ∧
    ((TranslationLoader.new.loadTranslations englishNetwork "en").2.loadTranslations
      englishNetwork "en").2.requests = [] ++ ["/src/translations/en.json"] :=
  ⟨rfl, rfl, rfl,
    (loadTranslations_cache_hit englishNetwork TranslationLoader.new "en" 200
      englishTranslations [] rfl rfl rfl).2.2.1,
    (loadTranslations_cache_hit englishNetwork TranslationLoader.new "en" 200
      englishTranslations [] rfl rfl rfl).2.2.2.1⟩

theorem loadTranslations_cache_of_empty (network : Network) (loader : TranslationLoader)
    (language other : String) (hempty : loader.cache = []) (hne : language ≠ other) :
    cacheHas (loader.loadTranslations network language).2.cache other = false := by
  simp only [TranslationLoader.loadTranslations, hempty, cacheHas]
  cases network loader.requests.length (loader.url language) with
  | rejected => simp [hempty, cacheHas]
  | response status json =>
    cases json <;> by_cases hs : statusOk status <;> simp [hs, hempty, cacheHas, cacheSet, hne]

theorem objectKeys_of_not_nullish (value : JsValue) (h : value.isNullish = false) :
    ∃ keys, objectKeys value = .ok keys := by
  cases value <;> simp [objectKeys, isNullish] at h ⊢

/-- C3 (counterexample): every request is answered 200 with the body `null`.
From an empty cache `loadTranslations('en')` returns `null` after one fetch, and
`loadTranslationsWithFallback('en')` does not return it: `Object.keys(null)`
raises a `TypeError`. The same happens for `zh-hk`, without a second fetch. -/
theorem loadTranslationsWithFallback_null_body :
    TranslationLoader.new.cache = [] ∧
    (TranslationLoader.new.loadTranslations nullNetwork "en").1 = .null ∧
    (TranslationLoader.new.loadTranslationsWithFallback nullNetwork "en").1 =
      .error (.typeError "Cannot convert undefined or null to object") ∧
    (TranslationLoader.new.loadTranslationsWithFallback nullNetwork "en").2.requests =
      ["/src/translations/en.json"] ∧
    (TranslationLoader.new.loadTranslationsWithFallback nullNetwork "zh-hk").1 =
      .error (.typeError "Cannot convert undefined or null to object") ∧
    (TranslationLoader.new.loadTranslationsWithFallback nullNetwork "zh-hk").2.requests =
      ["/src/translations/zh-hk.json"] :=
  ⟨rfl, rfl, rfl, rfl, rfl, rfl⟩

/-- C3 (amended): starting from an empty cache, with `D` the value that
`loadTranslations(L)` returns, when `D` is not `null` or `undefined`,
`loadTranslationsWithFallback(L)` returns `D` after exactly one fetch when `D`
is non-empty or `L` is `en`, and otherwise returns whatever
`loadTranslations('en')` then returns, after exactly two fetches, of `L` and
then of `en`. -/
theorem loadTranslationsWithFallback_one_hop (network : Network) (loader : TranslationLoader)
    (language : String) (hempty : loader.cache = [])
    (hdoc : (loader.loadTranslations network language).1.isNullish = false) :
    (loader.loadTranslationsWithFallback network language).1 =
      (if isEmptyDocument (loader.loadTranslations network language).1 = false ∨ language = "en"
       then .ok (loader.loadTranslations network language).1
       else .ok ((loader.loadTranslations network language).2.loadTranslations network "en").1) ∧
    (loader.loadTranslationsWithFallback network language).2.requests =
      (if isEmptyDocument (loader.loadTranslations network language).1 = false ∨ language = "en"
       then loader.requests ++ [loader.url language]
       else loader.requests ++ [loader.url language, loader.url "en"]) := by
  have hreq := loadTranslations_requests_of_miss network loader language
    (by simp [hempty, cacheHas])
  obtain ⟨keys, hkeys⟩ := objectKeys_of_not_nullish _ hdoc
  by_cases hen : language = "en"
  · subst hen
    simp [TranslationLoader.loadTranslationsWithFallback, hkeys, hreq]
  · have hmiss := loadTranslations_cache_of_empty network loader language "en" hempty hen
    have hreq2 := loadTranslations_requests_of_miss network _ "en" hmiss
    rw [hreq, loadTranslations_url] at hreq2
    by_cases hlen : keys.length = 0
    · simp [TranslationLoader.loadTranslationsWithFallback, hkeys, isEmptyDocument, hlen, hen,
        hreq2]
    · simp [TranslationLoader.loadTranslationsWithFallback, hkeys, isEmptyDocument, hlen, hen,
        hreq]

/-- The test `should fallback to English when target language fails to load`:
the English document is returned after the two requests, in that order. -/
theorem loadTranslationsWithFallback_one_hop_witness :
    TranslationLoader.new.cache = [] ∧
    (TranslationLoader.new.loadTranslations fallbackNetwork "zh-hk").1.isNullish = false ∧
    (TranslationLoader.new.loadTranslationsWithFallback fallbackNetwork "zh-hk").1 =
      .ok englishTranslations ∧
    (TranslationLoader.new.loadTranslationsWithFallback fallbackNetwork "zh-hk").2.requests =
      ["/src/translations/zh-hk.json", "/src/translations/en.json"] :=
  ⟨rfl, rfl,
    (loadTranslationsWithFallback_one_hop fallbackNetwork TranslationLoader.new "zh-hk"
      rfl rfl).1,
    (loadTranslationsWithFallback_one_hop fallbackNetwork TranslationLoader.new "zh-hk"
      rfl rfl).2⟩

/-! ## TranslationManager: lookup and interpolation -/

/-- C4 (the code at the failing input): against the document of the test
suite, the key `services` ends on a nested object; `t('services')` returns that
object, which is neither a string nor the raw key, and records nothing as
missing, and `t('services', {email: 'a@b.com'})` raises a `TypeError`. -/
theorem t_section_key :
    helperManager.t standardHost "services" .undefined =
      (.ok (.obj [("consulting", .str "Business Consulting"), ("web", .str "Web Development")]),
        helperManager) ∧
    helperManager.t standardHost "services" (.obj [("email", .str "a@b.com")]) =
      (.error (.typeError "text.replace is not a function"), helperManager) := by
  constructor <;> rfl

theorem replacePlaceholders_skip (callback : String → String → Except JsError String)
    (skipped rest : List Char) :
    replacePlaceholders callback skipped.length (skipped ++ rest) =
      replacePlaceholders callback 0 rest := by
  induction skipped with
  | nil => rfl
  | cons c cs ih => simpa [replacePlaceholders] using ih

theorem takeWhile_name (name rest : List Char) (hword : ∀ c ∈ name, isWordChar c = true) :
    (name ++ '}' :: rest).takeWhile isWordChar = name ∧
    (name ++ '}' :: rest).dropWhile isWordChar = '}' :: rest := by
  induction name with
  | nil =>
    have : isWordChar '}' = false := by decide
    simp [List.takeWhile, List.dropWhile, this]
  | cons c cs ih =>
    have hc : isWordChar c = true := hword c (List.mem_cons_self c cs)
    have := ih (fun d hd => hword d (List.mem_cons_of_mem c hd))
    simp [List.takeWhile, List.dropWhile, hc, this]

theorem placeholderName_of_name (name rest : List Char) (hne : name ≠ [])
    (hword : ∀ c ∈ name, isWordChar c = true) :
    placeholderName (name ++ '}' :: rest) = some name := by
  obtain ⟨h1, h2⟩ := takeWhile_name name rest hword
  unfold placeholderName
  rw [h1, h2]
  cases name with
  | nil => exact absurd rfl hne
  | cons c cs => rfl

theorem placeholderName_some (rest name : List Char)
    (h : placeholderName rest = some name) :
    (∃ tail, rest = name ++ '}' :: tail) ∧ name ≠ [] ∧
      ∀ c ∈ name, isWordChar c = true := by
  unfold placeholderName at h
  have happ := List.takeWhile_append_dropWhile isWordChar rest
  have hmem : ∀ c ∈ rest.takeWhile isWordChar, isWordChar c = true :=
    fun c hc => List.mem_takeWhile_imp hc
  split at h
  · rename_i c cs tail htake hdrop
    simp only [Option.some.injEq] at h
    subst h
    rw [htake] at hmem
    refine ⟨⟨tail, ?_⟩, by simp, hmem⟩
    rw [← happ, htake, hdrop]
  · simp at h

/-- The callback of `interpolateVariables` puts for a placeholder what `render`
puts for it. -/
theorem interpolationCallback_render (host : Host) (vars : JsValue) (name : List Char) :
    interpolationCallback host vars ⟨'{' :: name ++ ['}']⟩ ⟨name⟩ =
      match (Piece.placeholder name).render host vars with
      | .ok chars => .ok ⟨chars⟩
      | .error e => .error e := by
  simp only [interpolationCallback, Piece.render]
  cases readProp host vars ⟨name⟩ with
  | error e => rfl
  | ok value =>
    by_cases hv : value.isNullish = true
    · simp [hv]
    · simp only [hv, Bool.not_eq_true, Bool.not_false, if_true]
      simp only [Bool.not_eq_true] at hv
      simp only [hv, Bool.false_eq_true, if_false]
      cases toJsString value <;> rfl

theorem replacePlaceholders_parsed (host : Host) (vars : JsValue) (pieces : List Piece)
    (h : Piece.Parsed pieces) :
    replacePlaceholders (interpolationCallback host vars) 0 (Piece.sourceAll pieces) =
      Piece.renderAll host vars pieces := by
  induction pieces with
  | nil => rfl
  | cons piece rest ih =>
    cases piece with
    | lit c =>
      obtain ⟨hbrace, hrest⟩ := h
      have hsource : Piece.sourceAll (.lit c :: rest) = c :: Piece.sourceAll rest := rfl
      have hrender : Piece.renderAll host vars (.lit c :: rest) =
          match Piece.renderAll host vars rest with
          | .error e => .error e
          | .ok others => .ok (c :: others) := by
        simp only [Piece.renderAll, Piece.render]
        cases Piece.renderAll host vars rest <;> rfl
      rw [hsource, hrender]
      simp only [replacePlaceholders]
      by_cases hc : c = '{'
      · simp only [hc, if_true, hbrace hc, ih hrest]
      · simp only [hc, if_false, ih hrest]
    | placeholder name =>
      obtain ⟨hne, hword, hrest⟩ := h
      have hname := placeholderName_of_name name (Piece.sourceAll rest) hne hword
      have hskip := replacePlaceholders_skip (interpolationCallback host vars) (name ++ ['}'])
        (Piece.sourceAll rest)
      simp only [List.length_append, List.length_singleton, List.append_assoc,
        List.singleton_append] at hskip
      have hsource : Piece.sourceAll (.placeholder name :: rest) =
          '{' :: (name ++ '}' :: Piece.sourceAll rest) := by
        simp [Piece.sourceAll, Piece.source]
      have hcall := interpolationCallback_render host vars name
      rw [hsource]
      simp only [replacePlaceholders, if_true, hname, hskip, ih hrest, Piece.renderAll]
      rw [hcall]
      cases (Piece.placeholder name).render host vars with
      | error e => rfl
      | ok chars => cases Piece.renderAll host vars rest <;> rfl

theorem exists_parsed_of_length (n : Nat) :
    ∀ text : List Char, text.length ≤ n →
      ∃ pieces, Piece.Parsed pieces ∧ Piece.sourceAll pieces = text := by
  induction n with
  | zero =>
    intro text h
    have : text = [] := List.length_eq_zero.mp (Nat.le_zero.mp h)
    exact ⟨[], trivial, this.symm⟩
  | succ n ih =>
    intro text h
    cases text with
    | nil => exact ⟨[], trivial, rfl⟩
    | cons c rest =>
      have hrest : rest.length ≤ n := by simpa using h
      by_cases hc : c = '{' ∧ (placeholderName rest).isSome
      · obtain ⟨hc, hsome⟩ := hc
        obtain ⟨name, hname⟩ := Option.isSome_iff_exists.mp hsome
        obtain ⟨⟨tail, htail⟩, hne, hword⟩ := placeholderName_some rest name hname
        obtain ⟨pieces, hparsed, hsource⟩ := ih tail (by
          subst htail
          simp at hrest
          omega)
        refine ⟨.placeholder name :: pieces, ⟨hne, hword, hparsed⟩, ?_⟩
        simp [Piece.sourceAll, Piece.source, hsource, htail, hc]
      · obtain ⟨pieces, hparsed, hsource⟩ := ih rest hrest
        refine ⟨.lit c :: pieces, ⟨?_, hparsed⟩, ?_⟩
        · intro hbrace
          rw [hsource]
          by_contra hnone
          exact hc ⟨hbrace, Option.ne_none_iff_isSome.mp hnone⟩
        · simp [Piece.sourceAll, Piece.source, hsource]

theorem exists_parsed (text : List Char) :
    ∃ pieces, Piece.Parsed pieces ∧ Piece.sourceAll pieces = text :=
  exists_parsed_of_length text.length text (Nat.le_refl _)

/-- A text has one decomposition into pieces. -/
theorem parsed_unique (pieces others : List Piece) (hp : Piece.Parsed pieces)
    (ho : Piece.Parsed others) (h : Piece.sourceAll pieces = Piece.sourceAll others) :
    pieces = others := by
  induction pieces generalizing others with
  | nil =>
    cases others with
    | nil => rfl
    | cons other rest => cases other <;> simp [Piece.sourceAll, Piece.source] at h
  | cons piece rest ih =>
    cases others with
    | nil => cases piece <;> simp [Piece.sourceAll, Piece.source] at h
    | cons other rest' =>
      cases piece with
      | lit c =>
        cases other with
        | lit c' =>
          simp only [Piece.sourceAll, Piece.source, List.singleton_append, List.cons.injEq] at h
          rw [h.1, ih rest' hp.2 ho.2 h.2]
        | placeholder name =>
          exfalso
          simp only [Piece.sourceAll, Piece.source, List.singleton_append, List.cons_append,
            List.append_assoc, List.cons.injEq, List.nil_append] at h
          have hnone := hp.1 h.1
          rw [h.2] at hnone
          rw [placeholderName_of_name name _ ho.1 ho.2.1] at hnone
          cases hnone
      | placeholder name =>
        cases other with
        | lit c' =>
          exfalso
          simp only [Piece.sourceAll, Piece.source, List.singleton_append, List.cons_append,
            List.append_assoc, List.cons.injEq, List.nil_append] at h
          have hnone := ho.1 h.1.symm
          rw [← h.2] at hnone
          rw [placeholderName_of_name name _ hp.1 hp.2.1] at hnone
          cases hnone
        | placeholder name' =>
          simp only [Piece.sourceAll, Piece.source, List.singleton_append, List.cons_append,
            List.append_assoc, List.cons.injEq, true_and, List.nil_append] at h
          have h1 := takeWhile_name name (Piece.sourceAll rest) hp.2.1
          have h2 := takeWhile_name name' (Piece.sourceAll rest') ho.2.1
          rw [h] at h1
          have hname : name = name' := h1.1.symm.trans h2.1
          have htail : Piece.sourceAll rest = Piece.sourceAll rest' := by
            have := h1.2.symm.trans h2.2
            simpa using this
          rw [hname, ih rest' hp.2.2 ho.2.2 htail]

/-- C5 (counterexample): against the text `See {constructor} or {email}` and
the variables `{email: 'a@b.com'}`, which have no variable `constructor`, `t`
does not leave `{constructor}` verbatim: the read `variables['constructor']`
finds the function `Object` that every object inherits, and its string form is
put in. And against `Email us at {email}` with the variable `email` present and
holding the object `{toString: 1}`, which has no string form, `t` raises the
`TypeError` of `String(value)`. -/
theorem t_interpolates_inherited :
    hintManager.t standardHost "hint" (.obj [("email", .str "a@b.com")]) =
      (.ok (.str "See function Object() \x7b [native code] \x7d or a@b.com"), hintManager) ∧
    (JsValue.obj [("email", .str "a@b.com")]).hasOwn "constructor" = false ∧
    helperManager.t standardHost "contact.email"
        (.obj [("email", .obj [("toString", .num "1" true)])]) =
      (.error (.typeError "Cannot convert object to primitive value"), helperManager) :=
  ⟨rfl, rfl, rfl⟩

/-- C5 (amended): when the key resolves to the string `text`, the text splits in
one way into literal characters and placeholders `{name}` (all the placeholders
of the text: no literal `{` starts one), and `t(key, variables)` with a
variables map that is not empty returns the text with each placeholder for
which the read `variables[name]`, of an own or an inherited property, gives a
value that is neither `null` nor `undefined` replaced by the string form of that
value, and every other piece verbatim, or raises what such a read or conversion
raises; with an empty variables map, or none, the text is returned unchanged.
The manager is left as it was. -/
theorem t_interpolates (host : Host) (manager : TranslationManager) (key text : String)
    (props : List (String × JsValue))
    (hfound : getNestedValue host manager.translations key = .ok (.str text)) :
    (∃ pieces, Piece.Parsed pieces ∧ Piece.sourceAll pieces = text.data ∧
      (∀ others, Piece.Parsed others → Piece.sourceAll others = text.data →
        others = pieces) ∧
      (props ≠ [] →
        manager.t host key (.obj props) =
          ((Piece.renderAll host (.obj props) pieces).map fun chars => .str ⟨chars⟩,
            manager))) ∧
    manager.t host key (.obj []) = (.ok (.str text), manager) ∧
    manager.t host key .undefined = (.ok (.str text), manager) := by
  obtain ⟨pieces, hparsed, hsource⟩ := exists_parsed text.data
  refine ⟨⟨pieces, hparsed, hsource,
    fun others ho hs => parsed_unique others pieces ho hparsed (hs.trans hsource.symm), ?_⟩,
    ?_, ?_⟩
  · intro hprops
    cases props with
    | nil => exact absurd rfl hprops
    | cons prop rest =>
      simp only [TranslationManager.t, hfound, isNullish, isUndefined, truthy, objectKeys,
        interpolateVariables, ← hsource, replacePlaceholders_parsed _ _ _ hparsed]
      simp only [List.map_cons, List.length_cons, gt_iff_lt, Nat.zero_lt_succ, if_true,
        Bool.false_eq_true, if_false, Bool.not_true]
      cases Piece.renderAll host (.obj (prop :: rest)) pieces <;> rfl
  · simp [TranslationManager.t, hfound, isNullish, isUndefined, truthy, objectKeys]
  · simp [TranslationManager.t, hfound, isNullish, isUndefined, truthy, objectKeys]

/-- The key `contact.email` of the test suite resolves to a string with one
placeholder. -/
theorem t_interpolates_witness :
    getNestedValue standardHost helperManager.translations "contact.email" =
      .ok (.str "Email us at \x7bemail\x7d") ∧
    helperManager.t standardHost "contact.email" (.obj []) =
      (.ok (.str "Email us at \x7bemail\x7d"), helperManager) :=
  ⟨rfl, (t_interpolates standardHost helperManager "contact.email"
    "Email us at \x7bemail\x7d" [("email", .str "hello@studioencantador.com")] rfl).2.1⟩

/-- The interpolation tests of the suite, and the examples of the
specification. -/
theorem t_interpolation_examples :
    helperManager.t standardHost "contact.email"
        (.obj [("email", .str "hello@studioencantador.com")]) =
      (.ok (.str "Email us at hello@studioencantador.com"), helperManager) ∧
    helperManager.t standardHost "team.count" (.obj [("count", .num "5" true)]) =
      (.ok (.str "We have 5 team members"), helperManager) ∧
    helperManager.t standardHost "contact.email" (.obj []) =
      (.ok (.str "Email us at \x7bemail\x7d"), helperManager) ∧
    helperManager.t standardHost "contact.email" (.obj [("email", .null)]) =
      (.ok (.str "Email us at \x7bemail\x7d"), helperManager) ∧
    helperManager.t standardHost "contact.email" (.obj [("name", .str "x")]) =
      (.ok (.str "Email us at \x7bemail\x7d"), helperManager) :=
  ⟨rfl, rfl, rfl, rfl, rfl⟩

/-! ## TranslationManager: missing keys -/

theorem t_of_missing (host : Host) (manager : TranslationManager) (key : String)
    (vars : JsValue) (h : isMissingKey host manager.translations key = true) :
    manager.t host key vars = (.ok (.str key), manager.trackMissingKey key) := by
  simp only [isMissingKey] at h
  cases hwalk : getNestedValue host manager.translations key with
  | error e => simp [hwalk] at h
  | ok value =>
    rw [hwalk] at h
    simp only at h
    simp [TranslationManager.t, hwalk, h]

theorem t_of_found (host : Host) (manager : TranslationManager) (key : String)
    (vars : JsValue) (h : isMissingKey host manager.translations key = false) :
    (manager.t host key vars).2 = manager := by
  simp only [isMissingKey] at h
  cases hwalk : getNestedValue host manager.translations key with
  | error e => simp [TranslationManager.t, hwalk]
  | ok value =>
    rw [hwalk] at h
    simp only at h
    simp only [TranslationManager.t, hwalk, h, Bool.false_eq_true, if_false]
    generalize (if vars.isUndefined = true then JsValue.obj [] else vars) = given
    by_cases htruthy : given.truthy = true
    · simp only [htruthy, Bool.not_true, Bool.false_eq_true, if_false]
      cases objectKeys given with
      | error e => rfl
      | ok keys =>
        by_cases hlen : keys.length > 0 <;> simp [hlen]
    · simp [htruthy]

theorem t_state (host : Host) (manager : TranslationManager) (key : String) (vars : JsValue) :
    (manager.t host key vars).2 =
      if isMissingKey host manager.translations key = true ∧ key ∉ manager.missingKeys then
        { manager with
          missingKeys := manager.missingKeys ++ [key]
          dispatched := manager.dispatched ++ [.missingTranslation key manager.currentLanguage] }
      else manager := by
  by_cases hm : isMissingKey host manager.translations key = true
  · rw [t_of_missing host manager key vars hm]
    by_cases hk : key ∈ manager.missingKeys
    · simp [TranslationManager.trackMissingKey, hk, hm]
    · simp [TranslationManager.trackMissingKey, hk, hm]
  · simp only [Bool.not_eq_true] at hm
    rw [t_of_found host manager key vars hm]
    simp [hm]

theorem indexOf_cons_ne_succ (a b : String) (keys : List String) (h : b ≠ a) :
    (a :: keys).indexOf b = keys.indexOf b + 1 := by
  rw [List.indexOf_cons_ne _ (Ne.symm h)]

/-- What a sequence of calls of `t` adds to the missing-key set and to the
dispatched events. -/
theorem tAll_added (host : Host) (manager : TranslationManager)
    (calls : List (String × JsValue)) :
    ∃ added : List String,
      (manager.tAll host calls).getMissingKeys = manager.missingKeys ++ added ∧
      (manager.tAll host calls).dispatched =
        manager.dispatched ++
          added.map (fun key => .missingTranslation key manager.currentLanguage) ∧
      added.Nodup ∧
      (∀ key, key ∈ added ↔
        key ∉ manager.missingKeys ∧ key ∈ calls.map Prod.fst ∧
          isMissingKey host manager.translations key = true) ∧
      added.Pairwise
        (fun a b => (calls.map Prod.fst).indexOf a < (calls.map Prod.fst).indexOf b) ∧
      (manager.tAll host calls).translations = manager.translations ∧
      (manager.tAll host calls).currentLanguage = manager.currentLanguage := by
  induction calls generalizing manager with
  | nil => exact ⟨[], by simp [TranslationManager.tAll, TranslationManager.getMissingKeys]⟩
  | cons call rest ih =>
    obtain ⟨key, vars⟩ := call
    have hstep : manager.tAll host ((key, vars) :: rest) =
        (manager.t host key vars).2.tAll host rest := rfl
    have hstate := t_state host manager key vars
    rw [hstep, hstate]
    by_cases hnew :
        isMissingKey host manager.translations key = true ∧ key ∉ manager.missingKeys
    · rw [if_pos hnew]
      obtain ⟨added, hkeys, hevents, hnodup, hmem, horder, htr, hlang⟩ := ih
        { manager with
          missingKeys := manager.missingKeys ++ [key]
          dispatched := manager.dispatched ++ [.missingTranslation key manager.currentLanguage] }
      simp only at hkeys hevents hmem htr hlang
      have hnotin : key ∉ added := by
        intro h
        exact ((hmem key).mp h).1 (by simp)
      refine ⟨key :: added, by simp [hkeys], by simp [hevents], ?_, ?_, ?_, htr, hlang⟩
      · exact List.nodup_cons.mpr ⟨hnotin, hnodup⟩
      · intro k
        by_cases hk : k = key
        · subst hk
          simp [hnew.1, hnew.2]
        · simp [hk, hmem k]
      · refine List.pairwise_cons.mpr ⟨?_, ?_⟩
        · intro b hb
          have hbk : b ≠ key := fun h => hnotin (h ▸ hb)
          simp only [List.map_cons]
          rw [List.indexOf_cons_self, indexOf_cons_ne_succ _ _ _ hbk]
          omega
        · refine horder.imp_of_mem ?_
          intro a b ha hb hab
          have hak : a ≠ key := fun h => hnotin (h ▸ ha)
          have hbk : b ≠ key := fun h => hnotin (h ▸ hb)
          simp only [List.map_cons]
          rw [indexOf_cons_ne_succ _ _ _ hak, indexOf_cons_ne_succ _ _ _ hbk]
          omega
    · rw [if_neg hnew]
      obtain ⟨added, hkeys, hevents, hnodup, hmem, horder, htr, hlang⟩ := ih manager
      have hne : ∀ a ∈ added, a ≠ key := by
        intro a ha hak
        subst hak
        obtain ⟨h1, -, h3⟩ := (hmem a).mp ha
        exact hnew ⟨h3, h1⟩
      refine ⟨added, hkeys, hevents, hnodup, ?_, ?_, htr, hlang⟩
      · intro k
        rw [hmem k]
        simp only [List.map_cons, List.mem_cons]
        constructor
        · rintro ⟨h1, h2, h3⟩
          exact ⟨h1, Or.inr h2, h3⟩
        · rintro ⟨h1, h2 | h2, h3⟩
          · subst h2
            exact absurd ⟨h3, h1⟩ hnew
          · exact ⟨h1, h2, h3⟩
      · refine horder.imp_of_mem ?_
        intro a b ha hb hab
        simp only [List.map_cons]
        rw [indexOf_cons_ne_succ _ _ _ (hne a ha), indexOf_cons_ne_succ _ _ _ (hne b hb)]
        omega


/-- C6: in every engine, over any sequence of calls of `t`, the missing-key set
grows by a list `added` of keys and exactly one `missingTranslation` event, with
the current locale, is dispatched for each of them, in the same order. `added`
has no duplicates and holds exactly the called keys that are missing, that is
whose walk, inherited members included, ends on `undefined` or `null`, and were
not in the set already, in the order of their first call; so a missing key
called any number of times, at least once, is entered once and announced once,
and a key that resolves is never entered (a call on it leaves the manager as it
was). -/
theorem missing_keys_tracked_once (host : Host) (manager : TranslationManager)
    (calls : List (String × JsValue)) :
    (∃ added : List String,
      (manager.tAll host calls).getMissingKeys = manager.missingKeys ++ added ∧
      (manager.tAll host calls).dispatched =
        manager.dispatched ++
          added.map (fun key => .missingTranslation key manager.currentLanguage) ∧
      added.Nodup ∧
      (∀ key, key ∈ added ↔
        key ∉ manager.missingKeys ∧ key ∈ calls.map Prod.fst ∧
          isMissingKey host manager.translations key = true) ∧
      (∀ key, key ∉ manager.missingKeys → key ∈ calls.map Prod.fst →
        isMissingKey host manager.translations key = true → added.count key = 1) ∧
      added.Pairwise
        (fun a b => (calls.map Prod.fst).indexOf a < (calls.map Prod.fst).indexOf b)) ∧
    (∀ (key : String) (vars : JsValue), isMissingKey host manager.translations key = false →
      (manager.t host key vars).2 = manager) := by
  refine ⟨?_, fun key vars h => t_of_found host manager key vars h⟩
  obtain ⟨added, h1, h2, h3, h4, h5, -, -⟩ := tAll_added host manager calls
  exact ⟨added, h1, h2, h3, h4,
    fun key hk hcalled hmiss => List.count_eq_one_of_mem h3 ((h4 key).mpr ⟨hk, hcalled, hmiss⟩),
    h5⟩

/-- The test `should not duplicate missing keys`: three calls of
`t('missing.key')` leave one entry and one event. -/
theorem t_missing_key_thrice :
    (helperManager.tAll standardHost [("missing.key", .undefined), ("missing.key", .undefined),
      ("missing.key", .undefined)]).getMissingKeys = ["missing.key"] ∧
    (helperManager.tAll standardHost [("missing.key", .undefined), ("missing.key", .undefined),
      ("missing.key", .undefined)]).dispatched = [.missingTranslation "missing.key" "en"] ∧
    (helperManager.t standardHost "missing.key" .undefined).1 = .ok (.str "missing.key") :=
  ⟨rfl, rfl, rfl⟩

/-- Keys that name an inherited member resolve: `t('constructor')` and
`t('services.toString')` return the member and record nothing, while
`t('__proto__.__proto__')`, whose walk ends on `null`, is recorded. -/
theorem t_inherited_keys :
    isMissingKey standardHost helperTranslations "constructor" = false ∧
    helperManager.t standardHost "constructor" .undefined =
      (.ok objectConstructor, helperManager) ∧
    isMissingKey standardHost helperTranslations "services.toString" = false ∧
    (helperManager.t standardHost "services.toString" .undefined).2 = helperManager ∧
    isMissingKey standardHost helperTranslations "__proto__.__proto__" = true ∧
    (helperManager.tAll standardHost [("constructor", .undefined),
      ("__proto__.__proto__", .undefined), ("services.toString", .undefined),
      ("__proto__.__proto__", .undefined)]).getMissingKeys = ["__proto__.__proto__"] :=
  ⟨rfl, rfl, rfl, rfl, rfl, rfl⟩

/-! ## TranslationManager: the document and the switch of locale -/

theorem extends_refl {host : Host} (manager : TranslationManager) (keys : List String) :
    manager.Extends host manager keys :=
  ⟨rfl, rfl, fun _ h => Or.inl h⟩

theorem extends_trans {host : Host} {a b c : TranslationManager}
    {keys keys' all : List String}
    (hab : a.Extends host b keys) (hbc : b.Extends host c keys')
    (h1 : ∀ k ∈ keys, k ∈ all) (h2 : ∀ k ∈ keys', k ∈ all) : a.Extends host c all := by
  obtain ⟨t1, l1, m1⟩ := hab
  obtain ⟨t2, l2, m2⟩ := hbc
  refine ⟨t2.trans t1, l2.trans l1, ?_⟩
  intro key hkey
  rcases m2 key hkey with h | ⟨h, hm⟩
  · rcases m1 key h with h | ⟨h, hm⟩
    · exact Or.inl h
    · exact Or.inr ⟨h1 key h, hm⟩
  · exact Or.inr ⟨h2 key h, by rw [← t1]; exact hm⟩

theorem t_extends (host : Host) (manager : TranslationManager) (key : String)
    (vars : JsValue) : manager.Extends host (manager.t host key vars).2 [key] := by
  rw [t_state]
  split_ifs with h
  · refine ⟨rfl, rfl, ?_⟩
    intro k hk
    simp only [List.mem_append, List.mem_singleton] at hk
    rcases hk with hk | hk
    · exact Or.inl hk
    · exact Or.inr ⟨by simp [hk], by rw [hk]; exact h.1⟩
  · exact extends_refl manager _

theorem mem_attributeKeys (attrs : List (String × String)) (selector key : String)
    (hsel : selector ∈ translationAttributes) (h : getAttribute attrs selector = some key) :
    key ∈ attributeKeys attrs := by
  simp only [attributeKeys, List.mem_filterMap]
  exact ⟨selector, hsel, h⟩

mutual
theorem syncNode_extends (host : Host) (jsonParse : String → Option JsValue) (selector : String)
    (target : SyncTarget) (hsel : selector ∈ translationAttributes) :
    ∀ (node : Node) (st : SyncState),
      st.manager.Extends host (syncNode host jsonParse selector target node st).2.manager
        node.translationKeys
  | .text data, st => by
    simp only [syncNode]
    exact extends_refl _ _
  | .element attrs children, st => by
    have ih := syncNodes_extends host jsonParse selector target hsel children
    simp only [syncNode, Node.translationKeys]
    cases hkey : getAttribute attrs selector with
    | none =>
      simp only
      exact extends_trans (extends_refl st.manager []) (ih st) (by simp)
        (fun k hk => List.mem_append_right _ hk)
    | some key =>
      cases hraised : st.raised with
      | some e =>
        simp only
        exact extends_trans (extends_refl st.manager []) (ih st) (by simp)
          (fun k hk => List.mem_append_right _ hk)
      | none =>
        simp only
        have hmem := mem_attributeKeys attrs selector key hsel hkey
        have hstep := t_extends host st.manager key (syncVars jsonParse target attrs)
        cases hres : st.manager.t host key (syncVars jsonParse target attrs) with
        | mk result manager =>
          rw [hres] at hstep
          cases result with
          | error e =>
            simp only
            exact extends_trans hstep (extends_refl _ [])
              (by simpa using List.mem_append_left _ hmem) (by simp)
          | ok value =>
            have h3 : st.manager.Extends host
                (syncNodes host jsonParse selector target children ⟨manager, none⟩).2.manager
                (attributeKeys attrs ++ translationKeysOf children) :=
              extends_trans hstep (ih ⟨manager, none⟩)
                (by simpa using List.mem_append_left _ hmem)
                (fun k hk => List.mem_append_right _ hk)
            have h4 : st.manager.Extends host manager
                (attributeKeys attrs ++ translationKeysOf children) :=
              extends_trans hstep (extends_refl _ [])
                (by simpa using List.mem_append_left _ hmem) (by simp)
            cases target with
            | textContent =>
              simp only
              cases textChildren value with
              | error e => exact h4
              | ok nodes => exact h3
            | attr name =>
              simp only
              cases toJsString value with
              | error e => exact h4
              | ok text => exact h3
theorem syncNodes_extends (host : Host) (jsonParse : String → Option JsValue) (selector : String)
    (target : SyncTarget) (hsel : selector ∈ translationAttributes) :
    ∀ (nodes : List Node) (st : SyncState),
      st.manager.Extends host (syncNodes host jsonParse selector target nodes st).2.manager
        (translationKeysOf nodes)
  | [], st => by
    simp only [syncNodes]
    exact extends_refl _ _
  | node :: rest, st => by
    simp only [syncNodes, translationKeysOf]
    exact extends_trans (syncNode_extends host jsonParse selector target hsel node st)
      (syncNodes_extends host jsonParse selector target hsel rest _)
      (fun k hk => List.mem_append_left _ hk) (fun k hk => List.mem_append_right _ hk)
end

theorem getAttribute_setAttribute_ne (attrs : List (String × String))
    (name value other : String) (h : name ≠ other) :
    getAttribute (setAttribute attrs name value) other = getAttribute attrs other := by
  induction attrs with
  | nil => simp [setAttribute, getAttribute, h]
  | cons attr rest ih =>
    obtain ⟨k, v⟩ := attr
    by_cases hk : k = name
    · subst hk
      simp [setAttribute, getAttribute, h]
    · by_cases hk' : k = other
      · subst hk'
        simp [setAttribute, getAttribute, hk]
      · simp [setAttribute, getAttribute, hk, hk', ih]

theorem attributeKeys_setAttribute (attrs : List (String × String)) (name value : String)
    (h : name ∉ translationAttributes) :
    attributeKeys (setAttribute attrs name value) = attributeKeys attrs := by
  unfold attributeKeys
  apply List.filterMap_congr
  intro selector hsel
  exact getAttribute_setAttribute_ne attrs name value selector (fun heq => h (heq ▸ hsel))

theorem translationKeysOf_textNodes (text : String) :
    translationKeysOf (textNodes text) = [] := by
  unfold textNodes
  split_ifs <;> simp [translationKeysOf, Node.translationKeys]

theorem translationKeysOf_textChildren (value : JsValue) (nodes : List Node)
    (h : textChildren value = .ok nodes) : translationKeysOf nodes = [] := by
  unfold textChildren at h
  split_ifs at h
  · cases h
    rfl
  · cases htext : toJsString value with
    | error e => simp [htext] at h
    | ok text =>
      simp only [htext] at h
      cases h
      exact translationKeysOf_textNodes text

mutual
theorem syncNode_keys (host : Host) (jsonParse : String → Option JsValue) (selector : String)
    (target : SyncTarget) (htarget : target.Plain) :
    ∀ (node : Node) (st : SyncState),
      ∀ key ∈ (syncNode host jsonParse selector target node st).1.translationKeys,
        key ∈ node.translationKeys
  | .text data, st => by
    simp [syncNode]
  | .element attrs children, st => by
    have ih := syncNodes_keys host jsonParse selector target htarget children
    have hskip : ∀ key ∈ (Node.element attrs
        (syncNodes host jsonParse selector target children st).1).translationKeys,
        key ∈ (Node.element attrs children).translationKeys := by
      intro key hkey
      simp only [Node.translationKeys, List.mem_append] at hkey ⊢
      exact hkey.imp id (ih st key)
    simp only [syncNode]
    cases hkey : getAttribute attrs selector with
    | none => exact hskip
    | some key =>
      cases hraised : st.raised with
      | some e => exact hskip
      | none =>
        simp only
        cases hres : st.manager.t host key (syncVars jsonParse target attrs) with
        | mk result manager =>
          cases result with
          | error e => simp
          | ok value =>
            cases target with
            | textContent =>
              simp only
              cases hnodes : textChildren value with
              | error e => simp
              | ok nodes =>
                intro k hk
                simp only [Node.translationKeys, translationKeysOf_textChildren value nodes hnodes,
                  List.append_nil] at hk
                simp only [Node.translationKeys, List.mem_append]
                exact Or.inl hk
            | attr name =>
              simp only
              cases toJsString value with
              | error e => simp
              | ok text =>
                intro k hk
                simp only [Node.translationKeys, attributeKeys_setAttribute _ _ _ htarget,
                  List.mem_append] at hk ⊢
                exact hk.imp id (ih _ k)
theorem syncNodes_keys (host : Host) (jsonParse : String → Option JsValue) (selector : String)
    (target : SyncTarget) (htarget : target.Plain) :
    ∀ (nodes : List Node) (st : SyncState),
      ∀ key ∈ translationKeysOf (syncNodes host jsonParse selector target nodes st).1,
        key ∈ translationKeysOf nodes
  | [], st => by
    simp [syncNodes]
  | node :: rest, st => by
    intro key hkey
    simp only [syncNodes, translationKeysOf, List.mem_append] at hkey ⊢
    exact hkey.imp (syncNode_keys host jsonParse selector target htarget node st key)
      (syncNodes_keys host jsonParse selector target htarget rest _ key)
end

/-- One more loop of `updateDOM` keeps what the loops before it established. -/
theorem syncNodes_pass (host : Host) (jsonParse : String → Option JsValue) (selector : String)
    (target : SyncTarget) (hsel : selector ∈ translationAttributes) (htarget : target.Plain)
    (start : TranslationManager) (document : List Node) (nodes : List Node) (st : SyncState)
    (h : start.Extends host st.manager (translationKeysOf document) ∧
      ∀ key ∈ translationKeysOf nodes, key ∈ translationKeysOf document) :
    start.Extends host (syncNodes host jsonParse selector target nodes st).2.manager
        (translationKeysOf document) ∧
      ∀ key ∈ translationKeysOf (syncNodes host jsonParse selector target nodes st).1,
        key ∈ translationKeysOf document :=
  ⟨extends_trans h.1 (syncNodes_extends host jsonParse selector target hsel nodes st)
      (fun _ hk => hk) h.2,
    fun key hkey => h.2 key (syncNodes_keys host jsonParse selector target htarget nodes st key
        hkey)⟩

theorem updateDOM_extends (host : Host) (jsonParse : String → Option JsValue) (page : Page) :
    page.manager.Extends host (page.updateDOM host jsonParse).2.manager
        (translationKeysOf page.document) ∧
      ∀ key ∈ translationKeysOf (page.updateDOM host jsonParse).2.document,
        key ∈ translationKeysOf page.document := by
  have h := syncNodes_pass host jsonParse "data-translate-aria-label" (.attr "aria-label")
    (by decide) (by simp [SyncTarget.Plain, translationAttributes]) page.manager page.document _ _
    (syncNodes_pass host jsonParse "data-translate-title" (.attr "title")
      (by decide) (by simp [SyncTarget.Plain, translationAttributes]) page.manager page.document
      _ _
      (syncNodes_pass host jsonParse "data-translate-placeholder" (.attr "placeholder")
        (by decide) (by simp [SyncTarget.Plain, translationAttributes]) page.manager
        page.document _ _
        (syncNodes_pass host jsonParse "data-translate" .textContent
          (by decide) trivial page.manager page.document page.document ⟨page.manager, none⟩
          ⟨extends_refl _ _, fun _ hk => hk⟩)))
  simp only [Page.updateDOM]
  split <;> exact h

/-- A switch whose load resolved: the locale is the requested one, every key of
the missing-key set is named by an element of the document and missing in the
loaded document, and the document names no new key. -/
theorem switchLanguage_resolved (host : Host) (jsonParse : String → Option JsValue) (page : Page)
    (language : String) (translations : JsValue) :
    (page.switchLanguage host jsonParse language (.ok translations)).manager.currentLanguage =
      language ∧
    (∀ key ∈ (page.switchLanguage host jsonParse language (.ok translations)).manager.missingKeys,
      key ∈ translationKeysOf page.document ∧ isMissingKey host translations key = true) ∧
    ∀ key ∈ translationKeysOf
        (page.switchLanguage host jsonParse language (.ok translations)).document,
      key ∈ translationKeysOf page.document := by
  have h := updateDOM_extends host jsonParse
    { page with
      manager := ({ page.manager with
        translations := translations, currentLanguage := language }).clearMissingKeys }
  obtain ⟨⟨htr, hlang, hmiss⟩, hkeys⟩ := h
  simp only [TranslationManager.clearMissingKeys, List.not_mem_nil, false_or]
    at htr hlang hmiss hkeys
  simp only [Page.switchLanguage, TranslationManager.clearMissingKeys]
  split
  · exact ⟨by simp_all, by simp_all, by simp_all⟩
  · exact ⟨by simp_all, by simp_all, by simp_all⟩

theorem switchLanguage_keys (host : Host) (jsonParse : String → Option JsValue) (page : Page)
    (language : String) (loaded : Except JsError JsValue) :
    ∀ key ∈ translationKeysOf (page.switchLanguage host jsonParse language loaded).document,
      key ∈ translationKeysOf page.document := by
  cases loaded with
  | error e => simp [Page.switchLanguage]
  | ok translations => exact (switchLanguage_resolved host jsonParse page language translations).2.2

/-- A switch whose load resolved to `D` and whose `updateDOM` completed: the
document is `D`, the locale the requested one, and the `translationsLoaded`
event is the last one dispatched. -/
theorem switchLanguage_completed (host : Host) (jsonParse : String → Option JsValue) (page : Page)
    (language : String) (translations : JsValue)
    (hsync : (Page.updateDOM host jsonParse
      { page with
        manager := ({ page.manager with
          translations := translations
          currentLanguage := language }).clearMissingKeys }).1 = .ok ()) :
    (page.switchLanguage host jsonParse language (.ok translations)).manager.translations =
      translations ∧
    (page.switchLanguage host jsonParse language (.ok translations)).manager.currentLanguage =
      language ∧
    ∃ earlier, (page.switchLanguage host jsonParse language (.ok translations)).manager.dispatched =
      earlier ++ [.translationsLoaded language translations] := by
  have h := (updateDOM_extends host jsonParse
    { page with
      manager := ({ page.manager with
        translations := translations, currentLanguage := language }).clearMissingKeys }).1
  obtain ⟨htr, hlang, -⟩ := h
  simp only [TranslationManager.clearMissingKeys] at htr hlang hsync
  simp only [Page.switchLanguage, TranslationManager.clearMissingKeys]
  split
  · rename_i e page' heq
    rw [heq] at hsync
    simp at hsync
  · rename_i u page' heq
    rw [heq] at htr hlang
    exact ⟨htr, hlang, _, rfl⟩

/-- C9 (the code at the failing input): the document holds one element with
`data-translate="services"` and a `data-translate-vars` attribute that parses
to a non-empty object, and the loader resolves to the document of the test
suite, in which `services` is a section. `t` raises inside `updateDOM`, the
`catch` of `switchLanguage` resets `translations` to `{}`, and no
`translationsLoaded` event is dispatched, while `currentLanguage` is already
the new locale. -/
theorem switchLanguage_section_key (jsonParse : String → Option JsValue)
    (hparse : jsonParse emailVarsText = some (.obj [("email", .str "test@example.com")])) :
    (sectionPage.switchLanguage standardHost jsonParse "zh-hk" (.ok
        helperTranslations)).manager.translations =
      .obj [] ∧
    (sectionPage.switchLanguage standardHost jsonParse "zh-hk" (.ok
        helperTranslations)).manager.dispatched =
      [] ∧
    (sectionPage.switchLanguage standardHost jsonParse "zh-hk"
      (.ok helperTranslations)).manager.currentLanguage = "zh-hk" := by
  have hvars : parseVars jsonParse
      [("data-translate", "services"), ("data-translate-vars", emailVarsText)] =
      .obj [("email", .str "test@example.com")] := by
    have hattr : getAttribute [("data-translate", "services"),
        ("data-translate-vars", emailVarsText)] "data-translate-vars" = some emailVarsText := rfl
    have hne : emailVarsText ≠ "" := by decide
    simp only [parseVars, hattr, hparse, if_neg hne]
  have h : sectionPage.switchLanguage standardHost jsonParse "zh-hk" (.ok helperTranslations) =
      sectionPage.switchLanguage standardHost emailVarsParse "zh-hk" (.ok helperTranslations) := by
    simp only [Page.switchLanguage, Page.updateDOM, sectionPage, syncNodes, syncNode, syncVars,
      hvars]
    rfl
  rw [h]
  exact ⟨rfl, rfl, rfl⟩

/-- The parser that reads the attribute of the test suite is such a parser. -/
theorem switchLanguage_section_key_witness :
    emailVarsParse emailVarsText = some (.obj [("email", .str "test@example.com")]) ∧
    (sectionPage.switchLanguage standardHost emailVarsParse "zh-hk"
      (.ok helperTranslations)).manager.translations = .obj [] ∧
    (sectionPage.switchLanguage standardHost emailVarsParse "zh-hk"
      (.ok helperTranslations)).manager.dispatched = [] :=
  ⟨rfl, (switchLanguage_section_key emailVarsParse rfl).1,
    (switchLanguage_section_key emailVarsParse rfl).2.1⟩

/-- C10 (counterexample): the document holds one element with
`data-translate="missing.key"`; after `switchLanguage('zh-hk')` followed by
`switchLanguage('en')`, both loads resolving, the missing-key set holds
`missing.key`: the second switch cleared the set and its `updateDOM` entered
the key again. -/
theorem switchLanguage_round_trip_refills :
    ((missingKeyPage.switchLanguage standardHost (fun _ => none) "zh-hk"
      (.ok englishTranslations)).switchLanguage standardHost (fun _ => none) "en"
      (.ok englishTranslations)).manager.getMissingKeys = ["missing.key"] ∧
    ((missingKeyPage.switchLanguage standardHost (fun _ => none) "zh-hk"
      (.ok englishTranslations)).switchLanguage standardHost (fun _ => none) "en"
      (.ok englishTranslations)).manager.currentLanguage = "en" :=
  ⟨rfl, rfl⟩

/-- C10 (amended): from every page, whatever the first load came to,
`switchLanguage('zh-hk')` followed by a `switchLanguage('en')` whose load
resolves leaves `currentLanguage` equal to `en`, and the missing-key set holds
only keys that an annotated element of the document names and that are missing
in the document the second switch loaded; it is empty when no such key is
missing, in particular when the document has no annotated element. -/
theorem switchLanguage_round_trip (host : Host) (jsonParse : String → Option JsValue) (page : Page)
    (first : Except JsError JsValue) (second : JsValue) :
    ((page.switchLanguage host jsonParse "zh-hk" first).switchLanguage host jsonParse "en"
        (.ok second)).manager.currentLanguage = "en" ∧
    (∀ key ∈ ((page.switchLanguage host jsonParse "zh-hk" first).switchLanguage host jsonParse "en"
        (.ok second)).manager.getMissingKeys,
      key ∈ translationKeysOf page.document ∧ isMissingKey host second key = true) ∧
    ((∀ key ∈ translationKeysOf page.document, isMissingKey host second key = false) →
      ((page.switchLanguage host jsonParse "zh-hk" first).switchLanguage host jsonParse "en"
        (.ok second)).manager.getMissingKeys = []) := by
  obtain ⟨hlang, hmiss, -⟩ := switchLanguage_resolved host jsonParse
    (page.switchLanguage host jsonParse "zh-hk" first) "en" second
  have hkeys := switchLanguage_keys host jsonParse page "zh-hk" first
  refine ⟨hlang, fun key hkey => ⟨hkeys key (hmiss key hkey).1, (hmiss key hkey).2⟩, ?_⟩
  intro hall
  apply List.eq_nil_iff_forall_not_mem.mpr
  intro key hkey
  have hkey' := hmiss key hkey
  rw [hall key (hkeys key hkey'.1)] at hkey'
  exact absurd hkey'.2 (by simp)

/-! ## LanguageSwitcher: the URL -/

theorem startsWith_iff (path pre : String) :
    startsWith path pre = true ↔ ∃ rest : String, path = pre ++ rest := by
  unfold startsWith
  rw [List.isPrefixOf_iff_prefix]
  constructor
  · rintro ⟨t, ht⟩
    exact ⟨⟨t⟩, String.ext (by simp [← ht])⟩
  · rintro ⟨rest, rfl⟩
    exact ⟨rest.data, by simp⟩

theorem startsWith_append (pre rest : String) : startsWith (pre ++ rest) pre = true :=
  (startsWith_iff _ _).mpr ⟨rest, rfl⟩

theorem drop_prefix (pre rest : String) :
    (⟨(pre ++ rest).data.drop pre.length⟩ : String) = rest := by
  apply String.ext
  show (pre ++ rest).data.drop pre.data.length = rest.data
  rw [String.data_append, List.drop_left]

theorem stripLocalePrefix_hk (rest : String) : stripLocalePrefix ("/zh-hk" ++ rest) = rest := by
  have h := startsWith_append "/zh-hk" rest
  simp only [stripLocalePrefix, h, Bool.true_or, if_true]
  exact drop_prefix "/zh-hk" rest

theorem stripLocalePrefix_cn (rest : String) : stripLocalePrefix ("/zh-cn" ++ rest) = rest := by
  have h := startsWith_append "/zh-cn" rest
  simp only [stripLocalePrefix, h, Bool.or_true, if_true]
  exact drop_prefix "/zh-cn" rest

theorem stripLocalePrefix_other (path : String) (hhk : startsWith path "/zh-hk" = false)
    (hcn : startsWith path "/zh-cn" = false) : stripLocalePrefix path = path := by
  simp [stripLocalePrefix, hhk, hcn]

/-- The path `updateURL` strips the prefix to. -/
theorem exists_strippedPath (path : String) :
    ∃ stripped, StrippedPath path stripped ∧
      stripped = (if stripLocalePrefix path = "" then "/" else stripLocalePrefix path) := by
  by_cases hhk : startsWith path "/zh-hk" = true
  · obtain ⟨rest, rfl⟩ := (startsWith_iff _ _).mp hhk
    rw [stripLocalePrefix_hk]
    exact ⟨_, Or.inl ⟨rest, Or.inl rfl, rfl⟩, rfl⟩
  · by_cases hcn : startsWith path "/zh-cn" = true
    · obtain ⟨rest, rfl⟩ := (startsWith_iff _ _).mp hcn
      rw [stripLocalePrefix_cn]
      exact ⟨_, Or.inl ⟨rest, Or.inr rfl, rfl⟩, rfl⟩
    · simp only [Bool.not_eq_true] at hhk hcn
      rw [stripLocalePrefix_other path hhk hcn]
      exact ⟨_, Or.inr ⟨hhk, hcn, rfl⟩, rfl⟩

theorem newPathFor_eq (language path : String) :
    newPathFor language path =
      if language = "zh-hk" then
        "/zh-hk" ++ (if stripLocalePrefix path = "" then "/" else stripLocalePrefix path)
      else if language = "zh-cn" then
        "/zh-cn" ++ (if stripLocalePrefix path = "" then "/" else stripLocalePrefix path)
      else (if stripLocalePrefix path = "" then "/" else stripLocalePrefix path) := by
  unfold newPathFor
  simp only
  split_ifs <;> simp_all

theorem updateURL_log (api : BrowserApi) (language : String) (browser : Browser) :
    (updateURL api language browser).2.log =
      browser.log ++ [.pushState language (newPathFor language browser.pathname)] := by
  unfold updateURL
  simp only
  cases api.pushedPath browser.pathname (newPathFor language browser.pathname) <;> rfl

/-- C12: with `r` the path left after stripping a leading `/zh-hk` or `/zh-cn`
from the current path (`/` when nothing is left), `updateURL(L)` makes exactly
one call of `history.pushState`, with the state `{ language: L }` and the URL
`/zh-hk` + `r` for `zh-hk`, `/zh-cn` + `r` for `zh-cn`, and `r` otherwise, as for
the default locale. -/
theorem updateURL_pushes (api : BrowserApi) (language : String) (browser : Browser) :
    ∃ stripped, StrippedPath browser.pathname stripped ∧
      (updateURL api language browser).2.log =
        browser.log ++ [.pushState language
          (if language = "zh-hk" then "/zh-hk" ++ stripped
           else if language = "zh-cn" then "/zh-cn" ++ stripped
           else stripped)] := by
  obtain ⟨stripped, hstripped, heq⟩ := exists_strippedPath browser.pathname
  refine ⟨stripped, hstripped, ?_⟩
  rw [updateURL_log, newPathFor_eq, heq]

/-- The paths of `URL Structure Management` in the test suite and of the
specification. -/
theorem updateURL_examples :
    newPathFor "zh-hk" "/services" = "/zh-hk/services" ∧
    newPathFor "en" "/zh-hk/services" = "/services" ∧
    newPathFor "zh-hk" "/" = "/zh-hk/" ∧
    newPathFor "zh-cn" "/" = "/zh-cn/" ∧
    newPathFor "en" "/" = "/" ∧
    newPathFor "zh-cn" "/zh-hk" = "/zh-cn/" ∧
    newPathFor "en" "/zh-cn" = "/" := by
  decide

theorem startsWith_hk_not_cn (path : String) (h : startsWith path "/zh-hk" = true) :
    startsWith path "/zh-cn" = false := by
  obtain ⟨rest, rfl⟩ := (startsWith_iff _ _).mp h
  cases hcn : startsWith ("/zh-hk" ++ rest) "/zh-cn" with
  | false => rfl
  | true =>
    obtain ⟨other, hother⟩ := (startsWith_iff _ _).mp hcn
    have hdata := congrArg String.data hother
    simp only [String.data_append] at hdata
    have h4 := congrArg (fun l => l.get? 4) hdata
    simp at h4

theorem startsWith_trans (path pre longer : String) (hpre : startsWith longer pre = true)
    (h : startsWith path longer = true) : startsWith path pre = true := by
  obtain ⟨r1, rfl⟩ := (startsWith_iff _ _).mp hpre
  obtain ⟨r2, rfl⟩ := (startsWith_iff _ _).mp h
  exact (startsWith_iff _ _).mpr ⟨r1 ++ r2, by rw [String.append_assoc]⟩

theorem getLanguageFromURL_hk (browser : Browser) :
    getLanguageFromURL browser = "zh-hk" ↔ startsWith browser.pathname "/zh-hk" = true := by
  unfold getLanguageFromURL
  split_ifs with h1 h2
  · simp [h1]
  · simp [h1]
  · simp [h1]

theorem getLanguageFromURL_cn (browser : Browser) :
    getLanguageFromURL browser = "zh-cn" ↔ startsWith browser.pathname "/zh-cn" = true := by
  unfold getLanguageFromURL
  split_ifs with h1 h2
  · simp [startsWith_hk_not_cn _ h1]
  · simp [h2]
  · simp [h2]

theorem getLanguageFromURL_en (browser : Browser) :
    getLanguageFromURL browser = "en" ↔
      (startsWith browser.pathname "/zh-hk" = false ∧
        startsWith browser.pathname "/zh-cn" = false) := by
  unfold getLanguageFromURL
  split_ifs with h1 h2
  · simp [h1]
  · simp [h2]
  · simp [h1, h2]

/-- C14 (counterexample): the path `/zh-hk-old/about` is not `/zh-hk` and does
not start with `/zh-hk/`, its first segment being `zh-hk-old`, and
`getLanguageFromURL` returns `zh-hk` for it. -/
theorem getLanguageFromURL_longer_segment :
    getLanguageFromURL { rootBrowser with pathname := "/zh-hk-old/about" } = "zh-hk" ∧
    "/zh-hk-old/about" ≠ "/zh-hk" ∧
    startsWith "/zh-hk-old/about" "/zh-hk/" = false := by
  decide

/-- C14 (amended): `getLanguageFromURL` returns `zh-hk` exactly when the path
starts with the text `/zh-hk`, `zh-cn` exactly when it starts with `/zh-cn`, and
`en` for every other path; so it returns the locale `L` when the path is `/L` or
starts with `/L/`. -/
theorem getLanguageFromURL_prefix (browser : Browser) :
    (getLanguageFromURL browser = "zh-hk" ↔ startsWith browser.pathname "/zh-hk" = true) ∧
    (getLanguageFromURL browser = "zh-cn" ↔ startsWith browser.pathname "/zh-cn" = true) ∧
    (getLanguageFromURL browser = "en" ↔
      (startsWith browser.pathname "/zh-hk" = false ∧
        startsWith browser.pathname "/zh-cn" = false)) ∧
    ((browser.pathname = "/zh-hk" ∨ startsWith browser.pathname "/zh-hk/" = true) →
      getLanguageFromURL browser = "zh-hk") ∧
    ((browser.pathname = "/zh-cn" ∨ startsWith browser.pathname "/zh-cn/" = true) →
      getLanguageFromURL browser = "zh-cn") := by
  refine ⟨getLanguageFromURL_hk browser, getLanguageFromURL_cn browser,
    getLanguageFromURL_en browser, ?_, ?_⟩
  · rintro (h | h)
    · exact (getLanguageFromURL_hk browser).mpr (by rw [h]; decide)
    · exact (getLanguageFromURL_hk browser).mpr
        (startsWith_trans _ "/zh-hk" "/zh-hk/" (by decide) h)
  · rintro (h | h)
    · exact (getLanguageFromURL_cn browser).mpr (by rw [h]; decide)
    · exact (getLanguageFromURL_cn browser).mpr
        (startsWith_trans _ "/zh-cn" "/zh-cn/" (by decide) h)

/-- C13 (counterexample): from the path `/zh-hk/zh-cn/about`, `updateURL('en')`
pushes `/zh-cn/about` (one prefix is stripped), on which `getLanguageFromURL`
returns `zh-cn`, not `en`. -/
theorem updateURL_double_prefix :
    (updateURL plainApi "en" { rootBrowser with pathname := "/zh-hk/zh-cn/about" }).2.log =
      [.pushState "en" "/zh-cn/about"] ∧
    getLanguageFromURL { rootBrowser with pathname := "/zh-cn/about" } = "zh-cn" ∧
    getLanguageFromURL
      (updateURL plainApi "en" { rootBrowser with pathname := "/zh-hk/zh-cn/about" }).2 =
      "zh-cn" :=
  ⟨rfl, rfl, rfl⟩

/-- C13 (amended): on the URL that `updateURL(L)` pushes, from every path,
`getLanguageFromURL` returns `L` for `zh-hk` and for `zh-cn`; for `en` the URL
is the path left after stripping one locale prefix, and `getLanguageFromURL`
returns `en` on it exactly when it does not itself start with `/zh-hk` or
`/zh-cn`. -/
theorem getLanguageFromURL_of_updateURL (api : BrowserApi) (browser : Browser) :
    (∃ url, (updateURL api "zh-hk" browser).2.log = browser.log ++ [.pushState "zh-hk" url] ∧
      getLanguageFromURL { browser with pathname := url } = "zh-hk") ∧
    (∃ url, (updateURL api "zh-cn" browser).2.log = browser.log ++ [.pushState "zh-cn" url] ∧
      getLanguageFromURL { browser with pathname := url } = "zh-cn") ∧
    (∃ url, (updateURL api "en" browser).2.log = browser.log ++ [.pushState "en" url] ∧
      StrippedPath browser.pathname url ∧
      (getLanguageFromURL { browser with pathname := url } = "en" ↔
        (startsWith url "/zh-hk" = false ∧ startsWith url "/zh-cn" = false))) := by
  refine ⟨⟨_, updateURL_log api "zh-hk" browser, ?_⟩,
    ⟨_, updateURL_log api "zh-cn" browser, ?_⟩,
    ⟨_, updateURL_log api "en" browser, ?_, ?_⟩⟩
  · rw [getLanguageFromURL_hk, newPathFor_eq]
    simp only [if_true]
    exact startsWith_append _ _
  · rw [getLanguageFromURL_cn, newPathFor_eq]
    have : ¬ ("zh-cn" = "zh-hk") := by decide
    simp only [this, if_false, if_true]
    exact startsWith_append _ _
  · obtain ⟨stripped, hstripped, heq⟩ := exists_strippedPath browser.pathname
    rw [newPathFor_eq]
    have h1 : ¬ ("en" = "zh-hk") := by decide
    have h2 : ¬ ("en" = "zh-cn") := by decide
    simp only [h1, h2, if_false]
    rw [← heq]
    exact hstripped
  · exact getLanguageFromURL_en _

/-! ## TranslationManager: a load that rejects -/

/-- C11: when the loader's `loadTranslationsWithFallback(L)` rejects,
`switchLanguage(L)` ends normally (the model has no exception to return),
`translations` is the empty document, `currentLanguage` and the missing-key set
are as before, and nothing is dispatched, so no `translationsLoaded` event; the
document is untouched. -/
theorem switchLanguage_load_rejected (host : Host) (jsonParse : String → Option JsValue)
    (page : Page)
    (language : String) (e : JsError) :
    (page.switchLanguage host jsonParse language (.error e)).manager.translations = .obj [] ∧
    (page.switchLanguage host jsonParse language (.error e)).manager.currentLanguage =
      page.manager.currentLanguage ∧
    (page.switchLanguage host jsonParse language (.error e)).manager.getMissingKeys =
      page.manager.getMissingKeys ∧
    (page.switchLanguage host jsonParse language (.error e)).manager.dispatched =
      page.manager.dispatched ∧
    (page.switchLanguage host jsonParse language (.error e)).document = page.document :=
  ⟨rfl, rfl, rfl, rfl, rfl⟩

/-! ## LanguageSwitcher: the switch of locale -/

theorem langSelectorValue_supported (api : BrowserApi) (language : String)
    (h : language ∈ supportedLanguages) : langSelectorValue api language = some language := by
  simp only [supportedLanguages, List.mem_cons, List.mem_singleton, List.not_mem_nil,
    or_false] at h
  rcases h with rfl | rfl | rfl <;> rfl

theorem saveLanguagePreference_supported (localStorage : List (String × String))
    (language : String) (h : language ∈ supportedLanguages) :
    getStoredLanguagePreference (saveLanguagePreference localStorage language) =
      some language := by
  have hc : supportedLanguages.contains language = true := by simpa using h
  simp only [saveLanguagePreference, hc, if_true, getStoredLanguagePreference]
  induction localStorage with
  | nil => simp [setItem, getItem]
  | cons item rest ih =>
    obtain ⟨k, v⟩ := item
    by_cases hk : k = storageKey <;> simp [setItem, getItem, hk, ih]

/-- The run of `switchLanguage` to a new locale whose selector is valid, when
the browser accepts the pushed URL. -/
theorem switchLanguage_run (api : BrowserApi) (self : LanguageSwitcher) (browser : Browser)
    (target pathname : String) (callback : String → Except JsError Unit)
    (hne : target ≠ self.currentLanguage)
    (hselector : langSelectorValue api target = some target)
    (hpushed : api.pushedPath browser.pathname (newPathFor target browser.pathname) =
      some pathname) :
    switchLanguage api self browser target (some callback) =
      (callback target,
        { self with previousLanguage := self.currentLanguage, currentLanguage := target },
        { pathname := pathname
          documentLang := target
          localStorage := saveLanguagePreference browser.localStorage target
          transitioning := true
          langElements := activateFirst target (browser.langElements.map fun btn =>
            if btn.langBtn then { btn with active := false } else btn)
          log := browser.log ++ [.pushState target (newPathFor target browser.pathname),
            .callback target] ++
            (match callback target with
              | .ok _ => [.dispatch (.languageChanged target self.currentLanguage)]
              | .error _ => []) ++
            [.setTimeout self.transitionDuration] }) := by
  simp only [switchLanguage, hne, if_false, switchLanguageBody, updateURL, hpushed,
    updateDocumentLanguage, updateActiveLanguageButton, hselector, emitLanguageChangeEvent]
  cases hcb : callback target with
  | error e => simp
  | ok u => cases u; simp

/-- When the browser refuses the pushed URL, `switchLanguage` rejects. -/
theorem switchLanguage_refused (api : BrowserApi) (self : LanguageSwitcher) (browser : Browser)
    (target : String) (callback : Option (String → Except JsError Unit))
    (hne : target ≠ self.currentLanguage)
    (hpushed : api.pushedPath browser.pathname (newPathFor target browser.pathname) = none) :
    (switchLanguage api self browser target callback).1 =
      .error (.domException "SecurityError") := by
  simp [switchLanguage, hne, switchLanguageBody, updateURL, hpushed]

theorem updateURL_ok (api : BrowserApi) (language : String) (browser : Browser)
    (h : (updateURL api language browser).1 = .ok ()) :
    ∃ pathname, api.pushedPath browser.pathname (newPathFor language browser.pathname) =
      some pathname := by
  unfold updateURL at h
  cases hp : api.pushedPath browser.pathname (newPathFor language browser.pathname) with
  | none => simp [hp] at h
  | some pathname => exact ⟨pathname, rfl⟩

/-- C15: for a supported target `T` other than the current locale `C`, with a
callback that resolves, when `switchLanguage(T, cb)` completes:
`previousLanguage` is `C`, `currentLanguage` is `T`, the document locale
attribute is `T`, the stored preference is `T`, and the switcher has done, in
this order, one `pushState`, one call of the callback with `T`, one dispatch of
`languageChanged` with `{ language: T, previousLanguage: C }`, and one
`setTimeout`. -/
theorem switchLanguage_switches (api : BrowserApi) (self : LanguageSwitcher)
    (browser : Browser) (target : String) (callback : String → Except JsError Unit)
    (hsupported : target ∈ supportedLanguages) (hne : target ≠ self.currentLanguage)
    (hresolves : callback target = .ok ())
    (hdone : (switchLanguage api self browser target (some callback)).1 = .ok ()) :
    (switchLanguage api self browser target (some callback)).2.1.previousLanguage =
      self.currentLanguage ∧
    (switchLanguage api self browser target (some callback)).2.1.currentLanguage = target ∧
    (switchLanguage api self browser target (some callback)).2.2.documentLang = target ∧
    getStoredLanguagePreference
      (switchLanguage api self browser target (some callback)).2.2.localStorage = some target ∧
    (switchLanguage api self browser target (some callback)).2.2.log =
      browser.log ++ [.pushState target (newPathFor target browser.pathname),
        .callback target, .dispatch (.languageChanged target self.currentLanguage),
        .setTimeout self.transitionDuration] := by
  cases hp : api.pushedPath browser.pathname (newPathFor target browser.pathname) with
  | none =>
    rw [switchLanguage_refused api self browser target _ hne hp] at hdone
    cases hdone
  | some pathname =>
    rw [switchLanguage_run api self browser target pathname callback hne
      (langSelectorValue_supported api target hsupported) hp]
    refine ⟨rfl, rfl, rfl, saveLanguagePreference_supported _ _ hsupported, ?_⟩
    simp only [hresolves]
    simp

/-- A switch from the fresh switcher to `zh-hk` on the page of the test suite. -/
theorem switchLanguage_switches_witness :
    "zh-hk" ∈ supportedLanguages ∧ "zh-hk" ≠ LanguageSwitcher.new.currentLanguage ∧
    resolvingCallback "zh-hk" = .ok () ∧
    (switchLanguage plainApi LanguageSwitcher.new rootBrowser "zh-hk"
      (some resolvingCallback)).1 = .ok () ∧
    (switchLanguage plainApi LanguageSwitcher.new rootBrowser "zh-hk"
      (some resolvingCallback)).2.1.currentLanguage = "zh-hk" ∧
    (switchLanguage plainApi LanguageSwitcher.new rootBrowser "zh-hk"
      (some resolvingCallback)).2.2.log =
      rootBrowser.log ++ [.pushState "zh-hk" (newPathFor "zh-hk" rootBrowser.pathname),
        .callback "zh-hk", .dispatch (.languageChanged "zh-hk" "en"), .setTimeout 300] :=
  ⟨by decide, by decide, rfl, rfl,
    (switchLanguage_switches plainApi LanguageSwitcher.new rootBrowser "zh-hk"
      resolvingCallback (by decide) (by decide) rfl rfl).2.1,
    (switchLanguage_switches plainApi LanguageSwitcher.new rootBrowser "zh-hk"
      resolvingCallback (by decide) (by decide) rfl rfl).2.2.2.2⟩

/-- C16: `switchLanguage(T, cb)` with `T` the current locale returns at once:
the switcher and the browser state (the URL and the log of `pushState` calls,
the document locale attribute, the stored preference, the transition class) are
as before, so the callback is not called and no event is dispatched. -/
theorem switchLanguage_same (api : BrowserApi) (self : LanguageSwitcher) (browser : Browser)
    (callback : Option (String → Except JsError Unit)) :
    switchLanguage api self browser self.currentLanguage callback = (.ok (), self, browser) := by
  simp [switchLanguage]

/-- C17 (counterexample): from the fresh switcher, `switchLanguage('fr', cb)`
with a callback that rejects is rejected with the callback's error and
`currentLanguage` is `fr`, but nothing is stored: `saveLanguagePreference` keeps
an unsupported locale out of the store. -/
theorem switchLanguage_unsupported_not_stored :
    (switchLanguage plainApi LanguageSwitcher.new rootBrowser "fr"
      (some rejectingCallback)).1 = .error (.error "Update failed") ∧
    (switchLanguage plainApi LanguageSwitcher.new rootBrowser "fr"
      (some rejectingCallback)).2.1.currentLanguage = "fr" ∧
    getStoredLanguagePreference (switchLanguage plainApi LanguageSwitcher.new rootBrowser "fr"
      (some rejectingCallback)).2.2.localStorage = none :=
  ⟨rfl, rfl, rfl⟩

/-- C17 (amended): for a supported target `T` other than the current locale,
when the browser accepts the pushed URL and the callback rejects with `e`,
`switchLanguage(T, cb)` rejects with the same `e`; `currentLanguage`, the
document locale attribute and the stored preference are `T`, the `pushState` for
`T` has been made, no `languageChanged` event is dispatched, and the removal of
the transition class is scheduled once. -/
theorem switchLanguage_callback_rejects (api : BrowserApi) (self : LanguageSwitcher)
    (browser : Browser) (target : String) (callback : String → Except JsError Unit)
    (e : JsError)
    (hsupported : target ∈ supportedLanguages) (hne : target ≠ self.currentLanguage)
    (hrejects : callback target = .error e)
    (hpushed : (updateURL api target browser).1 = .ok ()) :
    (switchLanguage api self browser target (some callback)).1 = .error e ∧
    (switchLanguage api self browser target (some callback)).2.1.currentLanguage = target ∧
    (switchLanguage api self browser target (some callback)).2.2.documentLang = target ∧
    getStoredLanguagePreference
      (switchLanguage api self browser target (some callback)).2.2.localStorage = some target ∧
    (switchLanguage api self browser target (some callback)).2.2.log =
      browser.log ++ [.pushState target (newPathFor target browser.pathname),
        .callback target, .setTimeout self.transitionDuration] := by
  obtain ⟨pathname, hp⟩ := updateURL_ok api target browser hpushed
  rw [switchLanguage_run api self browser target pathname callback hne
    (langSelectorValue_supported api target hsupported) hp]
  refine ⟨hrejects, rfl, rfl, saveLanguagePreference_supported _ _ hsupported, ?_⟩
  simp only [hrejects]
  simp

/-- A switch from the fresh switcher to `zh-cn` whose callback rejects. -/
theorem switchLanguage_callback_rejects_witness :
    "zh-cn" ∈ supportedLanguages ∧ "zh-cn" ≠ LanguageSwitcher.new.currentLanguage ∧
    rejectingCallback "zh-cn" = .error (.error "Update failed") ∧
    (updateURL plainApi "zh-cn" rootBrowser).1 = .ok () ∧
    (switchLanguage plainApi LanguageSwitcher.new rootBrowser "zh-cn"
      (some rejectingCallback)).1 = .error (.error "Update failed") ∧
    (switchLanguage plainApi LanguageSwitcher.new rootBrowser "zh-cn"
      (some rejectingCallback)).2.2.log =
      rootBrowser.log ++ [.pushState "zh-cn" (newPathFor "zh-cn" rootBrowser.pathname),
        .callback "zh-cn", .setTimeout 300] :=
  ⟨by decide, by decide, rfl, rfl,
    (switchLanguage_callback_rejects plainApi LanguageSwitcher.new rootBrowser "zh-cn"
      rejectingCallback (.error "Update failed") (by decide) (by decide) rfl rfl).1,
    (switchLanguage_callback_rejects plainApi LanguageSwitcher.new rootBrowser "zh-cn"
      rejectingCallback (.error "Update failed") (by decide) (by decide) rfl rfl).2.2.2.2⟩

/-! ## LanguageSwitcher: the initial locale -/

theorem detectFromList_supported (tags : List String) (found : String)
    (h : detectFromList tags = some found) : found ∈ supportedLanguages := by
  induction tags with
  | nil => simp [detectFromList] at h
  | cons tag rest ih =>
    simp only [detectFromList] at h
    split_ifs at h with hc
    · simp only [Option.some.injEq] at h
      rw [← h]
      exact normalizeLanguageCode_supported _
    · exact ih h

theorem detectBrowserLanguage_supported (navigator : Navigator) :
    detectBrowserLanguage navigator ∈ supportedLanguages := by
  unfold detectBrowserLanguage
  simp only
  split
  · rename_i found hfound
    split at hfound
    · exact detectFromList_supported _ _ hfound
    · simp at hfound
  · split_ifs with h
    · exact normalizeLanguageCode_supported _
    · simp [supportedLanguages]

theorem getPreferredLanguage_supported (localStorage : List (String × String))
    (navigator : Navigator) :
    getPreferredLanguage localStorage navigator ∈ supportedLanguages := by
  unfold getPreferredLanguage
  split
  · split_ifs with h
    · simp only [Bool.and_eq_true] at h
      simpa using h.2
    · exact detectBrowserLanguage_supported navigator
  · exact detectBrowserLanguage_supported navigator

/-- C18 (counterexample): at the path `/`, with nothing stored and a browser
reporting `zh-HK`, `initialize()` returns `zh-hk` and leaves the URL alone: the
pathname is still `/` and no `pushState` has been made. -/
theorem initializeSwitcher_keeps_url :
    (initializeSwitcher plainApi LanguageSwitcher.new rootBrowser hongKongNavigator).1 =
      .ok "zh-hk" ∧
    (initializeSwitcher plainApi LanguageSwitcher.new rootBrowser
      hongKongNavigator).2.2.pathname = "/" ∧
    (initializeSwitcher plainApi LanguageSwitcher.new rootBrowser
      hongKongNavigator).2.2.log = [] :=
  ⟨rfl, rfl, rfl⟩

/-- C18 (amended): when the path carries no locale prefix, `initialize()`
returns the preferred locale `L` of the detector, makes it `currentLanguage`
and the document locale attribute, and leaves the URL as it is: the pathname is
unchanged and nothing is added to the log, so no `pushState` is made. -/
theorem initializeSwitcher_preferred (api : BrowserApi) (self : LanguageSwitcher)
    (browser : Browser) (navigator : Navigator)
    (hpath : startsWith browser.pathname "/zh-hk" = false ∧
      startsWith browser.pathname "/zh-cn" = false) :
    (initializeSwitcher api self browser navigator).1 =
      .ok (getPreferredLanguage browser.localStorage navigator) ∧
    (initializeSwitcher api self browser navigator).2.1.currentLanguage =
      getPreferredLanguage browser.localStorage navigator ∧
    (initializeSwitcher api self browser navigator).2.2.documentLang =
      getPreferredLanguage browser.localStorage navigator ∧
    (initializeSwitcher api self browser navigator).2.2.pathname = browser.pathname ∧
    (initializeSwitcher api self browser navigator).2.2.log = browser.log := by
  have hurl := (getLanguageFromURL_en browser).mpr hpath
  have hsel := langSelectorValue_supported api _
    (getPreferredLanguage_supported browser.localStorage navigator)
  simp [initializeSwitcher, hurl, updateDocumentLanguage, updateActiveLanguageButton, hsel,
    initializeComponent]

/-- The initial load of the specification: the path `/`, nothing stored, a
browser reporting `zh-HK`. -/
theorem initializeSwitcher_preferred_witness :
    (startsWith rootBrowser.pathname "/zh-hk" = false ∧
      startsWith rootBrowser.pathname "/zh-cn" = false) ∧
    getPreferredLanguage rootBrowser.localStorage hongKongNavigator = "zh-hk" ∧
    (initializeSwitcher plainApi LanguageSwitcher.new rootBrowser
      hongKongNavigator).2.2.documentLang =
      getPreferredLanguage rootBrowser.localStorage hongKongNavigator :=
  ⟨by decide, by decide,
    (initializeSwitcher_preferred plainApi LanguageSwitcher.new rootBrowser hongKongNavigator
      (by decide)).2.2.1⟩

/-- C19 (the code at the failing input): from the fresh switcher,
`switchLanguage('fr', cb)` completes and makes `fr`, which is not a supported
locale, the current locale; a following `switchLanguage('en', cb)` makes it the
previous locale. -/
theorem switchLanguage_unsupported_target :
    (switchLanguage plainApi LanguageSwitcher.new rootBrowser "fr"
      (some resolvingCallback)).1 = .ok () ∧
    (switchLanguage plainApi LanguageSwitcher.new rootBrowser "fr"
      (some resolvingCallback)).2.1.currentLanguage = "fr" ∧
    "fr" ∉ supportedLanguages ∧
    (switchLanguage plainApi
      (switchLanguage plainApi LanguageSwitcher.new rootBrowser "fr"
        (some resolvingCallback)).2.1
      (switchLanguage plainApi LanguageSwitcher.new rootBrowser "fr"
        (some resolvingCallback)).2.2
      "en" (some resolvingCallback)).2.1.previousLanguage = "fr" := by
  refine ⟨rfl, rfl, by decide, rfl⟩

/-- `initialize` always makes a supported locale the current one. -/
theorem initializeSwitcher_supported (api : BrowserApi) (self : LanguageSwitcher)
    (browser : Browser) (navigator : Navigator) :
    (initializeSwitcher api self browser navigator).2.1.currentLanguage ∈
      supportedLanguages := by
  have hpref := getPreferredLanguage_supported browser.localStorage navigator
  have hurl : getLanguageFromURL browser ∈ supportedLanguages := by
    unfold getLanguageFromURL
    split_ifs <;> simp [supportedLanguages]
  have hinit : (if (getLanguageFromURL browser != "en") = true then getLanguageFromURL browser
      else getPreferredLanguage browser.localStorage navigator) ∈ supportedLanguages := by
    split_ifs
    · exact hurl
    · exact hpref
  simp only [initializeSwitcher]
  split <;> exact hinit

/-- `switchLanguage` to a supported locale keeps both locales of the switcher
supported. -/
theorem switchLanguage_supported (api : BrowserApi) (self : LanguageSwitcher)
    (browser : Browser) (target : String)
    (callback : Option (String → Except JsError Unit))
    (htarget : target ∈ supportedLanguages)
    (hcurrent : self.currentLanguage ∈ supportedLanguages)
    (hprevious : self.previousLanguage ∈ supportedLanguages) :
    (switchLanguage api self browser target callback).2.1.currentLanguage ∈
      supportedLanguages ∧
    (switchLanguage api self browser target callback).2.1.previousLanguage ∈
      supportedLanguages := by
  unfold switchLanguage
  split_ifs with h
  · exact ⟨hcurrent, hprevious⟩
  · simp only [switchLanguageBody]
    split
    · exact ⟨hcurrent, hcurrent⟩
    · split
      · exact ⟨hcurrent, hcurrent⟩
      · split
        · exact ⟨htarget, hcurrent⟩
        · split <;> exact ⟨htarget, hcurrent⟩

/-! ## LanguageDetector: the default locale -/

/-- C20 (counterexample): `mzh-CN` and `ja-x-zh-hk` are tags of the languages
`mzh` and `ja`, neither of them English or Chinese, and are normalised to
`zh-cn` and to `zh-hk`: the markers are looked for anywhere in the tag. -/
theorem normalizeLanguageCode_marker_elsewhere :
    primaryLanguage "mzh-CN" = "mzh" ∧
    normalizeLanguageCode (some "mzh-CN") = "zh-cn" ∧
    primaryLanguage "ja-x-zh-hk" = "ja" ∧
    normalizeLanguageCode (some "ja-x-zh-hk") = "zh-hk" := by
  decide

/-- C20 (amended): `normalizeLanguageCode` returns a supported locale for every
tag, present or absent (the model has no exception to return); an absent tag,
the empty tag, and every tag whose lower-cased form neither starts with `zh`
nor contains one of the markers `zh-hk`, `zh_hk`, `zh-cn`, `zh_cn`, `zh-hans`,
such as `fr-FR`, are normalised to `en`. -/
theorem normalizeLanguageCode_default (langCode : Option String) :
    normalizeLanguageCode langCode ∈ supportedLanguages ∧
    normalizeLanguageCode none = "en" ∧
    normalizeLanguageCode (some "") = "en" ∧
    (∀ tag, hasChineseMark tag = false → normalizeLanguageCode (some tag) = "en") ∧
    (hasChineseMark "fr-FR" = false ∧ normalizeLanguageCode (some "fr-FR") = "en") := by
  refine ⟨normalizeLanguageCode_supported langCode, rfl, rfl, ?_, by decide⟩
  intro tag h
  simp only [hasChineseMark, Bool.or_eq_false_iff] at h
  obtain ⟨⟨⟨⟨⟨h1, h2⟩, h3⟩, h4⟩, h5⟩, h6⟩ := h
  simp only [normalizeLanguageCode, h1, h2, h3, h4, h5, h6]
  split_ifs <;> simp_all

/-! ## LanguageDetector: Chinese tags and the stored preference -/

theorem toLower_toLower (c : Char) : c.toLower.toLower = c.toLower := by
  by_cases h : c.toNat ≥ 65 ∧ c.toNat ≤ 90
  · have h1 : c.toLower = Char.ofNat (c.toNat + 32) := by
      simp only [Char.toLower]; rw [if_pos h]
    have hv : Nat.isValidChar (c.toNat + 32) := by
      left; omega
    have h2 : (Char.ofNat (c.toNat + 32)).toNat = c.toNat + 32 := by
      simp only [Char.ofNat, dif_pos hv]
      simp [Char.ofNatAux, Char.toNat, UInt32.toNat]
    rw [h1]
    simp only [Char.toLower]
    rw [if_neg]
    rw [h2]; omega
  · have h1 : c.toLower = c := by
      simp only [Char.toLower]; rw [if_neg h]
    rw [h1, h1]

theorem toLowerCase_idem (s : String) : toLowerCase (toLowerCase s) = toLowerCase s := by
  have h : Char.toLower ∘ Char.toLower = Char.toLower := funext toLower_toLower
  simp [toLowerCase, h]

theorem toLowerCase_eq_empty (s : String) : toLowerCase s = "" ↔ s = "" := by
  cases s with
  | mk data =>
    cases data <;> simp [toLowerCase, String.ext_iff]

/-- C21: a tag whose lower-cased form starts with `zh` and holds none of the
markers `zh-hk`, `zh_hk`, `zh-cn`, `zh_cn`, `zh-hans` is normalised to `zh-hk`,
as `zh`, `zh-TW` and `ZH-Hant` are; and every tag is normalised as its
lower-cased form is. -/
theorem normalizeLanguageCode_hong_kong_first (tag : String) :
    (startsWith (toLowerCase tag) "zh" = true →
      includes (toLowerCase tag) "zh-hk" = false →
      includes (toLowerCase tag) "zh_hk" = false →
      includes (toLowerCase tag) "zh-cn" = false →
      includes (toLowerCase tag) "zh_cn" = false →
      includes (toLowerCase tag) "zh-hans" = false →
      normalizeLanguageCode (some tag) = "zh-hk") ∧
    normalizeLanguageCode (some tag) = normalizeLanguageCode (some (toLowerCase tag)) ∧
    (normalizeLanguageCode (some "zh") = "zh-hk" ∧
      normalizeLanguageCode (some "zh-TW") = "zh-hk" ∧
      normalizeLanguageCode (some "ZH-Hant") = "zh-hk") := by
  refine ⟨?_, ?_, by decide⟩
  · intro hzh h1 h2 h3 h4 h5
    have hne : tag ≠ "" := by
      rintro rfl
      revert hzh
      decide
    simp [normalizeLanguageCode, hne, hzh, h1, h2, h3, h4, h5]
  · by_cases h : tag = ""
    · subst h; rfl
    · have h2 : toLowerCase tag ≠ "" := fun h3 => h ((toLowerCase_eq_empty tag).1 h3)
      simp only [normalizeLanguageCode, if_neg h, if_neg h2, toLowerCase_idem]

/-- C21 at `ZH-Hant-TW`, and the case-insensitivity at `zh-hANS`. -/
theorem normalizeLanguageCode_hong_kong_first_witness :
    normalizeLanguageCode (some "ZH-Hant-TW") = "zh-hk" ∧
    normalizeLanguageCode (some "zh-hANS") = normalizeLanguageCode (some "zh-hans") :=
  ⟨(normalizeLanguageCode_hong_kong_first "ZH-Hant-TW").1 (by decide) (by decide) (by decide)
      (by decide) (by decide) (by decide),
    (normalizeLanguageCode_hong_kong_first "zh-hANS").2.1⟩

/-- C23: `getPreferredLanguage` returns the stored value when it is a supported
locale, and what `detectBrowserLanguage` returns when nothing is stored or the
stored value is not a supported locale; the result is a supported locale. -/
theorem getPreferredLanguage_stored_first (localStorage : List (String × String))
    (navigator : Navigator) :
    (∀ s, getStoredLanguagePreference localStorage = some s → s ∈ supportedLanguages →
      getPreferredLanguage localStorage navigator = s) ∧
    (getStoredLanguagePreference localStorage = none →
      getPreferredLanguage localStorage navigator = detectBrowserLanguage navigator) ∧
    (∀ s, getStoredLanguagePreference localStorage = some s → s ∉ supportedLanguages →
      getPreferredLanguage localStorage navigator = detectBrowserLanguage navigator) ∧
    getPreferredLanguage localStorage navigator ∈ supportedLanguages := by
  refine ⟨?_, ?_, ?_, getPreferredLanguage_supported localStorage navigator⟩
  · intro s hs hmem
    have hne : s ≠ "" := by
      rintro rfl
      revert hmem
      decide
    have hc : supportedLanguages.contains s = true := by simpa using hmem
    have hb : (s != "") = true := by simpa using hne
    simp only [getPreferredLanguage, hs, hc, hb, Bool.and_self, if_true]
  · intro hs
    simp [getPreferredLanguage, hs]
  · intro s hs hmem
    have hc : supportedLanguages.contains s = false := by simpa using hmem
    simp only [getPreferredLanguage, hs, hc, Bool.and_false]
    rfl

/-- C23 with `zh-cn` stored, with `fr` stored, and with nothing stored, for a
browser that reports `zh-HK`. -/
theorem getPreferredLanguage_stored_first_witness :
    getPreferredLanguage [(storageKey, "zh-cn")] hongKongNavigator = "zh-cn" ∧
    getPreferredLanguage [(storageKey, "fr")] hongKongNavigator = "zh-hk" ∧
    getPreferredLanguage [] hongKongNavigator = "zh-hk" := by
  have h := getPreferredLanguage_stored_first
  exact ⟨(h [(storageKey, "zh-cn")] hongKongNavigator).1 "zh-cn" (by decide) (by decide),
    ((h [(storageKey, "fr")] hongKongNavigator).2.2.1 "fr" (by decide) (by decide)).trans
      (by decide),
    ((h [] hongKongNavigator).2.1 (by decide)).trans (by decide)⟩

/-! ## TranslationManager: keys that exist -/

/-- C29 (counterexample): in the document whose one property `a` holds `null`,
`hasTranslation` is true of the key `a`, and `t` returns the key `a`, not the
stored `null`, and records `a` as missing. The same holds in a document without
a `null`, here the one of the test suite, of the key `__proto__.__proto__`: the
walk goes to `Object.prototype` and from there to its `__proto__`, `null`. -/
theorem hasTranslation_null_leaf :
    nullLeafManager.hasTranslation standardHost "a" = .ok true ∧
    (nullLeafManager.t standardHost "a" .undefined).1 = .ok (.str "a") ∧
    (nullLeafManager.t standardHost "a" .undefined).2.missingKeys = ["a"] ∧
    nullLeafManager.missingKeys = [] ∧
    helperManager.hasTranslation standardHost "__proto__.__proto__" = .ok true ∧
    (helperManager.t standardHost "__proto__.__proto__" .undefined).1 =
      .ok (.str "__proto__.__proto__") ∧
    (helperManager.t standardHost "__proto__.__proto__" .undefined).2.missingKeys =
      ["__proto__.__proto__"] ∧
    helperManager.missingKeys = [] :=
  ⟨rfl, rfl, rfl, rfl, rfl, rfl, rfl, rfl⟩

/-- C29 (amended): for every engine, every document and every key whose walk
does not end on `null`, `hasTranslation(k)` is true exactly when the walk ends
on a value that `t(k)` returns, leaving the manager, its missing-key set
included, as it was. -/
theorem hasTranslation_iff_t (host : Host) (self : TranslationManager) (key : String)
    (hnull : getNestedValue host self.translations key ≠ .ok .null) :
    self.hasTranslation host key = .ok true ↔
      ∃ value, getNestedValue host self.translations key = .ok value ∧
        self.t host key .undefined = (.ok value, self) := by
  simp only [TranslationManager.hasTranslation, TranslationManager.t]
  cases hwalk : getNestedValue host self.translations key with
  | error e => simp
  | ok value =>
    cases value <;>
      simp_all [JsValue.isUndefined, JsValue.isNullish, JsValue.truthy, objectKeys]

/-- C29 (amended) at two keys of the document of the test suite: `services.web`,
a stored text, and `constructor`, which the document inherits. -/
theorem hasTranslation_iff_t_witness :
    getNestedValue standardHost helperManager.translations "services.web" ≠ .ok .null ∧
    (helperManager.hasTranslation standardHost "services.web" = .ok true ↔
      ∃ value, getNestedValue standardHost helperManager.translations "services.web" =
          .ok value ∧
        helperManager.t standardHost "services.web" .undefined = (.ok value, helperManager)) ∧
    helperManager.hasTranslation standardHost "constructor" = .ok true ∧
    helperManager.t standardHost "constructor" .undefined =
      (.ok objectConstructor, helperManager) :=
  ⟨fun h => Except.noConfusion h (fun h2 => JsValue.noConfusion h2),
    hasTranslation_iff_t standardHost helperManager "services.web"
      (fun h => Except.noConfusion h (fun h2 => JsValue.noConfusion h2)),
    rfl, rfl⟩

/-! ## TranslationLoader: clearing the cache -/

theorem cacheHas_iff (cache : List (String × JsValue)) (key : String) :
    cacheHas cache key = true ↔ key ∈ cache.map Prod.fst := by
  induction cache with
  | nil => simp [cacheHas]
  | cons entry rest ih =>
    obtain ⟨k, v⟩ := entry
    simp only [cacheHas, List.map_cons, List.mem_cons, Bool.or_eq_true, decide_eq_true_eq, ih]
    constructor
    · rintro (h | h)
      · exact Or.inl h.symm
      · exact Or.inr h
    · rintro (h | h)
      · exact Or.inl h.symm
      · exact Or.inr h

theorem cacheHas_cacheDelete_self (cache : List (String × JsValue)) (key : String)
    (hmap : (cache.map Prod.fst).Nodup) : cacheHas (cacheDelete cache key) key = false := by
  induction cache with
  | nil => rfl
  | cons entry rest ih =>
    obtain ⟨k, v⟩ := entry
    simp only [List.map_cons, List.nodup_cons] at hmap
    by_cases hk : k = key
    · subst hk
      simp only [cacheDelete, if_true]
      cases h : cacheHas rest k
      · rfl
      · exact absurd ((cacheHas_iff rest k).1 h) hmap.1
    · simp [cacheDelete, cacheHas, hk, ih hmap.2]

theorem cacheDelete_other (cache : List (String × JsValue)) (key other : String)
    (hne : other ≠ key) :
    cacheHas (cacheDelete cache key) other = cacheHas cache other ∧
    cacheGet (cacheDelete cache key) other = cacheGet cache other := by
  induction cache with
  | nil => exact ⟨rfl, rfl⟩
  | cons entry rest ih =>
    obtain ⟨k, v⟩ := entry
    by_cases hk : k = key
    · subst hk
      have hko : ¬ k = other := fun h => hne h.symm
      simp [cacheDelete, cacheHas, cacheGet, hko]
    · simp [cacheDelete, cacheHas, cacheGet, hk, ih.1, ih.2]

/-- C26: on a cache with distinct keys, as a `Map` has, `clearCache(L)` with a
non-empty `L` leaves `L` uncached and keeps whether every other locale is
cached and with what; `clearCache()` leaves no locale cached; after either, the
next `loadTranslations` of a cleared locale sends a request for its file. -/
theorem clearCache_frame (network : Network) (self : TranslationLoader) (language : String)
    (hmap : (self.cache.map Prod.fst).Nodup) (hne : language ≠ "") :
    (self.clearCache (some language)).isCached language = false ∧
    (∀ other, other ≠ language →
      (self.clearCache (some language)).isCached other = self.isCached other ∧
      cacheGet (self.clearCache (some language)).cache other = cacheGet self.cache other) ∧
    (∀ other, (self.clearCache none).isCached other = false) ∧
    ((self.clearCache (some language)).loadTranslations network language).2.requests =
      self.requests ++ [self.url language] ∧
    (∀ other, ((self.clearCache none).loadTranslations network other).2.requests =
      self.requests ++ [self.url other]) := by
  have hself : cacheHas (self.clearCache (some language)).cache language = false := by
    simp only [TranslationLoader.clearCache, if_neg hne]
    exact cacheHas_cacheDelete_self self.cache language hmap
  have hall : ∀ other, cacheHas (self.clearCache none).cache other = false := fun _ => rfl
  refine ⟨hself, ?_, hall, ?_, ?_⟩
  · intro other ho
    simp only [TranslationLoader.clearCache, if_neg hne, TranslationLoader.isCached]
    exact cacheDelete_other self.cache language other ho
  · have h := loadTranslations_requests_of_miss network (self.clearCache (some language))
      language hself
    simpa [TranslationLoader.clearCache, hne, TranslationLoader.url] using h
  · intro other
    have h := loadTranslations_requests_of_miss network (self.clearCache none) other (hall other)
    simpa [TranslationLoader.clearCache, TranslationLoader.url] using h

/-- C26 on a loader that has cached `en` and `zh-hk`, clearing `en`. -/
theorem clearCache_frame_witness :
    (cachedLoader.clearCache (some "en")).isCached "en" = false ∧
    (cachedLoader.clearCache (some "en")).isCached "zh-hk" = true ∧
    ((cachedLoader.clearCache (some "en")).loadTranslations englishNetwork "en").2.requests =
      ["/src/translations/en.json"] := by
  have h := clearCache_frame englishNetwork cachedLoader "en" (by decide) (by decide)
  exact ⟨h.1, (h.2.1 "zh-hk" (by decide)).1.trans rfl, h.2.2.2.1.trans (by decide)⟩

/-! ## TranslationManager: a second synchronisation of the document -/

mutual
theorem syncNode_raised (host : Host) (jsonParse : String → Option JsValue) (selector : String)
    (target : SyncTarget) (e : JsError) :
    ∀ (node : Node) (manager : TranslationManager),
      syncNode host jsonParse selector target node ⟨manager, some e⟩ = (node, ⟨manager, some e⟩)
  | .text data, manager => by simp only [syncNode]
  | .element attrs children, manager => by
    have ih := syncNodes_raised host jsonParse selector target e children manager
    cases hkey : getAttribute attrs selector <;> simp only [syncNode, hkey, ih]
theorem syncNodes_raised (host : Host) (jsonParse : String → Option JsValue) (selector : String)
    (target : SyncTarget) (e : JsError) :
    ∀ (nodes : List Node) (manager : TranslationManager),
      syncNodes host jsonParse selector target nodes ⟨manager, some e⟩ =
        (nodes, ⟨manager, some e⟩)
  | [], manager => by simp only [syncNodes]
  | node :: rest, manager => by
    simp only [syncNodes, syncNode_raised host jsonParse selector target e node manager,
      syncNodes_raised host jsonParse selector target e rest manager]
end

theorem textChildren_cases (value : JsValue) (nodes : List Node)
    (h : textChildren value = .ok nodes) : nodes = [] ∨ ∃ text, nodes = [.text text] := by
  unfold textChildren at h
  split_ifs at h
  · cases h
    exact Or.inl rfl
  · cases htext : toJsString value with
    | error e => simp [htext] at h
    | ok text =>
      simp only [htext] at h
      cases h
      unfold textNodes
      split_ifs
      · exact Or.inl rfl
      · exact Or.inr ⟨text, rfl⟩

theorem syncNodes_textChildren (host : Host) (jsonParse : String → Option JsValue)
    (selector : String) (target : SyncTarget) (value : JsValue) (nodes : List Node)
    (st : SyncState) (h : textChildren value = .ok nodes) :
    syncNodes host jsonParse selector target nodes st = (nodes, st) := by
  rcases textChildren_cases value nodes h with hn | ⟨text, hn⟩ <;>
    simp [hn, syncNodes, syncNode]

theorem settledAll_textChildren (host : Host) (jsonParse : String → Option JsValue)
    (manager : TranslationManager) (selector : String) (target : SyncTarget)
    (value : JsValue) (nodes : List Node) (h : textChildren value = .ok nodes) :
    SettledAll host jsonParse manager selector target nodes := by
  rcases textChildren_cases value nodes h with hn | ⟨text, hn⟩ <;>
    simp [hn, SettledAll, Node.Settled]

theorem setAttribute_same (attrs : List (String × String)) (name value : String)
    (h : getAttribute attrs name = some value) : setAttribute attrs name value = attrs := by
  induction attrs with
  | nil => simp [getAttribute] at h
  | cons attr rest ih =>
    obtain ⟨k, v⟩ := attr
    by_cases hk : k = name
    · simp only [getAttribute, if_pos hk, Option.some.injEq] at h
      simp [setAttribute, hk, h]
    · simp only [getAttribute, if_neg hk] at h
      simp [setAttribute, hk, ih h]

theorem getAttribute_setAttribute_same (attrs : List (String × String))
    (name value : String) : getAttribute (setAttribute attrs name value) name = some value := by
  induction attrs with
  | nil => simp [setAttribute, getAttribute]
  | cons attr rest ih =>
    obtain ⟨k, v⟩ := attr
    by_cases hk : k = name <;> simp [setAttribute, getAttribute, hk, ih]

mutual
theorem syncNode_settled (host : Host) (jsonParse : String → Option JsValue) (selector : String)
    (target : SyncTarget) (manager : TranslationManager) :
    ∀ (node : Node), node.Settled host jsonParse manager selector target →
      syncNode host jsonParse selector target node ⟨manager, none⟩ = (node, ⟨manager, none⟩)
  | .text data, _ => by simp only [syncNode]
  | .element attrs children, h => by
    simp only [Node.Settled] at h
    have ih := syncNodes_settled host jsonParse selector target manager children h.2
    cases hkey : getAttribute attrs selector with
    | none => simp only [syncNode, hkey, ih]
    | some key =>
      obtain ⟨value, ht, hshow⟩ := h.1 key hkey
      cases target with
      | textContent =>
        simp only at hshow
        simp only [syncNode, hkey, ht, ih, hshow]
      | attr name =>
        obtain ⟨text, htext, hattr⟩ := hshow
        simp only [syncNode, hkey, ht, ih, htext, setAttribute_same attrs name _ hattr]
theorem syncNodes_settled (host : Host) (jsonParse : String → Option JsValue) (selector : String)
    (target : SyncTarget) (manager : TranslationManager) :
    ∀ (nodes : List Node), SettledAll host jsonParse manager selector target nodes →
      syncNodes host jsonParse selector target nodes ⟨manager, none⟩ = (nodes, ⟨manager, none⟩)
  | [], _ => by simp only [syncNodes]
  | node :: rest, h => by
    simp only [SettledAll] at h
    simp only [syncNodes, syncNode_settled host jsonParse selector target manager node h.1,
      syncNodes_settled host jsonParse selector target manager rest h.2]
end

theorem grows_refl (manager : TranslationManager) : manager.Grows manager :=
  ⟨rfl, fun _ h => h⟩

theorem grows_trans {a b c : TranslationManager} (hab : a.Grows b) (hbc : b.Grows c) :
    a.Grows c :=
  ⟨hbc.1.trans hab.1, fun key h => hbc.2 key (hab.2 key h)⟩

theorem trackMissingKey_grows (manager : TranslationManager) (key : String) :
    manager.Grows (manager.trackMissingKey key) ∧
      key ∈ (manager.trackMissingKey key).missingKeys := by
  unfold TranslationManager.trackMissingKey
  split_ifs with h
  · exact ⟨grows_refl manager, by simpa using h⟩
  · exact ⟨⟨rfl, fun k hk => List.mem_append_left _ hk⟩, by simp⟩

theorem trackMissingKey_of_mem (manager : TranslationManager) (key : String)
    (h : key ∈ manager.missingKeys) : manager.trackMissingKey key = manager := by
  have hc : manager.missingKeys.contains key = true := by simpa using h
  simp only [TranslationManager.trackMissingKey, hc, if_true]

theorem t_grows (host : Host) (manager : TranslationManager) (key : String) (vars : JsValue) :
    manager.Grows (manager.t host key vars).2 := by
  by_cases hm : isMissingKey host manager.translations key = true
  · rw [t_of_missing host manager key vars hm]
    exact (trackMissingKey_grows manager key).1
  · simp only [Bool.not_eq_true] at hm
    rw [t_of_found host manager key vars hm]
    exact grows_refl manager

/-- What `t` returns depends on the document only. -/
theorem t_value (host : Host) (manager later : TranslationManager) (key : String) (vars : JsValue)
    (h : later.translations = manager.translations) :
    (later.t host key vars).1 = (manager.t host key vars).1 := by
  simp only [TranslationManager.t, h]
  generalize (if vars.isUndefined = true then JsValue.obj [] else vars) = given
  cases getNestedValue host manager.translations key with
  | error e => rfl
  | ok value =>
    by_cases hn : value.isNullish = true
    · simp [hn]
    · by_cases htruthy : given.truthy = true
      · simp only [hn, htruthy, Bool.not_true, Bool.false_eq_true, if_false]
        cases objectKeys given with
        | error e => rfl
        | ok keys => by_cases hlen : keys.length > 0 <;> simp [hlen]
      · simp [hn, htruthy]

theorem t_stable (host : Host) (manager after later : TranslationManager) (key : String)
    (vars value : JsValue)
    (ht : manager.t host key vars = (.ok value, after)) (hgrows : after.Grows later) :
    later.t host key vars = (.ok value, later) := by
  have hafter : (manager.t host key vars).2 = after := by rw [ht]
  have htr : later.translations = manager.translations :=
    hgrows.1.trans (hafter ▸ (t_grows host manager key vars).1)
  have hvalue : (later.t host key vars).1 = .ok value := by
    rw [t_value host manager later key vars htr, ht]
  have hstate : (later.t host key vars).2 = later := by
    by_cases hm : isMissingKey host manager.translations key = true
    · rw [t_of_missing host manager key vars hm] at hafter
      have hmem : key ∈ later.missingKeys :=
        hgrows.2 key (hafter ▸ (trackMissingKey_grows manager key).2)
      rw [t_of_missing host later key vars (htr ▸ hm)]
      exact trackMissingKey_of_mem later key hmem
    · simp only [Bool.not_eq_true] at hm
      exact t_of_found host later key vars (htr ▸ hm)
  exact Prod.ext hvalue hstate

mutual
theorem syncNode_grows (host : Host) (jsonParse : String → Option JsValue) (selector : String)
    (target : SyncTarget) :
    ∀ (node : Node) (st : SyncState),
      st.manager.Grows (syncNode host jsonParse selector target node st).2.manager
  | .text data, st => by
    simp only [syncNode]
    exact grows_refl _
  | .element attrs children, st => by
    have ih := syncNodes_grows host jsonParse selector target children
    simp only [syncNode]
    cases hkey : getAttribute attrs selector with
    | none => exact ih st
    | some key =>
      cases hraised : st.raised with
      | some e => exact ih st
      | none =>
        simp only
        have hstep := t_grows host st.manager key (syncVars jsonParse target attrs)
        cases hres : st.manager.t host key (syncVars jsonParse target attrs) with
        | mk result manager =>
          rw [hres] at hstep
          cases result with
          | error e => exact hstep
          | ok value =>
            have h3 : st.manager.Grows
                (syncNodes host jsonParse selector target children ⟨manager, none⟩).2.manager :=
              grows_trans hstep (ih ⟨manager, none⟩)
            cases target with
            | textContent =>
              simp only
              cases textChildren value with
              | error e => exact hstep
              | ok nodes => exact h3
            | attr name =>
              simp only
              cases toJsString value with
              | error e => exact hstep
              | ok text => exact h3
theorem syncNodes_grows (host : Host) (jsonParse : String → Option JsValue) (selector : String)
    (target : SyncTarget) :
    ∀ (nodes : List Node) (st : SyncState),
      st.manager.Grows (syncNodes host jsonParse selector target nodes st).2.manager
  | [], st => by
    simp only [syncNodes]
    exact grows_refl _
  | node :: rest, st => by
    simp only [syncNodes]
    exact grows_trans (syncNode_grows host jsonParse selector target node st)
      (syncNodes_grows host jsonParse selector target rest _)
end

/-- A run that ends without an exception started without one. -/
theorem syncNodes_started (host : Host) (jsonParse : String → Option JsValue) (selector : String)
    (target : SyncTarget) (nodes : List Node) (st : SyncState)
    (h : (syncNodes host jsonParse selector target nodes st).2.raised = none) :
    st.raised = none := by
  obtain ⟨manager, raised⟩ := st
  cases raised with
  | none => rfl
  | some e =>
    rw [syncNodes_raised host jsonParse selector target e nodes manager] at h
    exact h

theorem syncVars_setAttribute (jsonParse : String → Option JsValue) (target : SyncTarget)
    (attrs : List (String × String)) (name value : String)
    (hvars : name ≠ "data-translate-vars") :
    syncVars jsonParse target (setAttribute attrs name value) =
      syncVars jsonParse target attrs := by
  cases target with
  | textContent =>
    simp only [syncVars, parseVars, getAttribute_setAttribute_ne attrs name value _ hvars]
  | attr other => rfl

mutual
/-- A loop that ends without an exception leaves every element it selects
showing its translation, for every manager that has grown from its own. -/
theorem syncNode_establishes (host : Host) (jsonParse : String → Option JsValue) (selector : String)
    (target : SyncTarget)
    (hplain : ∀ name, target = .attr name → name ≠ selector) :
    ∀ (node : Node) (st : SyncState),
      (syncNode host jsonParse selector target node st).2.raised = none →
      ∀ later, (syncNode host jsonParse selector target node st).2.manager.Grows later →
        (syncNode host jsonParse selector target node st).1.Settled host jsonParse later selector
            target
  | .text data, st => by
    intro _ later _
    simp only [syncNode, Node.Settled]
  | .element attrs children, st => by
    have ih := syncNodes_establishes host jsonParse selector target hplain children
    cases hkey : getAttribute attrs selector with
    | none =>
      simp only [syncNode, hkey]
      intro hnone later hgrows
      simp only [Node.Settled]
      refine ⟨?_, ih st hnone later hgrows⟩
      intro key hk
      rw [hkey] at hk
      exact absurd hk (by simp)
    | some key =>
      cases hraised : st.raised with
      | some e =>
        obtain ⟨manager, raised⟩ := st
        simp only at hraised
        subst hraised
        rw [syncNode_raised]
        intro hnone
        exact absurd hnone (by simp)
      | none =>
        cases hres : st.manager.t host key (syncVars jsonParse target attrs) with
        | mk result manager =>
          cases result with
          | error e =>
            simp only [syncNode, hkey, hraised, hres]
            intro hnone
            exact absurd hnone (by simp)
          | ok value =>
            have hch := syncNodes_grows host jsonParse selector target children ⟨manager, none⟩
            cases target with
            | textContent =>
              cases hnodes : textChildren value with
              | error e =>
                simp only [syncNode, hkey, hraised, hres, hnodes]
                intro hnone
                exact absurd hnone (by simp)
              | ok nodes =>
                simp only [syncNode, hkey, hraised, hres, hnodes]
                intro hnone later hgrows
                simp only [Node.Settled]
                refine ⟨?_, settledAll_textChildren host jsonParse later selector _ value
                  nodes hnodes⟩
                intro key' hk
                rw [hkey] at hk
                simp only [Option.some.injEq] at hk
                subst hk
                exact ⟨value, t_stable host st.manager manager later key _ value hres
                  (grows_trans hch hgrows), hnodes⟩
            | attr name =>
              cases htext : toJsString value with
              | error e =>
                simp only [syncNode, hkey, hraised, hres, htext]
                intro hnone
                exact absurd hnone (by simp)
              | ok text =>
                simp only [syncNode, hkey, hraised, hres, htext]
                intro hnone later hgrows
                simp only [Node.Settled]
                refine ⟨?_, ih ⟨manager, none⟩ hnone later hgrows⟩
                intro key' hk
                rw [getAttribute_setAttribute_ne attrs name _ selector (hplain name rfl),
                  hkey] at hk
                simp only [Option.some.injEq] at hk
                subst hk
                exact ⟨value, t_stable host st.manager manager later key _ value hres
                  (grows_trans hch hgrows), text, htext,
                  getAttribute_setAttribute_same attrs name _⟩
theorem syncNodes_establishes (host : Host) (jsonParse : String → Option JsValue) (selector :
    String)
    (target : SyncTarget)
    (hplain : ∀ name, target = .attr name → name ≠ selector) :
    ∀ (nodes : List Node) (st : SyncState),
      (syncNodes host jsonParse selector target nodes st).2.raised = none →
      ∀ later, (syncNodes host jsonParse selector target nodes st).2.manager.Grows later →
        SettledAll host jsonParse later selector target
          (syncNodes host jsonParse selector target nodes st).1
  | [], st => by
    intro _ later _
    simp only [syncNodes, SettledAll]
  | node :: rest, st => by
    simp only [syncNodes]
    intro hnone later hgrows
    have hfirst := syncNodes_started host jsonParse selector target rest _ hnone
    simp only [SettledAll]
    exact ⟨syncNode_establishes host jsonParse selector target hplain node st hfirst later
        (grows_trans (syncNodes_grows host jsonParse selector target rest _) hgrows),
      syncNodes_establishes host jsonParse selector target hplain rest _ hnone later hgrows⟩
end

theorem settledAt_children (host : Host) (jsonParse : String → Option JsValue) (manager :
    TranslationManager)
    (selector : String) (target : SyncTarget) (attrs : List (String × String))
    (children : List Node) (selector' : String) (target' : SyncTarget) (st : SyncState)
    (h : SettledAt host jsonParse manager selector target attrs children) :
    SettledAt host jsonParse manager selector target attrs
      (syncNodes host jsonParse selector' target' children st).1 := by
  intro key hk
  obtain ⟨value, ht, hshow⟩ := h key hk
  refine ⟨value, ht, ?_⟩
  cases target with
  | textContent =>
    simp only at hshow ⊢
    rw [syncNodes_textChildren host jsonParse selector' target' value children st hshow]
    exact hshow
  | attr name => exact hshow

theorem settledAt_setAttribute (host : Host) (jsonParse : String → Option JsValue)
    (manager : TranslationManager) (selector : String) (target : SyncTarget)
    (attrs : List (String × String)) (children : List Node) (name value : String)
    (hsel : name ≠ selector) (hvars : name ≠ "data-translate-vars")
    (htarget : ∀ other, target = .attr other → name ≠ other)
    (h : SettledAt host jsonParse manager selector target attrs children) :
    SettledAt host jsonParse manager selector target (setAttribute attrs name value) children := by
  intro key hk
  rw [getAttribute_setAttribute_ne attrs name value selector hsel] at hk
  obtain ⟨shown, ht, hshow⟩ := h key hk
  refine ⟨shown, ?_, ?_⟩
  · rw [syncVars_setAttribute jsonParse target attrs name value hvars]
    exact ht
  · cases target with
    | textContent => exact hshow
    | attr other =>
      simp only at hshow ⊢
      rw [getAttribute_setAttribute_ne attrs name value other (htarget other rfl)]
      exact hshow

mutual
/-- A loop that writes an attribute keeps what another loop has established. -/
theorem syncNode_preserves (host : Host) (jsonParse : String → Option JsValue) (manager :
    TranslationManager)
    (selector : String) (target : SyncTarget) (selector' name : String)
    (hsel : name ≠ selector) (hvars : name ≠ "data-translate-vars")
    (htarget : ∀ other, target = .attr other → name ≠ other) :
    ∀ (node : Node) (st : SyncState), node.Settled host jsonParse manager selector target →
      (syncNode host jsonParse selector' (.attr name) node st).1.Settled host jsonParse manager
        selector target
  | .text data, st => by
    intro _
    simp only [syncNode, Node.Settled]
  | .element attrs children, st => by
    intro h
    simp only [Node.Settled] at h
    have ih := fun st' => syncNodes_preserves host jsonParse manager selector target selector' name
      hsel hvars htarget children st' h.2
    have hat := fun st' => settledAt_children host jsonParse manager selector target attrs children
      selector' (.attr name) st' h.1
    cases hkey : getAttribute attrs selector' with
    | none =>
      simp only [syncNode, hkey, Node.Settled]
      exact ⟨hat st, ih st⟩
    | some key =>
      cases hraised : st.raised with
      | some e =>
        simp only [syncNode, hkey, hraised, Node.Settled]
        exact ⟨hat st, ih st⟩
      | none =>
        cases hres : st.manager.t host key (syncVars jsonParse (.attr name) attrs) with
        | mk result after =>
          cases result with
          | error e =>
            simp only [syncNode, hkey, hraised, hres, Node.Settled]
            exact h
          | ok value =>
            cases htext : toJsString value with
            | error e =>
              simp only [syncNode, hkey, hraised, hres, htext, Node.Settled]
              exact h
            | ok text =>
              simp only [syncNode, hkey, hraised, hres, htext, Node.Settled]
              exact ⟨settledAt_setAttribute host jsonParse manager selector target attrs _
                name _ hsel hvars htarget (hat _), ih _⟩
theorem syncNodes_preserves (host : Host) (jsonParse : String → Option JsValue)
    (manager : TranslationManager) (selector : String) (target : SyncTarget)
    (selector' name : String)
    (hsel : name ≠ selector) (hvars : name ≠ "data-translate-vars")
    (htarget : ∀ other, target = .attr other → name ≠ other) :
    ∀ (nodes : List Node) (st : SyncState),
      SettledAll host jsonParse manager selector target nodes →
      SettledAll host jsonParse manager selector target
        (syncNodes host jsonParse selector' (.attr name) nodes st).1
  | [], st => by
    intro _
    simp only [syncNodes, SettledAll]
  | node :: rest, st => by
    intro h
    simp only [SettledAll] at h
    simp only [syncNodes, SettledAll]
    exact ⟨syncNode_preserves host jsonParse manager selector target selector' name hsel hvars
        htarget node st h.1,
      syncNodes_preserves host jsonParse manager selector target selector' name hsel hvars
        htarget rest _ h.2⟩
end

/-- A call of `updateDOM` that completes leaves a page on which the next call
changes nothing. -/
theorem updateDOM_again (host : Host) (jsonParse : String → Option JsValue) (page : Page)
    (h : (page.updateDOM host jsonParse).1 = .ok ()) :
    (page.updateDOM host jsonParse).2.updateDOM host jsonParse =
      (.ok (), (page.updateDOM host jsonParse).2) := by
  obtain ⟨text, htext⟩ : ∃ x, syncNodes host jsonParse "data-translate" .textContent
    page.document ⟨page.manager, none⟩ = x := ⟨_, rfl⟩
  obtain ⟨placeholder, hplaceholder⟩ : ∃ x, syncNodes host jsonParse "data-translate-placeholder"
    (.attr "placeholder") text.1 text.2 = x := ⟨_, rfl⟩
  obtain ⟨title, htitle⟩ : ∃ x, syncNodes host jsonParse "data-translate-title" (.attr "title")
    placeholder.1 placeholder.2 = x := ⟨_, rfl⟩
  obtain ⟨aria, haria⟩ : ∃ x, syncNodes host jsonParse "data-translate-aria-label"
    (.attr "aria-label") title.1 title.2 = x := ⟨_, rfl⟩
  have hrun : page.updateDOM host jsonParse =
      match aria.2.raised with
      | some e => (.error e, { manager := aria.2.manager, document := aria.1 })
      | none => (.ok (), { manager := aria.2.manager, document := aria.1 }) := by
    simp only [Page.updateDOM, htext, hplaceholder, htitle, haria]
  have hnone : aria.2.raised = none := by
    rw [hrun] at h
    cases hr : aria.2.raised with
    | none => rfl
    | some e =>
      rw [hr] at h
      simp at h
  rw [hnone] at hrun
  have hnone3 : title.2.raised = none :=
    syncNodes_started host jsonParse _ _ title.1 title.2 (haria ▸ hnone)
  have hnone2 : placeholder.2.raised = none :=
    syncNodes_started host jsonParse _ _ placeholder.1 placeholder.2 (htitle ▸ hnone3)
  have hnone1 : text.2.raised = none :=
    syncNodes_started host jsonParse _ _ text.1 text.2 (hplaceholder ▸ hnone2)
  have hgrows4 : title.2.manager.Grows aria.2.manager :=
    haria ▸ syncNodes_grows host jsonParse _ _ title.1 title.2
  have hgrows3 : placeholder.2.manager.Grows aria.2.manager :=
    grows_trans (htitle ▸ syncNodes_grows host jsonParse _ _ placeholder.1 placeholder.2) hgrows4
  have hgrows2 : text.2.manager.Grows aria.2.manager :=
    grows_trans (hplaceholder ▸ syncNodes_grows host jsonParse _ _ text.1 text.2) hgrows3
  have hs1 : SettledAll host jsonParse aria.2.manager "data-translate" .textContent aria.1 := by
    have h1 : SettledAll host jsonParse aria.2.manager "data-translate" .textContent text.1 :=
      htext ▸ syncNodes_establishes host jsonParse "data-translate" .textContent
        (fun _ hne => by cases hne) page.document ⟨page.manager, none⟩ (htext ▸ hnone1)
        aria.2.manager (htext ▸ hgrows2)
    have h2 := syncNodes_preserves host jsonParse aria.2.manager "data-translate" .textContent
      "data-translate-placeholder" "placeholder" (by decide) (by decide)
      (fun _ hne => by cases hne) text.1 text.2 h1
    rw [hplaceholder] at h2
    have h3 := syncNodes_preserves host jsonParse aria.2.manager "data-translate" .textContent
      "data-translate-title" "title" (by decide) (by decide)
      (fun _ hne => by cases hne) placeholder.1 placeholder.2 h2
    rw [htitle] at h3
    have h4 := syncNodes_preserves host jsonParse aria.2.manager "data-translate" .textContent
      "data-translate-aria-label" "aria-label" (by decide) (by decide)
      (fun _ hne => by cases hne) title.1 title.2 h3
    rw [haria] at h4
    exact h4
  have hs2 : SettledAll host jsonParse aria.2.manager "data-translate-placeholder"
      (.attr "placeholder") aria.1 := by
    have h2 : SettledAll host jsonParse aria.2.manager "data-translate-placeholder"
        (.attr "placeholder") placeholder.1 :=
      hplaceholder ▸ syncNodes_establishes host jsonParse "data-translate-placeholder"
        (.attr "placeholder") (fun _ hne => by cases hne; decide) text.1 text.2
        (hplaceholder ▸ hnone2) aria.2.manager (hplaceholder ▸ hgrows3)
    have h3 := syncNodes_preserves host jsonParse aria.2.manager "data-translate-placeholder"
      (.attr "placeholder") "data-translate-title" "title" (by decide) (by decide)
      (fun _ hne => by cases hne; decide) placeholder.1 placeholder.2 h2
    rw [htitle] at h3
    have h4 := syncNodes_preserves host jsonParse aria.2.manager "data-translate-placeholder"
      (.attr "placeholder") "data-translate-aria-label" "aria-label" (by decide) (by decide)
      (fun _ hne => by cases hne; decide) title.1 title.2 h3
    rw [haria] at h4
    exact h4
  have hs3 : SettledAll host jsonParse aria.2.manager "data-translate-title"
      (.attr "title") aria.1 := by
    have h3 : SettledAll host jsonParse aria.2.manager "data-translate-title"
        (.attr "title") title.1 :=
      htitle ▸ syncNodes_establishes host jsonParse "data-translate-title"
        (.attr "title") (fun _ hne => by cases hne; decide) placeholder.1 placeholder.2
        (htitle ▸ hnone3) aria.2.manager (htitle ▸ hgrows4)
    have h4 := syncNodes_preserves host jsonParse aria.2.manager "data-translate-title"
      (.attr "title") "data-translate-aria-label" "aria-label" (by decide) (by decide)
      (fun _ hne => by cases hne; decide) title.1 title.2 h3
    rw [haria] at h4
    exact h4
  have hs4 : SettledAll host jsonParse aria.2.manager "data-translate-aria-label"
      (.attr "aria-label") aria.1 :=
    haria ▸ syncNodes_establishes host jsonParse "data-translate-aria-label"
      (.attr "aria-label") (fun _ hne => by cases hne; decide) title.1 title.2
      (haria ▸ hnone) aria.2.manager (haria ▸ grows_refl _)
  rw [hrun]
  simp only [Page.updateDOM, syncNodes_settled host jsonParse _ _ aria.2.manager aria.1 hs1,
    syncNodes_settled host jsonParse _ _ aria.2.manager aria.1 hs2,
    syncNodes_settled host jsonParse _ _ aria.2.manager aria.1 hs3,
    syncNodes_settled host jsonParse _ _ aria.2.manager aria.1 hs4]

/-- C24: when a call of `updateDOM` completes, a second call completes as well
and leaves the page, that is the elements' contents and the manager with its
missing-key set, exactly as the first call left it; and an element whose
`data-translate-vars` attribute fails to parse is given the translation of its
key as it is stored (the key itself when it is missing), nothing interpolated,
and keeps its children when the lookup of the key, or the conversion of the
stored value to a text, raises. -/
theorem updateDOM_idempotent (host : Host) (jsonParse : String → Option JsValue) (page : Page)
    (h : (page.updateDOM host jsonParse).1 = .ok ()) :
    (page.updateDOM host jsonParse).2.updateDOM host jsonParse =
      (.ok (), (page.updateDOM host jsonParse).2) ∧
    ∀ (manager : TranslationManager) (attrs : List (String × String)) (children : List Node)
      (key text : String),
      getAttribute attrs "data-translate" = some key →
      getAttribute attrs "data-translate-vars" = some text → jsonParse text = none →
      (syncNode host jsonParse "data-translate" .textContent (.element attrs children)
          ⟨manager, none⟩).1 =
        match getNestedValue host manager.translations key with
        | .error _ => .element attrs children
        | .ok value =>
          match textChildren (if value.isNullish then .str key else value) with
          | .error _ => .element attrs children
          | .ok nodes => .element attrs nodes := by
  refine ⟨updateDOM_again host jsonParse page h, ?_⟩
  intro manager attrs children key text hkey hvars hparse
  have hv : syncVars jsonParse .textContent attrs = .obj [] := by
    simp only [syncVars, parseVars, hvars, hparse]
    split_ifs <;> rfl
  rw [syncNode, hkey]
  simp only [hv, TranslationManager.t]
  cases hwalk : getNestedValue host manager.translations key with
  | error e => rfl
  | ok value =>
    by_cases hn : value.isNullish = true
    · simp only [hn, if_true]
      cases textChildren (.str key) <;> rfl
    · simp only [hn, JsValue.isUndefined, JsValue.truthy, objectKeys, Bool.false_eq_true,
        if_false, Bool.not_true, List.map_nil, List.length_nil, gt_iff_lt, lt_self_iff_false]
      cases textChildren value <;> rfl

/-- The call of `updateDOM` that does not complete: on `nestedSectionPage` the
first call raises a `TypeError` at the element naming the section `services`,
after the element around it was given its text; the second call, which no
longer finds that element, completes and updates the last element, so that two
calls leave another document than one call. -/
theorem updateDOM_section_raises :
    (nestedSectionPage.updateDOM standardHost emailVarsParse).1 =
      .error (.typeError "text.replace is not a function") ∧
    ((nestedSectionPage.updateDOM standardHost emailVarsParse).2.updateDOM standardHost
        emailVarsParse).1 = .ok () ∧
    (nestedSectionPage.updateDOM standardHost emailVarsParse).2.document =
      [.element [("data-translate", "welcome")] [.text "Welcome to Studio Encantador"],
        .element [("data-translate", "welcome")] [.text "Loading..."]] ∧
    ((nestedSectionPage.updateDOM standardHost emailVarsParse).2.updateDOM standardHost
        emailVarsParse).2.document =
      [.element [("data-translate", "welcome")] [.text "Welcome to Studio Encantador"],
        .element [("data-translate", "welcome")] [.text "Welcome to Studio Encantador"]] :=
  ⟨rfl, rfl, rfl, rfl⟩

/-- C24 on the page of the test suite, whose first call completes. -/
theorem updateDOM_idempotent_witness :
    (domPage.updateDOM standardHost emailVarsParse).2.updateDOM standardHost emailVarsParse =
      (.ok (), (domPage.updateDOM standardHost emailVarsParse).2) :=
  (updateDOM_idempotent standardHost emailVarsParse domPage rfl).1

/-! ## TranslationManager: statistics -/

mutual
theorem flattenKeys_length : ∀ (value : JsValue) (pre : String), value.isObject = true →
    (flattenKeys value pre).length = leafCount value
  | .obj props, pre, _ => by
    simp only [flattenKeys, leafCount]
    exact flattenProps_length props pre
  | .arr items, pre, _ => by
    simp only [flattenKeys, leafCount]
    exact flattenItems_length items 0 pre
  | .str _, _, h => by simp [JsValue.isObject] at h
  | .undefined, _, h => by simp [JsValue.isObject] at h
  | .null, _, h => by simp [JsValue.isObject] at h
  | .bool _, _, h => by simp [JsValue.isObject] at h
  | .num _ _, _, h => by simp [JsValue.isObject] at h
  | .native _ _, _, h => by simp [JsValue.isObject] at h
theorem flattenProps_length : ∀ (props : List (String × JsValue)) (pre : String),
    (flattenProps props pre).length = leafCountProps props
  | [], _ => by simp only [flattenProps, leafCountProps, List.length_nil]
  | (key, value) :: rest, pre => by
    simp only [flattenProps, leafCountProps, List.length_append,
      flattenProps_length rest pre]
    by_cases h : value.isObject = true
    · simp only [h, if_true, flattenKeys_length value _ h]
    · simp only [h, if_false, List.length_singleton]
      simp
theorem flattenItems_length : ∀ (items : List JsValue) (index : Nat) (pre : String),
    (flattenItems items index pre).length = leafCountItems items
  | [], _, _ => by simp only [flattenItems, leafCountItems, List.length_nil]
  | value :: rest, index, pre => by
    simp only [flattenItems, leafCountItems, List.length_append,
      flattenItems_length rest (index + 1) pre]
    by_cases h : value.isObject = true
    · simp only [h, if_true, flattenKeys_length value _ h]
    · simp only [h, if_false, List.length_singleton]
      simp
end

/-- C25: for a document that is an object, `getStats().totalKeys` is the number
of leaf paths of the document, `missingKeysCount` is the length of the returned
`missingKeys`, and `language` is the current locale. -/
theorem getStats_counts (now : String) (self : TranslationManager)
    (h : self.translations.isObject = true) :
    (self.getStats now).totalKeys = leafCount self.translations ∧
    (self.getStats now).missingKeysCount = (self.getStats now).missingKeys.length ∧
    (self.getStats now).language = self.currentLanguage :=
  ⟨flattenKeys_length self.translations "" h, rfl, rfl⟩

/-- C25 on a document with a string, a `null`, an empty object and a nested
object of two strings: four leaf paths. -/
theorem getStats_counts_witness :
    (statsManager.getStats "2024-01-01T00:00:00.000Z").totalKeys = 4 ∧
    leafCount statsManager.translations = 4 ∧
    (statsManager.getStats "2024-01-01T00:00:00.000Z").missingKeysCount = 2 ∧
    (statsManager.getStats "2024-01-01T00:00:00.000Z").language = "zh-hk" := by
  have h := getStats_counts "2024-01-01T00:00:00.000Z" statsManager rfl
  exact ⟨h.1.trans (by decide), by decide, h.2.1.trans (by decide), h.2.2.trans (by decide)⟩

/-! ## An invalid locale -/

/-- C22: a string that is not a supported locale changes nothing: the store is
as it was after `saveLanguagePreference`, and the legacy `setLanguage` returns
with the switcher, its `currentLanguage` included, and the browser, with the
stored preference and the URL, as they were; and a supported locale that is
saved is the stored preference read afterwards. -/
theorem invalid_locale_rejected (api : BrowserApi) (localStorage : List (String × String))
    (switcher : Legacy.LanguageSwitcher) (browser : Legacy.Browser) (language : String) :
    (language ∉ supportedLanguages →
      saveLanguagePreference localStorage language = localStorage ∧
      Legacy.setLanguage api switcher browser language = (.ok (), switcher, browser)) ∧
    (language ∈ supportedLanguages →
      getStoredLanguagePreference (saveLanguagePreference localStorage language) =
        some language) := by
  refine ⟨?_, saveLanguagePreference_supported localStorage language⟩
  intro h
  have hc : supportedLanguages.contains language = false := by simpa using h
  have hl : Legacy.supportedLanguages.contains language = false := hc
  simp only [saveLanguagePreference, Legacy.setLanguage, hc, hl]
  exact ⟨rfl, rfl⟩

/-- C22 at `invalid`, the code of the test suite, and at `zh-hk`, which is
stored and becomes the current locale. -/
theorem invalid_locale_rejected_witness :
    saveLanguagePreference [(storageKey, "en")] "invalid" = [(storageKey, "en")] ∧
    Legacy.setLanguage plainApi ⟨"en"⟩ legacyBrowser "invalid" =
      (.ok (), ⟨"en"⟩, legacyBrowser) ∧
    getStoredLanguagePreference (saveLanguagePreference [(storageKey, "en")] "zh-hk") =
      some "zh-hk" ∧
    Legacy.setLanguage plainApi ⟨"en"⟩ legacyBrowser "zh-hk" =
      (.ok (), ⟨"zh-hk"⟩,
        { pathname := "/zh-hk/", localStorage := [("preferred-language", "zh-hk")],
          fetched := ["/assets/translations/zh-hk.json"], pushed := ["/zh-hk/"] }) := by
  have h := invalid_locale_rejected plainApi [(storageKey, "en")] ⟨"en"⟩ legacyBrowser
  exact ⟨((h "invalid").1 (by decide)).1, ((h "invalid").1 (by decide)).2,
    (h "zh-hk").2 (by decide), rfl⟩

/-! ## ContactForm: phone numbers -/

namespace ContactForm

theorem utf16_code : utf16 "+852" = [43, 56, 53, 50] := by decide

theorem utf16_code_space : utf16 "+852 " = [43, 56, 53, 50, 32] := by decide

theorem utf16_space : utf16 " " = [32] := by decide

theorem removeWhitespace_clean (s : List Nat) (h : ∀ u ∈ s, isWhiteSpace u = false) :
    removeWhitespace s = s := by
  unfold removeWhitespace
  rw [List.filter_eq_self]
  intro u hu
  simp [h u hu]

theorem isWhiteSpace_of_removeWhitespace (s : List Nat) :
    ∀ u ∈ removeWhitespace s, isWhiteSpace u = false := by
  intro u hu
  unfold removeWhitespace at hu
  simpa using (List.mem_filter.1 hu).2

theorem removeWhitespace_idem (s : List Nat) :
    removeWhitespace (removeWhitespace s) = removeWhitespace s :=
  removeWhitespace_clean _ (isWhiteSpace_of_removeWhitespace s)

/-- The canonical form of a number without white space, cleaned again. -/
theorem removeWhitespace_canonical (number : List Nat)
    (h : ∀ u ∈ number, isWhiteSpace u = false) :
    removeWhitespace (utf16 "+852 " ++ number.take 4 ++ utf16 " " ++ number.drop 4) =
      utf16 "+852" ++ number := by
  have h1 : removeWhitespace (number.take 4) = number.take 4 :=
    removeWhitespace_clean _ fun u hu => h u (List.mem_of_mem_take hu)
  have h2 : removeWhitespace (number.drop 4) = number.drop 4 :=
    removeWhitespace_clean _ fun u hu => h u (List.mem_of_mem_drop hu)
  have happ : ∀ a b, removeWhitespace (a ++ b) = removeWhitespace a ++ removeWhitespace b :=
    fun a b => by simp [removeWhitespace]
  rw [happ, happ, happ, h1, h2, utf16_code_space, utf16_space, utf16_code]
  have h3 : removeWhitespace [43, 56, 53, 50, 32] = [43, 56, 53, 50] := by decide
  have h4 : removeWhitespace [32] = [] := by decide
  rw [h3, h4, List.append_nil, List.append_assoc, List.take_append_drop]

/-- What `formatHongKongPhone` makes of a number that carries the country code. -/
theorem formatHongKongPhone_code (phone number : List Nat)
    (h : removeWhitespace phone = utf16 "+852" ++ number) :
    formatHongKongPhone phone =
      utf16 "+852 " ++ number.take 4 ++ utf16 " " ++ number.drop 4 := by
  have hp : (utf16 "+852").isPrefixOf (removeWhitespace phone) = true := by
    rw [h]
    simp
  have hlen : (utf16 "+852").length = 4 := by decide
  have hd : (removeWhitespace phone).drop 4 = number := by
    rw [h, ← hlen, List.drop_left]
  simp only [formatHongKongPhone, hp, if_true, hd]

/-- C28: `formatHongKongPhone` maps a number that is, its white space removed,
eight digits `d1`..`d8` to `+852 d1d2d3d4 d5d6d7d8`; a number that is `+852`
and eight units, its white space removed, to the same form; a number already
in that form to itself; and it is idempotent. -/
theorem formatHongKongPhone_canonical (phone : List Nat) :
    (∀ d1 d2 d3 d4 d5 d6 d7 d8 : Nat,
      removeWhitespace phone = [d1, d2, d3, d4, d5, d6, d7, d8] →
      [d1, d2, d3, d4, d5, d6, d7, d8].all isDigit = true →
      formatHongKongPhone phone =
        utf16 "+852 " ++ [d1, d2, d3, d4] ++ utf16 " " ++ [d5, d6, d7, d8]) ∧
    (∀ d1 d2 d3 d4 d5 d6 d7 d8 : Nat,
      removeWhitespace phone = utf16 "+852" ++ [d1, d2, d3, d4, d5, d6, d7, d8] →
      formatHongKongPhone phone =
        utf16 "+852 " ++ [d1, d2, d3, d4] ++ utf16 " " ++ [d5, d6, d7, d8]) ∧
    (∀ d1 d2 d3 d4 d5 d6 d7 d8 : Nat,
      [d1, d2, d3, d4, d5, d6, d7, d8].all isDigit = true →
      formatHongKongPhone
          (utf16 "+852 " ++ [d1, d2, d3, d4] ++ utf16 " " ++ [d5, d6, d7, d8]) =
        utf16 "+852 " ++ [d1, d2, d3, d4] ++ utf16 " " ++ [d5, d6, d7, d8]) ∧
    formatHongKongPhone (formatHongKongPhone phone) = formatHongKongPhone phone := by
  refine ⟨?_, ?_, ?_, ?_⟩
  · intro d1 d2 d3 d4 d5 d6 d7 d8 hclean hdigits
    have hd1 : isDigit d1 = true := by
      simp only [List.all_cons, Bool.and_eq_true] at hdigits
      exact hdigits.1
    have hne : d1 ≠ 43 := by
      intro h
      rw [h] at hd1
      exact absurd hd1 (by decide)
    have hp : (utf16 "+852").isPrefixOf [d1, d2, d3, d4, d5, d6, d7, d8] = false := by
      rw [utf16_code]
      simp [List.isPrefixOf, Ne.symm hne]
    simp only [formatHongKongPhone, hclean, hp]
    simp
  · intro d1 d2 d3 d4 d5 d6 d7 d8 hclean
    rw [formatHongKongPhone_code phone _ hclean]
    rfl
  · intro d1 d2 d3 d4 d5 d6 d7 d8 hdigits
    have hws : ∀ u ∈ [d1, d2, d3, d4, d5, d6, d7, d8], isWhiteSpace u = false := by
      intro u hu
      have hd : isDigit u = true := List.all_eq_true.1 hdigits u hu
      simp only [isDigit, Bool.and_eq_true, decide_eq_true_eq] at hd
      simp only [isWhiteSpace]
      simp only [Bool.or_eq_false_iff, Bool.and_eq_false_iff, decide_eq_false_iff_not]
      omega
    have h := removeWhitespace_canonical [d1, d2, d3, d4, d5, d6, d7, d8] hws
    have h2 := formatHongKongPhone_code _ _ h
    exact h2
  · by_cases hp : (utf16 "+852").isPrefixOf (removeWhitespace phone) = true
    · obtain ⟨number, hnumber⟩ := List.isPrefixOf_iff_prefix.1 hp
      have hws : ∀ u ∈ number, isWhiteSpace u = false := fun u hu =>
        isWhiteSpace_of_removeWhitespace phone u (hnumber ▸ List.mem_append_right _ hu)
      rw [formatHongKongPhone_code phone number hnumber.symm]
      exact formatHongKongPhone_code _ number (removeWhitespace_canonical number hws)
    · by_cases hlen : (removeWhitespace phone).length = 8
      · have hout : formatHongKongPhone phone =
            utf16 "+852 " ++ (removeWhitespace phone).take 4 ++ utf16 " " ++
              (removeWhitespace phone).drop 4 := by
          simp only [formatHongKongPhone, hp, hlen, if_true]
          simp
        rw [hout]
        exact formatHongKongPhone_code _ _
          (removeWhitespace_canonical _ (isWhiteSpace_of_removeWhitespace phone))
      · have hout : formatHongKongPhone phone = phone := by
          simp only [formatHongKongPhone, hp, hlen]
          simp
        rw [hout, hout]

/-- C28 at `9876 5432`, the mobile number of the test suite written with a
space. -/
theorem formatHongKongPhone_canonical_witness :
    formatHongKongPhone (utf16 "9876 5432") = utf16 "+852 9876 5432" :=
  ((formatHongKongPhone_canonical (utf16 "9876 5432")).1 57 56 55 54 53 52 51 50
    (by decide) (by decide)).trans (by decide)

theorem isWhiteSpace_of_isDigit (u : Nat) (h : isDigit u = true) : isWhiteSpace u = false := by
  simp only [isDigit, Bool.and_eq_true, decide_eq_true_eq] at h
  simp only [isWhiteSpace]
  simp only [Bool.or_eq_false_iff, Bool.and_eq_false_iff, decide_eq_false_iff_not]
  omega

theorem optionalSpace_cases (l : List Nat) :
    optionalSpace l = l ∨ ∃ u, isWhiteSpace u = true ∧ l = u :: optionalSpace l := by
  cases l with
  | nil => exact Or.inl rfl
  | cons u rest =>
    by_cases h : isWhiteSpace u = true
    · exact Or.inr ⟨u, h, by simp [optionalSpace, h]⟩
    · exact Or.inl (by simp [optionalSpace, h])

theorem removeWhitespace_optionalSpace (l : List Nat) :
    removeWhitespace (optionalSpace l) = removeWhitespace l := by
  rcases optionalSpace_cases l with h | ⟨u, hu, h⟩
  · rw [h]
  · conv_rhs => rw [h]
    simp [removeWhitespace, hu]

/-- A number with the country code that the pattern accepts is accepted without
its white space as well. -/
theorem hkPhoneWithCodePattern_removeWhitespace (phone : List Nat)
    (h : hkPhoneWithCodePattern phone = true) :
    hkPhoneWithCodePattern (removeWhitespace phone) = true := by
  simp only [hkPhoneWithCodePattern, Bool.and_eq_true] at h
  obtain ⟨hp, hmatch⟩ := h
  obtain ⟨rest0, hrest0⟩ := List.isPrefixOf_iff_prefix.1 hp
  have hlen : (utf16 "+852").length = 4 := by decide
  have hd : phone.drop 4 = rest0 := by rw [← hrest0, ← hlen, List.drop_left]
  rw [hd] at hmatch
  cases hos : optionalSpace rest0 with
  | nil => simp [hos] at hmatch
  | cons first rest =>
    rw [hos] at hmatch
    simp only [Bool.and_eq_true, decide_eq_true_eq] at hmatch
    obtain ⟨⟨⟨⟨hlead, hlen3⟩, hdig3⟩, hlen4⟩, hdig4⟩ := hmatch
    have hfirst : isWhiteSpace first = false := by
      simp only [Bool.or_eq_true, decide_eq_true_eq] at hlead
      rcases hlead with (((h | h) | h) | h) | h <;> subst h <;> decide
    have hclean3 : removeWhitespace (rest.take 3) = rest.take 3 :=
      removeWhitespace_clean _ fun u hu =>
        isWhiteSpace_of_isDigit u (List.all_eq_true.1 hdig3 u hu)
    have hclean4 : removeWhitespace (rest.drop 3) = optionalSpace (rest.drop 3) := by
      rw [← removeWhitespace_optionalSpace]
      exact removeWhitespace_clean _ fun u hu =>
        isWhiteSpace_of_isDigit u (List.all_eq_true.1 hdig4 u hu)
    have hrest : removeWhitespace rest = rest.take 3 ++ optionalSpace (rest.drop 3) := by
      conv_lhs => rw [← List.take_append_drop 3 rest]
      have happ : ∀ a b, removeWhitespace (a ++ b) = removeWhitespace a ++ removeWhitespace b :=
        fun a b => by simp [removeWhitespace]
      rw [happ, hclean3, hclean4]
    have hall : removeWhitespace phone =
        utf16 "+852" ++ first :: (rest.take 3 ++ optionalSpace (rest.drop 3)) := by
      rw [← hrest0]
      have happ : ∀ a b, removeWhitespace (a ++ b) = removeWhitespace a ++ removeWhitespace b :=
        fun a b => by simp [removeWhitespace]
      rw [happ, ← removeWhitespace_optionalSpace rest0, hos]
      have hcode : removeWhitespace (utf16 "+852") = utf16 "+852" := by decide
      rw [hcode, ← hrest]
      simp [removeWhitespace, hfirst]
    rw [hall]
    generalize htake : rest.take 3 = three at hlen3 hdig3
    generalize htail : optionalSpace (rest.drop 3) = tail at hlen4 hdig4
    match three, hlen3, tail, hlen4 with
    | [a, b, c], _, [d, e, f, g], _ =>
      have hd : isWhiteSpace d = false :=
        isWhiteSpace_of_isDigit d (List.all_eq_true.1 hdig4 d (by simp))
      simp only [List.all_cons, List.all_nil, Bool.and_true, Bool.and_eq_true] at hdig3 hdig4
      rw [utf16_code]
      simp [hkPhoneWithCodePattern, utf16_code, optionalSpace, hfirst, hd, hlead, hdig3, hdig4]

/-- C30: a number without the country code is as valid as it is with all its
white space removed, and a number with the country code that is valid stays
valid when its white space is removed; but `+852  9876 5432`, with two spaces
after the code, and ` +852 9876 5432`, with a space before it, are not valid,
and are valid with their white space removed. -/
theorem isValidHongKongPhone_spacing (phone : List Nat) :
    ((utf16 "+852").isPrefixOf (removeWhitespace phone) = false →
      isValidHongKongPhone phone = isValidHongKongPhone (removeWhitespace phone)) ∧
    (isValidHongKongPhone phone = true →
      isValidHongKongPhone (removeWhitespace phone) = true) ∧
    (isValidHongKongPhone (utf16 "+852  9876 5432") = false ∧
      isValidHongKongPhone (removeWhitespace (utf16 "+852  9876 5432")) = true) ∧
    (isValidHongKongPhone (utf16 " +852 9876 5432") = false ∧
      isValidHongKongPhone (removeWhitespace (utf16 " +852 9876 5432")) = true) := by
  have hlocal : (utf16 "+852").isPrefixOf (removeWhitespace phone) = false →
      isValidHongKongPhone phone = isValidHongKongPhone (removeWhitespace phone) := by
    intro hp
    simp only [isValidHongKongPhone, removeWhitespace_idem, hp, Bool.false_eq_true, if_false]
  refine ⟨hlocal, ?_, by decide, by decide⟩
  intro hvalid
  by_cases hp : (utf16 "+852").isPrefixOf (removeWhitespace phone) = true
  · simp only [isValidHongKongPhone, hp, if_true] at hvalid
    simp only [isValidHongKongPhone, removeWhitespace_idem, hp, if_true]
    exact hkPhoneWithCodePattern_removeWhitespace phone hvalid
  · simp only [Bool.not_eq_true] at hp
    rw [← hlocal hp]
    exact hvalid

/-! ## ContactForm: validation -/

theorem trimmedLength_of_isBlank (field : Option (List Nat)) (h : isBlank field = true) :
    trimmedLength field = 0 := by
  cases field with
  | none => rfl
  | some text =>
    simp only [isBlank, Bool.or_eq_true, List.isEmpty_iff] at h
    rcases h with h | h
    · subst h
      rfl
    · simp [trimmedLength, h]

theorem isBlank_of_trimmedLength (field : Option (List Nat)) (h : trimmedLength field = 0) :
    isBlank field = true := by
  cases field with
  | none => rfl
  | some text =>
    simp only [trimmedLength, List.length_eq_zero] at h
    simp [isBlank, h]

theorem trim_ne_nil (text : List Nat) (u : Nat) (rest : List Nat) (h : text = u :: rest)
    (hu : isWhiteSpace u = false) : trim text ≠ [] := by
  subst h
  have h1 : (u :: rest).dropWhile isWhiteSpace = u :: rest := by
    simp [List.dropWhile, hu]
  intro h2
  simp only [trim, h1, List.reverse_eq_nil_iff, List.dropWhile_eq_nil_iff] at h2
  have h3 := h2 u (by simp)
  rw [hu] at h3
  exact absurd h3 (by decide)

theorem not_isBlank_of_isValidEmail (email : List Nat) (h : isValidEmail email = true) :
    isBlank (some email) = false := by
  cases email with
  | nil => simp [isValidEmail] at h
  | cons u rest =>
    by_cases hu : isAddressUnit u = true
    · have hws : isWhiteSpace u = false := by
        simp only [isAddressUnit, Bool.and_eq_true, Bool.not_eq_true'] at hu
        exact hu.1
      have ht := trim_ne_nil (u :: rest) u rest rfl hws
      simp [isBlank, ht]
    · simp [isValidEmail, List.dropWhile, List.takeWhile, hu] at h

theorem validateForm_name (translations : JsValue) (formData : FormData) :
    (validateForm translations formData).name =
      if isBlank formData.name = true then
        some (getTranslation translations "contact.form.name.required" "Name is required")
      else if trimmedLength formData.name < 2 then
        some (getTranslation translations "contact.form.name.minLength"
          "Name must be at least 2 characters")
      else none := by
  cases h : formData.name <;> simp [validateForm, isBlank, trimmedLength, h]

theorem validateForm_email (translations : JsValue) (formData : FormData) :
    (validateForm translations formData).email =
      if isBlank formData.email = true then
        some (getTranslation translations "contact.form.email.required" "Email is required")
      else if fieldHolds isValidEmail formData.email = false then
        some (getTranslation translations "contact.form.email.invalid"
          "Please enter a valid email address")
      else none := by
  cases h : formData.email <;> simp [validateForm, isBlank, fieldHolds, h]

theorem validateForm_phone (translations : JsValue) (formData : FormData) :
    (validateForm translations formData).phone =
      if isBlank formData.phone = true then none
      else if fieldHolds isValidHongKongPhone formData.phone = false then
        some (getTranslation translations "contact.form.phone.invalid"
          "Please enter a valid Hong Kong phone number")
      else none := by
  cases h : formData.phone with
  | none => simp [validateForm, isBlank, h]
  | some text =>
    by_cases h1 : text.isEmpty = true <;> by_cases h2 : (trim text).isEmpty = true <;>
      simp [validateForm, isBlank, fieldHolds, h, h1, h2]

theorem validateForm_message (translations : JsValue) (formData : FormData) :
    (validateForm translations formData).message =
      if isBlank formData.message = true then
        some (getTranslation translations "contact.form.message.required"
          "Message is required")
      else if trimmedLength formData.message < 10 then
        some (getTranslation translations "contact.form.message.minLength"
          "Message must be at least 10 characters")
      else none := by
  cases h : formData.message <;> simp [validateForm, isBlank, trimmedLength, h]

/-- C27: `validateForm` returns an empty error set exactly when the trimmed
name has at least 2 units, the email passes `isValidEmail`, the phone is blank
or passes `isValidHongKongPhone`, and the trimmed message has at least 10
units; and what is under the key of a field depends on that field alone: the
`required` message when it is blank, the length or format message when it
fails otherwise, nothing when it passes (a blank phone passes). -/
theorem validateForm_errors (translations : JsValue) (formData : FormData) :
    ((validateForm translations formData).isEmpty = true ↔
      2 ≤ trimmedLength formData.name ∧
      fieldHolds isValidEmail formData.email = true ∧
      (isBlank formData.phone = true ∨
        fieldHolds isValidHongKongPhone formData.phone = true) ∧
      10 ≤ trimmedLength formData.message) ∧
    (validateForm translations formData).name =
      (if isBlank formData.name = true then
        some (getTranslation translations "contact.form.name.required" "Name is required")
      else if trimmedLength formData.name < 2 then
        some (getTranslation translations "contact.form.name.minLength"
          "Name must be at least 2 characters")
      else none) ∧
    (validateForm translations formData).email =
      (if isBlank formData.email = true then
        some (getTranslation translations "contact.form.email.required" "Email is required")
      else if fieldHolds isValidEmail formData.email = false then
        some (getTranslation translations "contact.form.email.invalid"
          "Please enter a valid email address")
      else none) ∧
    (validateForm translations formData).phone =
      (if isBlank formData.phone = true then none
      else if fieldHolds isValidHongKongPhone formData.phone = false then
        some (getTranslation translations "contact.form.phone.invalid"
          "Please enter a valid Hong Kong phone number")
      else none) ∧
    (validateForm translations formData).message =
      (if isBlank formData.message = true then
        some (getTranslation translations "contact.form.message.required"
          "Message is required")
      else if trimmedLength formData.message < 10 then
        some (getTranslation translations "contact.form.message.minLength"
          "Message must be at least 10 characters")
      else none) := by
  have hname := validateForm_name translations formData
  have hemail := validateForm_email translations formData
  have hphone := validateForm_phone translations formData
  have hmessage := validateForm_message translations formData
  refine ⟨?_, hname, hemail, hphone, hmessage⟩
  have h1 : (validateForm translations formData).name.isNone = true ↔
      2 ≤ trimmedLength formData.name := by
    rw [hname]
    by_cases hb : isBlank formData.name = true
    · have h0 := trimmedLength_of_isBlank _ hb
      simp [hb, h0]
    · by_cases hl : trimmedLength formData.name < 2
      · simp [hb, hl]
      · have hl2 : 2 ≤ trimmedLength formData.name := by omega
        simp [hb, hl, hl2]
  have h4 : (validateForm translations formData).message.isNone = true ↔
      10 ≤ trimmedLength formData.message := by
    rw [hmessage]
    by_cases hb : isBlank formData.message = true
    · have h0 := trimmedLength_of_isBlank _ hb
      simp [hb, h0]
    · by_cases hl : trimmedLength formData.message < 10
      · simp [hb, hl]
      · have hl2 : 10 ≤ trimmedLength formData.message := by omega
        simp [hb, hl, hl2]
  have h2 : (validateForm translations formData).email.isNone = true ↔
      fieldHolds isValidEmail formData.email = true := by
    rw [hemail]
    by_cases hv : fieldHolds isValidEmail formData.email = true
    · have hb : isBlank formData.email = false := by
        cases he : formData.email with
        | none => simp [fieldHolds, he] at hv
        | some email =>
          rw [he] at hv
          exact not_isBlank_of_isValidEmail email hv
      simp [hb, hv]
    · by_cases hb : isBlank formData.email = true <;> simp [hb, hv]
  have h3 : (validateForm translations formData).phone.isNone = true ↔
      (isBlank formData.phone = true ∨
        fieldHolds isValidHongKongPhone formData.phone = true) := by
    rw [hphone]
    by_cases hb : isBlank formData.phone = true
    · simp [hb]
    · by_cases hv : fieldHolds isValidHongKongPhone formData.phone = true <;> simp [hb, hv]
  simp only [FormErrors.isEmpty, Bool.and_eq_true, h1, h2, h3, h4, and_assoc]

/-- C27 on the valid form data of the test suite, and with the message `Hi`. -/
theorem validateForm_errors_witness :
    (validateForm domTranslations validFormData).isEmpty = true ∧
    (validateForm domTranslations { validFormData with message := some (utf16 "Hi") }).message =
      some (.str "Message must be at least 10 characters") := by
  have h := validateForm_errors domTranslations
  exact ⟨(h validFormData).1.2 (by decide), (h _).2.2.2.2.trans rfl⟩

/-! ## ContactForm: the regular expressions -/

/-- The recogniser `isValidEmail` accepts what its regular expression accepts. -/
theorem isValidEmail_iff (email : List Nat) : isValidEmail email = true ↔ EmailShape email := by
  constructor
  · intro h
    unfold isValidEmail at h
    have hsplit := List.takeWhile_append_dropWhile isAddressUnit email
    cases hd : email.dropWhile isAddressUnit with
    | nil => simp [hd] at h
    | cons sign domain =>
      rw [hd] at h hsplit
      simp only [Bool.and_eq_true, decide_eq_true_eq, Bool.not_eq_true', List.isEmpty_eq_false,
        List.all_eq_true] at h
      obtain ⟨⟨⟨hsign, hfirst⟩, hdomain⟩, hdot⟩ := h
      subst hsign
      cases domain with
      | nil => simp at hdot
      | cons d0 rest =>
        simp only [List.drop_succ_cons, List.drop_zero] at hdot
        have hmem : 46 ∈ rest.dropLast := by simpa using hdot
        obtain ⟨p, q, hpq⟩ := List.append_of_mem hmem
        have hrest : rest ≠ [] := by
          intro hnil
          rw [hnil] at hmem
          simp at hmem
        have hlast := List.dropLast_append_getLast hrest
        refine ⟨email.takeWhile isAddressUnit, d0 :: p, q ++ [rest.getLast hrest], ?_, ?_, ?_,
          ?_, ?_, ?_, ?_⟩
        · have hrest2 : rest = p ++ 46 :: (q ++ [rest.getLast hrest]) := by
            conv_lhs => rw [← hlast, hpq]
            simp
          conv_lhs => rw [← hsplit, hrest2]
          simp
        · simpa using hfirst
        · simp
        · simp
        · intro u hu
          exact (List.mem_takeWhile_imp hu)
        · intro u hu
          apply hdomain
          have : u ∈ d0 :: rest.dropLast := by
            rw [hpq]
            rcases List.mem_cons.1 hu with h1 | h1
            · exact h1 ▸ List.mem_cons_self _ _
            · exact List.mem_cons_of_mem _ (List.mem_append_left _ h1)
          rcases List.mem_cons.1 this with h1 | h1
          · exact h1 ▸ List.mem_cons_self _ _
          · exact List.mem_cons_of_mem _ (List.dropLast_subset _ h1)
        · intro u hu
          apply hdomain
          rcases List.mem_append.1 hu with h1 | h1
          · have : u ∈ rest.dropLast := by
              rw [hpq]
              exact List.mem_append_right _ (List.mem_cons_of_mem _ h1)
            exact List.mem_cons_of_mem _ (List.dropLast_subset _ this)
          · simp only [List.mem_singleton] at h1
            rw [h1]
            exact List.mem_cons_of_mem _ (List.getLast_mem hrest)
  · rintro ⟨first, second, last, heq, hf, hs, hl, hfa, hsa, hla⟩
    have hat : isAddressUnit 64 = false := by decide
    have hdot : isAddressUnit 46 = true := by decide
    have htake : email.takeWhile isAddressUnit = first := by
      rw [heq, List.takeWhile_append_of_pos hfa]
      simp [List.takeWhile, hat]
    have hdrop : email.dropWhile isAddressUnit = 64 :: (second ++ 46 :: last) := by
      rw [heq, List.dropWhile_append_of_pos hfa]
      simp [List.dropWhile, hat]
    unfold isValidEmail
    rw [hdrop, htake]
    simp only [Bool.and_eq_true, decide_eq_true_eq, Bool.not_eq_true', List.isEmpty_eq_false,
      List.all_eq_true]
    refine ⟨⟨⟨trivial, by simpa using hf⟩, ?_⟩, ?_⟩
    · intro u hu
      rcases List.mem_append.1 hu with h1 | h1
      · exact hsa u h1
      · rcases List.mem_cons.1 h1 with h2 | h2
        · rw [h2]; exact hdot
        · exact hla u h2
    · cases second with
      | nil => exact absurd rfl hs
      | cons b rest =>
        have hne : (46 :: last) ≠ [] := by simp
        have hl2 : (46 :: last).dropLast = 46 :: last.dropLast := by
          cases last with
          | nil => exact absurd rfl hl
          | cons c cs => rfl
        simp only [List.cons_append, List.drop_succ_cons, List.drop_zero]
        rw [List.dropLast_append_of_ne_nil _ hne, hl2]
        simp

theorem optionalSpace_split (l : List Nat) :
    ∃ space, OptionalSpace space ∧ l = space ++ optionalSpace l := by
  rcases optionalSpace_cases l with h | ⟨u, hu, h⟩
  · exact ⟨[], Or.inl rfl, by rw [h]; rfl⟩
  · exact ⟨[u], Or.inr ⟨u, hu, rfl⟩, by simpa using h⟩

theorem optionalSpace_append (space rest : List Nat) (u : Nat) (hspace : OptionalSpace space)
    (hu : isWhiteSpace u = false) : optionalSpace (space ++ u :: rest) = u :: rest := by
  rcases hspace with h | ⟨w, hw, h⟩
  · subst h
    simp [optionalSpace, hu]
  · subst h
    simp [optionalSpace, hw]

/-- The recogniser `hkPhoneWithCodePattern` accepts what its regular expression
accepts. -/
theorem hkPhoneWithCodePattern_iff (phone : List Nat) :
    hkPhoneWithCodePattern phone = true ↔ CodedPhoneShape phone := by
  have hlen : (utf16 "+852").length = 4 := by decide
  constructor
  · intro h
    simp only [hkPhoneWithCodePattern, Bool.and_eq_true] at h
    obtain ⟨hp, hmatch⟩ := h
    obtain ⟨rest0, hrest0⟩ := List.isPrefixOf_iff_prefix.1 hp
    have hd : phone.drop 4 = rest0 := by rw [← hrest0, ← hlen, List.drop_left]
    rw [hd] at hmatch
    obtain ⟨space1, hspace1, hsplit1⟩ := optionalSpace_split rest0
    cases hos : optionalSpace rest0 with
    | nil => simp [hos] at hmatch
    | cons lead rest =>
      rw [hos] at hmatch hsplit1
      simp only [Bool.and_eq_true, decide_eq_true_eq, List.all_eq_true] at hmatch
      obtain ⟨⟨⟨⟨hlead, hlen3⟩, hdig3⟩, hlen4⟩, hdig4⟩ := hmatch
      obtain ⟨space2, hspace2, hsplit2⟩ := optionalSpace_split (rest.drop 3)
      refine ⟨space1, lead, rest.take 3, space2, optionalSpace (rest.drop 3), ?_, hspace1,
        hspace2, ?_, hlen3, hdig3, hlen4, hdig4⟩
      · rw [← hsplit2, List.take_append_drop, ← hsplit1, hrest0]
      · simp only [Bool.or_eq_true, decide_eq_true_eq] at hlead
        tauto
  · rintro ⟨space1, lead, three, space2, four, heq, hspace1, hspace2, hlead, hlen3, hdig3,
      hlen4, hdig4⟩
    have hleadws : isWhiteSpace lead = false := by
      rcases hlead with h | h | h | h | h <;> subst h <;> decide
    have hp : (utf16 "+852").isPrefixOf phone = true := by
      rw [heq]
      simp
    have hd : phone.drop 4 = space1 ++ lead :: (three ++ (space2 ++ four)) := by
      rw [heq, ← hlen, List.drop_left]
    have htake : (three ++ (space2 ++ four)).take 3 = three := by
      rw [← hlen3, List.take_left]
    have hdrop : (three ++ (space2 ++ four)).drop 3 = space2 ++ four := by
      rw [← hlen3, List.drop_left]
    have hfour : optionalSpace (space2 ++ four) = four := by
      cases four with
      | nil => simp at hlen4
      | cons d rest =>
        exact optionalSpace_append space2 rest d hspace2
          (isWhiteSpace_of_isDigit d (hdig4 d (List.mem_cons_self _ _)))
    simp only [hkPhoneWithCodePattern, hp, hd,
      optionalSpace_append space1 _ lead hspace1 hleadws, htake, hdrop, hfour, hlen3, hlen4,
      Bool.true_and, Bool.and_eq_true, decide_eq_true_eq, List.all_eq_true, Bool.or_eq_true]
    refine ⟨⟨⟨⟨?_, trivial⟩, hdig3⟩, trivial⟩, hdig4⟩
    tauto

end ContactForm

end Encantador
